import Mathlib

/-!
# tinyraytracer-C: a shallow embedding of `tinyraytracer.c`

The C program computes with `float`.  The embedding is in exact arithmetic and
generic over a linearly ordered field `F`: the definitions are computable (on
`ℚ`, say) and the theorems hold in particular for `F = ℝ`.  The libm functions
`sqrt`, `pow` and `tan` are not field operations, so every function that calls
them takes them as explicit arguments; the theorems that depend on what a square
root is are stated over `ℝ` with `Real.sqrt`.  The C cast `(int)` truncates
toward zero and is defined from the floor function of `F`; `n & 1` on an `int`
is `Int.land n 1`.  Arrays with their length (`spheres`, `num_spheres`) are
lists, and a loop over an array is a left fold.

The namespace `Binary32` holds a second model of the scene query and of the
shadow test of `cast_ray`, with every `float` operation rounded to binary32.  It
is used where a statement of exact arithmetic fails on the rounded program.
-/

namespace TinyRaytracer

/-! ## Data model -/

/-- 3D vector struct (`typedef struct __vec3`). -/
structure vec3 (F : Type) where
  x : F
  y : F
  z : F
deriving DecidableEq

/-- Material struct: `float albedo[4]` is a function on `Fin 4`. -/
structure Material (F : Type) where
  refractive_index : F
  albedo : Fin 4 → F
  diffuse_color : vec3 F
  specular_exponent : F
deriving DecidableEq

/-- Sphere struct. -/
structure Sphere (F : Type) where
  center : vec3 F
  radius : F
  material : Material F
deriving DecidableEq

/-- The recursion limit: `#define DEPTH 10`. -/
def DEPTH : Int := 10

section Defs

variable {F : Type} [LinearOrderedField F]

/-- Max of two floats: `a > b ? a : b`. -/
def MAX (a b : F) : F := if a > b then a else b

/-- Min of two floats: `a < b ? a : b`. -/
def MIN (a b : F) : F := if a < b then a else b

def BACKGROUND_COLOR : vec3 F := ⟨0.1955, 0.9377, 0.6533⟩
def BOX_COLOR1 : vec3 F := ⟨0.9822, 0.6044, 0.1733⟩
def BOX_COLOR2 : vec3 F := ⟨0.9822, 0.2, 0.1733⟩

def ivory : Material F := ⟨1, ![0.9, 0.5, 0.1, 0], ⟨0.4, 0.4, 0.3⟩, 50⟩
def glass : Material F := ⟨1.5, ![0, 0.9, 0.1, 0.8], ⟨0.6, 0.7, 0.8⟩, 125⟩
def rubber : Material F := ⟨1, ![1.4, 0.3, 0, 0], ⟨0.4, 0.1, 0.1⟩, 10⟩
def mirror : Material F := ⟨1, ![0, 16, 0.8, 0], ⟨1, 1, 1⟩, 1425⟩

/-- The value `init_vec3` stores: the zero vector. -/
def init_vec3 : vec3 F := ⟨0, 0, 0⟩

/-- The value `init_Material` stores: the default material. -/
def init_Material : Material F :=
  { refractive_index := 1
    albedo := ![2, 0, 0, 0]
    diffuse_color := init_vec3
    specular_exponent := 0 }

/-! ## Vector algebra -/

def add (u v : vec3 F) : vec3 F := ⟨u.x + v.x, u.y + v.y, u.z + v.z⟩

def subtract (u v : vec3 F) : vec3 F := ⟨u.x - v.x, u.y - v.y, u.z - v.z⟩

def addinv (v : vec3 F) : vec3 F := ⟨-v.x, -v.y, -v.z⟩

def scale (v : vec3 F) (s : F) : vec3 F := ⟨v.x * s, v.y * s, v.z * s⟩

def dot (u v : vec3 F) : F := u.x * v.x + u.y * v.y + u.z * v.z

def norm (sqrt : F → F) (v : vec3 F) : F := sqrt (v.x * v.x + v.y * v.y + v.z * v.z)

def normalized (sqrt : F → F) (v : vec3 F) : vec3 F := scale v (1 / norm sqrt v)

def reflect (I N : vec3 F) : vec3 F := subtract I (scale N (2 * dot I N))

/-- The clamped cosine of `refract`: `cosi = -MAX(-1, MIN(1, dot(I, N)))`. -/
def cosi (I N : vec3 F) : F := -MAX (-1) (MIN 1 (dot I N))

/-- Refraction by Snell's law.  A back-face hit (`cosi < 0`) recurses with the
normal flipped and the two indices swapped. -/
def refract (sqrt : F → F) (I N : vec3 F) (eta_t eta_i : F) : vec3 F :=
  if h : cosi I N < 0 then
    refract sqrt I (addinv N) eta_i eta_t
  else
    let eta := eta_i / eta_t
    let k := 1 - eta * eta * (1 - cosi I N * cosi I N)
    if k < 0 then ⟨1, 0, 0⟩ else add (scale I eta) (scale N (eta * cosi I N - sqrt k))
termination_by (if cosi I N < 0 then 1 else 0 : Nat)
decreasing_by
  have hd : dot I (addinv N) = -dot I N := by simp only [dot, addinv]; ring
  have h2 : ¬ cosi I (addinv N) < 0 := by
    unfold cosi at *
    rw [hd]
    unfold MAX MIN at *
    split_ifs at * <;> linarith
  simp [h, h2]

/-! ## Geometry and intersection -/

/-- Ray-sphere intersection; the two out-parameters `*intersection` and `*d`
are returned as a pair. -/
def ray_sphere_intersect (sqrt : F → F) (orig dir : vec3 F) (s : Sphere F) : Bool × F :=
  let L := subtract s.center orig
  let tca := dot L dir
  let d2 := dot L L - tca * tca
  if d2 > s.radius * s.radius then (false, 0)
  else
    let thc := sqrt (s.radius * s.radius - d2)
    let t0 := tca - thc
    let t1 := tca + thc
    if t0 > 0.001 then (true, t0)
    else if t1 > 0.001 then (true, t1)
    else (false, 0)

/-! ## Scene query -/

variable [FloorRing F]

/-- The C conversion `(int)x` of a float: truncation toward zero. -/
def int_cast (x : F) : Int := if 0 ≤ x then ⌊x⌋ else ⌈x⌉

/-- The locals of `scene_intersect`: `nearest_dist`, `pt`, `Normal`, `mat`. -/
structure SceneState (F : Type) where
  nearest_dist : F
  pt : vec3 F
  Normal : vec3 F
  mat : Material F

/-- The result of `scene_intersect`: its out-parameters `*hit`, `*point`, `*N`,
`*material`. -/
structure HitRecord (F : Type) where
  hit : Bool
  point : vec3 F
  N : vec3 F
  material : Material F

/-- The state at the loop entry of `scene_intersect`.  In C `pt` and `Normal`
are declared without an initial value; the model starts them at the zero
vector.  They are overwritten by every accepted candidate. -/
def scene_init : SceneState F :=
  { nearest_dist := 10000000000
    pt := init_vec3
    Normal := init_vec3
    mat := init_Material }

/-- The distance to the floor plane `y = -4`: `d = -(orig.y + 4.f) / dir.y`. -/
def floor_dist (orig dir : vec3 F) : F := -(orig.y + 4) / dir.y

/-- The point where the ray meets the floor plane: `p = add(orig, scale(dir, d))`. -/
def floor_point (orig dir : vec3 F) : vec3 F := add orig (scale dir (floor_dist orig dir))

/-- The checkerboard colour at `p`:
`((int)(.5f * p.x + 1000.f) + (int)(.5f * p.z)) & 1 ? BOX_COLOR1 : BOX_COLOR2`. -/
def floor_color (p : vec3 F) : vec3 F :=
  if Int.land (int_cast (0.5 * p.x + 1000) + int_cast (0.5 * p.z)) 1 ≠ 0
  then BOX_COLOR1 else BOX_COLOR2

/-- The floor test of `scene_intersect` (the block guarded by
`fabs(dir.y) > .001f`). -/
def floor_step (orig dir : vec3 F) (st : SceneState F) : SceneState F :=
  if |dir.y| > 0.001 then
    let d := floor_dist orig dir
    let p := floor_point orig dir
    if d > 0.001 ∧ d < st.nearest_dist ∧ |p.x| < 10 ∧ p.z < -10 ∧ p.z > -30 then
      { nearest_dist := d
        pt := p
        Normal := ⟨0, 1, 0⟩
        mat := { st.mat with diffuse_color := floor_color p } }
    else st
  else st

/-- One iteration of the sphere loop of `scene_intersect`. -/
def sphere_step (sqrt : F → F) (orig dir : vec3 F) (st : SceneState F) (s : Sphere F) :
    SceneState F :=
  let r := ray_sphere_intersect sqrt orig dir s
  if r.1 = true ∧ r.2 ≤ st.nearest_dist then
    let pt := add orig (scale dir r.2)
    { nearest_dist := r.2
      pt := pt
      Normal := normalized sqrt (subtract pt s.center)
      mat := s.material }
  else st

/-- The locals of `scene_intersect` after the floor test and the sphere loop. -/
def scene_state (sqrt : F → F) (orig dir : vec3 F) (spheres : List (Sphere F)) : SceneState F :=
  spheres.foldl (sphere_step sqrt orig dir) (floor_step orig dir scene_init)

/-- Intersect a ray with the scene (the floor and the list of spheres). -/
def scene_intersect (sqrt : F → F) (orig dir : vec3 F) (spheres : List (Sphere F)) :
    HitRecord F :=
  let st := scene_state sqrt orig dir spheres
  { hit := decide (st.nearest_dist < 1000)
    point := st.pt
    N := st.Normal
    material := st.mat }

/-! ## Recursive ray caster -/

/-- One iteration of the light loop of `cast_ray`; the accumulator is
`(diffuse_light_intensity, specular_light_intensity)`. -/
def light_step (sqrt : F → F) (pow : F → F → F) (spheres : List (Sphere F))
    (dir pt N : vec3 F) (material : Material F) (acc : F × F) (light : vec3 F) : F × F :=
  let light_dir := normalized sqrt (subtract light pt)
  let sh := scene_intersect sqrt pt light_dir spheres
  if sh.hit = true ∧ norm sqrt (subtract sh.point pt) < norm sqrt (subtract light pt) then acc
  else
    (acc.1 + MAX 0 (dot light_dir N),
     acc.2 + pow (MAX 0 (-dot (reflect (addinv light_dir) N) dir)) material.specular_exponent)

/-- The compositing at the end of `cast_ray`. -/
def composite (material : Material F) (reflect_color refract_color : vec3 F)
    (diffuse_light_intensity specular_light_intensity : F) : vec3 F :=
  let diffuse_color := scale material.diffuse_color (diffuse_light_intensity * material.albedo 0)
  let specular_color := scale (⟨1, 1, 1⟩ : vec3 F) (specular_light_intensity * material.albedo 1)
  let reflection_color := scale reflect_color (material.albedo 2)
  let refraction_color := scale refract_color (material.albedo 3)
  ⟨diffuse_color.x + specular_color.x + reflection_color.x + refraction_color.x,
   diffuse_color.y + specular_color.y + reflection_color.y + refraction_color.y,
   diffuse_color.z + specular_color.z + reflection_color.z + refraction_color.z⟩

/-- Cast a ray into the scene. -/
def cast_ray (sqrt : F → F) (pow : F → F → F) (orig dir : vec3 F) (depth : Int)
    (spheres : List (Sphere F)) (lights : List (vec3 F)) : vec3 F :=
  let r := scene_intersect sqrt orig dir spheres
  if h : depth > DEPTH ∨ r.hit = false then BACKGROUND_COLOR
  else
    let reflect_dir := normalized sqrt (reflect dir r.N)
    let refract_dir := normalized sqrt (refract sqrt dir r.N r.material.refractive_index 1)
    let reflect_color := cast_ray sqrt pow r.point reflect_dir (depth + 1) spheres lights
    let refract_color := cast_ray sqrt pow r.point refract_dir (depth + 1) spheres lights
    let acc := lights.foldl (light_step sqrt pow spheres dir r.point r.N r.material) (0, 0)
    composite r.material reflect_color refract_color acc.1 acc.2
termination_by (DEPTH + 1 - depth).toNat
decreasing_by
  all_goals
    simp only [DEPTH, not_or, not_lt] at h ⊢
    omega

/-! ## Vocabulary of the claims -/

/-- The floor is a candidate for the ray: `|dir.y| > 0.001`, the plane distance
exceeds `0.001`, and the plane point lies inside the floor rectangle. -/
def floor_candidate (orig dir : vec3 F) : Prop :=
  |dir.y| > 0.001 ∧ floor_dist orig dir > 0.001 ∧
    |(floor_point orig dir).x| < 10 ∧ (floor_point orig dir).z < -10 ∧
    (floor_point orig dir).z > -30

/-- The point `orig + t*dir` lies on the surface of the sphere: its distance to
the centre equals the radius. -/
def on_sphere (sqrt : F → F) (orig dir : vec3 F) (s : Sphere F) (t : F) : Prop :=
  norm sqrt (subtract (add orig (scale dir t)) s.center) = s.radius

/-- The local `tca` of `ray_sphere_intersect`. -/
def sphere_tca (orig dir : vec3 F) (s : Sphere F) : F := dot (subtract s.center orig) dir

/-- The local `d2` of `ray_sphere_intersect`. -/
def sphere_d2 (orig dir : vec3 F) (s : Sphere F) : F :=
  dot (subtract s.center orig) (subtract s.center orig) - sphere_tca orig dir s * sphere_tca orig dir s

/-- The local `t0 = tca - thc` of `ray_sphere_intersect`. -/
def sphere_t0 (sqrt : F → F) (orig dir : vec3 F) (s : Sphere F) : F :=
  sphere_tca orig dir s - sqrt (s.radius * s.radius - sphere_d2 orig dir s)

/-- The local `t1 = tca + thc` of `ray_sphere_intersect`. -/
def sphere_t1 (sqrt : F → F) (orig dir : vec3 F) (s : Sphere F) : F :=
  sphere_tca orig dir s + sqrt (s.radius * s.radius - sphere_d2 orig dir s)

/-- The floor material: the default of `init_Material` with `diffuse_color`
replaced by `c`. -/
def floor_material (c : vec3 F) : Material F := { (init_Material : Material F) with diffuse_color := c }

/-- The non-recursive part of `refract`: the sentinel `(1,0,0)` on total internal
reflection (`k < 0`), Snell's direction otherwise. -/
def snell (sqrt : F → F) (I N : vec3 F) (eta_t eta_i : F) : vec3 F :=
  let eta := eta_i / eta_t
  let k := 1 - eta * eta * (1 - cosi I N * cosi I N)
  if k < 0 then ⟨1, 0, 0⟩ else add (scale I eta) (scale N (eta * cosi I N - sqrt k))

/-- The number of recursive calls one call of `refract` makes: the recursion of
`refract` with a counter in place of the result. -/
def refract_calls (I N : vec3 F) : Nat :=
  if h : cosi I N < 0 then 1 + refract_calls I (addinv N) else 0
termination_by (if cosi I N < 0 then 1 else 0 : Nat)
decreasing_by
  have hd : dot I (addinv N) = -dot I N := by simp only [dot, addinv]; ring
  have h2 : ¬ cosi I (addinv N) < 0 := by
    unfold cosi at *
    rw [hd]
    unfold MAX MIN at *
    split_ifs at * <;> linarith
  simp [h, h2]

/-- The recursion of `cast_ray` with a counter: the same scene query, guard,
directions and compositing; the second component counts the invocations of
`cast_ray` in the call tree of this call, itself included. -/
def cast_ray_traced (sqrt : F → F) (pow : F → F → F) (orig dir : vec3 F) (depth : Int)
    (spheres : List (Sphere F)) (lights : List (vec3 F)) : vec3 F × Nat :=
  let r := scene_intersect sqrt orig dir spheres
  if h : depth > DEPTH ∨ r.hit = false then (BACKGROUND_COLOR, 1)
  else
    let reflect_dir := normalized sqrt (reflect dir r.N)
    let refract_dir := normalized sqrt (refract sqrt dir r.N r.material.refractive_index 1)
    let reflect_traced := cast_ray_traced sqrt pow r.point reflect_dir (depth + 1) spheres lights
    let refract_traced := cast_ray_traced sqrt pow r.point refract_dir (depth + 1) spheres lights
    let acc := lights.foldl (light_step sqrt pow spheres dir r.point r.N r.material) (0, 0)
    (composite r.material reflect_traced.1 refract_traced.1 acc.1 acc.2,
      1 + reflect_traced.2 + refract_traced.2)
termination_by (DEPTH + 1 - depth).toNat
decreasing_by
  all_goals
    simp only [DEPTH, not_or, not_lt] at h ⊢
    omega

/-- Eleven concentric spheres around the origin, of radii `1, 2, ..., 11`. -/
def nested_spheres : List (Sphere F) :=
  (List.range 11).map fun (k : Nat) => ⟨⟨0, 0, 0⟩, (k : F) + 1, ivory⟩

/-- A material whose fields are binary32 numbers. -/
def matte : Material F := ⟨1, ![1, 0.5, 0, 0], ⟨1, 1, 1⟩, 8⟩

/-- Two spheres far from the origin: the sphere the primary ray hits, of centre
`(0, 0, -1048577)` and radius `1`, and an occluder of centre `(0, 0, -1048573.5)`
and radius `0.515625`.  All the numbers are binary32 numbers. -/
def far_spheres : List (Sphere F) :=
  [⟨⟨0, 0, -1048577⟩, 1, matte⟩, ⟨⟨0, 0, -1048573.5⟩, 0.515625, matte⟩]

/-! ## The scene and the camera of `main` -/

def width : Int := 1024
def height : Int := 768
def fov : F := 1.05

/-- The four spheres `main` stores in `spheres`. -/
def main_spheres : List (Sphere F) :=
  [⟨⟨-3, 0, -16⟩, 2, ivory⟩, ⟨⟨-1, -1.5, -12⟩, 2, glass⟩, ⟨⟨1.5, -0.5, -18⟩, 3, rubber⟩,
    ⟨⟨7, 5, -18⟩, 4, mirror⟩]

/-- The three lights `main` stores in `lights`. -/
def main_lights : List (vec3 F) := [⟨-20, 20, 20⟩, ⟨30, 50, -25⟩, ⟨30, 20, 30⟩]

/-- The ray direction `main` computes for pixel `pix` (`0 <= pix < width*height`,
where the C operators `%` and `/` on `int` agree with those of `Int`). -/
def pixel_dir (sqrt tan : F → F) (pix : Int) : vec3 F :=
  let dir_x := (((pix % width : Int) : F) + 0.5) - (width : F) / 2
  let dir_y := -(((pix / width : Int) : F) + 0.5) + (height : F) / 2
  let dir_z := -(height : F) / (2 * tan (fov / 2))
  normalized sqrt ⟨dir_x, dir_y, dir_z⟩

/-- The colour `main` stores in `framebuffer[pix]`. -/
def render_pixel (sqrt tan : F → F) (pow : F → F → F) (pix : Int) : vec3 F :=
  cast_ray sqrt pow ⟨0, 0, 0⟩ (pixel_dir sqrt tan pix) 0 main_spheres main_lights

/-! ## A binary32 model of the scene query and the shadow test

The same functions with every `float` operation rounded to binary32 (round to
nearest, ties to even, one rounding per operation, no fused operations).  The
model has no infinities, NaNs or subnormal numbers and an unbounded exponent:
it is the program's arithmetic as long as the values stay in the normal range.
The libm functions take and return `double`: their result is rounded to
binary64 and then to binary32 where it is stored in a `float`. -/

namespace Binary32

/-- Round to the nearest integer, ties to the even one. -/
def round_even (y : F) : Int :=
  if y - (⌊y⌋ : F) < 1 / 2 then ⌊y⌋
  else if 1 / 2 < y - (⌊y⌋ : F) then ⌊y⌋ + 1
  else if ⌊y⌋ % 2 = 0 then ⌊y⌋ else ⌊y⌋ + 1

/-- Round `x` to `p` significant bits: with `2^e <= |x| < 2^(e+1)` the result is
the multiple of `2^(e - (p - 1))` nearest to `x`. -/
def round_bits (p : Nat) (x : F) : F :=
  if x = 0 then 0
  else (round_even (x / (2 : F) ^ (Int.log 2 |x| - ((p : Int) - 1))) : F) *
    (2 : F) ^ (Int.log 2 |x| - ((p : Int) - 1))

/-- Rounding to binary32 (24 significant bits). -/
def fl (x : F) : F := round_bits 24 x

/-- Rounding to binary64 (53 significant bits). -/
def fl64 (x : F) : F := round_bits 53 x

/-- The libm `sqrt` with its result stored in a `float`. -/
def sqrtf (sqrt : F → F) (x : F) : F := fl (fl64 (sqrt x))

def BOX_COLOR1 : vec3 F := ⟨fl 0.9822, fl 0.6044, fl 0.1733⟩
def BOX_COLOR2 : vec3 F := ⟨fl 0.9822, fl 0.2, fl 0.1733⟩

def add (u v : vec3 F) : vec3 F := ⟨fl (u.x + v.x), fl (u.y + v.y), fl (u.z + v.z)⟩

def subtract (u v : vec3 F) : vec3 F := ⟨fl (u.x - v.x), fl (u.y - v.y), fl (u.z - v.z)⟩

def scale (v : vec3 F) (s : F) : vec3 F := ⟨fl (v.x * s), fl (v.y * s), fl (v.z * s)⟩

def dot (u v : vec3 F) : F := fl (fl (fl (u.x * v.x) + fl (u.y * v.y)) + fl (u.z * v.z))

def norm (sqrt : F → F) (v : vec3 F) : F :=
  sqrtf sqrt (fl (fl (fl (v.x * v.x) + fl (v.y * v.y)) + fl (v.z * v.z)))

def normalized (sqrt : F → F) (v : vec3 F) : vec3 F := scale v (fl (1 / norm sqrt v))

def reflect (I N : vec3 F) : vec3 F := subtract I (scale N (fl (2 * dot I N)))

def ray_sphere_intersect (sqrt : F → F) (orig dir : vec3 F) (s : Sphere F) : Bool × F :=
  let L := subtract s.center orig
  let tca := dot L dir
  let d2 := fl (dot L L - fl (tca * tca))
  if d2 > fl (s.radius * s.radius) then (false, 0)
  else
    let thc := sqrtf sqrt (fl (fl (s.radius * s.radius) - d2))
    let t0 := fl (tca - thc)
    let t1 := fl (tca + thc)
    if t0 > fl 0.001 then (true, t0)
    else if t1 > fl 0.001 then (true, t1)
    else (false, 0)

def floor_dist (orig dir : vec3 F) : F := fl (-(fl (orig.y + 4)) / dir.y)

def floor_point (orig dir : vec3 F) : vec3 F := add orig (scale dir (floor_dist orig dir))

def floor_color (p : vec3 F) : vec3 F :=
  if Int.land (int_cast (fl (fl (0.5 * p.x) + 1000)) + int_cast (fl (0.5 * p.z))) 1 ≠ 0
  then BOX_COLOR1 else BOX_COLOR2

def floor_step (orig dir : vec3 F) (st : SceneState F) : SceneState F :=
  if |dir.y| > fl 0.001 then
    let d := floor_dist orig dir
    let p := floor_point orig dir
    if d > fl 0.001 ∧ d < st.nearest_dist ∧ |p.x| < 10 ∧ p.z < -10 ∧ p.z > -30 then
      { nearest_dist := d
        pt := p
        Normal := ⟨0, 1, 0⟩
        mat := { st.mat with diffuse_color := floor_color p } }
    else st
  else st

def sphere_step (sqrt : F → F) (orig dir : vec3 F) (st : SceneState F) (s : Sphere F) :
    SceneState F :=
  let r := ray_sphere_intersect sqrt orig dir s
  if r.1 = true ∧ r.2 ≤ st.nearest_dist then
    let pt := add orig (scale dir r.2)
    { nearest_dist := r.2
      pt := pt
      Normal := normalized sqrt (subtract pt s.center)
      mat := s.material }
  else st

def scene_state (sqrt : F → F) (orig dir : vec3 F) (spheres : List (Sphere F)) : SceneState F :=
  spheres.foldl (sphere_step sqrt orig dir) (floor_step orig dir scene_init)

def scene_intersect (sqrt : F → F) (orig dir : vec3 F) (spheres : List (Sphere F)) :
    HitRecord F :=
  let st := scene_state sqrt orig dir spheres
  { hit := decide (st.nearest_dist < 1000)
    point := st.pt
    N := st.Normal
    material := st.mat }

/-- One iteration of the light loop of `cast_ray`.  `pow` is a `double` function
and `specular_light_intensity += pow(...)` adds in `double`. -/
def light_step (sqrt : F → F) (pow : F → F → F) (spheres : List (Sphere F))
    (dir pt N : vec3 F) (material : Material F) (acc : F × F) (light : vec3 F) : F × F :=
  let light_dir := normalized sqrt (subtract light pt)
  let sh := scene_intersect sqrt pt light_dir spheres
  if sh.hit = true ∧ norm sqrt (subtract sh.point pt) < norm sqrt (subtract light pt) then acc
  else
    (fl (acc.1 + MAX 0 (dot light_dir N)),
     fl (fl64 (acc.2 +
       fl64 (pow (MAX 0 (-dot (reflect (addinv light_dir) N) dir)) material.specular_exponent))))

end Binary32

end Defs

/-! ## Basic facts -/

section Basic

variable {F : Type} [LinearOrderedField F]

theorem ray_sphere_intersect_gt (sqrt : F → F) (orig dir : vec3 F) (s : Sphere F)
    (h : (ray_sphere_intersect sqrt orig dir s).1 = true) :
    (ray_sphere_intersect sqrt orig dir s).2 > 0.001 := by
  unfold ray_sphere_intersect at h ⊢
  simp only at h ⊢
  split_ifs at h ⊢ with h1 h2 h3
  · exact h2
  · exact h3

theorem foldl_sphere_step_le (sqrt : F → F) (orig dir : vec3 F) (l : List (Sphere F))
    (st : SceneState F) :
    (l.foldl (sphere_step sqrt orig dir) st).nearest_dist ≤ st.nearest_dist := by
  induction l generalizing st with
  | nil => exact le_refl _
  | cons s l ih =>
    rw [List.foldl_cons]
    refine le_trans (ih _) ?_
    unfold sphere_step
    simp only
    split_ifs with h
    · exact h.2
    · exact le_refl _

theorem foldl_sphere_step_le_mem (sqrt : F → F) (orig dir : vec3 F) (l : List (Sphere F))
    (st : SceneState F) (s : Sphere F) (hs : s ∈ l)
    (hit : (ray_sphere_intersect sqrt orig dir s).1 = true) :
    (l.foldl (sphere_step sqrt orig dir) st).nearest_dist ≤
      (ray_sphere_intersect sqrt orig dir s).2 := by
  induction l generalizing st with
  | nil => simp at hs
  | cons a l ih =>
    rw [List.foldl_cons]
    rcases List.mem_cons.mp hs with rfl | hmem
    · refine le_trans (foldl_sphere_step_le sqrt orig dir l _) ?_
      unfold sphere_step
      simp only
      split_ifs with h
      · exact le_refl _
      · exact le_of_lt (lt_of_not_le fun hle => h ⟨hit, hle⟩)
    · exact ih _ hmem

/-- The state a sphere leaves when it is accepted at distance `d`. -/
theorem foldl_sphere_step_cases (sqrt : F → F) (orig dir : vec3 F) (l : List (Sphere F))
    (st : SceneState F) :
    l.foldl (sphere_step sqrt orig dir) st = st ∨
      ∃ s ∈ l, (ray_sphere_intersect sqrt orig dir s).1 = true ∧
        l.foldl (sphere_step sqrt orig dir) st =
          { nearest_dist := (ray_sphere_intersect sqrt orig dir s).2
            pt := add orig (scale dir (ray_sphere_intersect sqrt orig dir s).2)
            Normal := normalized sqrt
              (subtract (add orig (scale dir (ray_sphere_intersect sqrt orig dir s).2)) s.center)
            mat := s.material } := by
  induction l generalizing st with
  | nil => left; rfl
  | cons a l ih =>
    rw [List.foldl_cons]
    rcases ih (sphere_step sqrt orig dir st a) with h | ⟨s, hs, hit, h⟩
    · rw [h]
      unfold sphere_step
      simp only
      split_ifs with hc
      · right
        exact ⟨a, List.mem_cons_self _ _, hc.1, rfl⟩
      · left; rfl
    · right
      exact ⟨s, List.mem_cons_of_mem _ hs, hit, h⟩

theorem foldl_sphere_step_ge (sqrt : F → F) (orig dir : vec3 F) (l : List (Sphere F))
    (st : SceneState F) (t : F) (hst : t ≤ st.nearest_dist)
    (hl : ∀ s ∈ l, (ray_sphere_intersect sqrt orig dir s).1 = true →
      t ≤ (ray_sphere_intersect sqrt orig dir s).2) :
    t ≤ (l.foldl (sphere_step sqrt orig dir) st).nearest_dist := by
  rcases foldl_sphere_step_cases sqrt orig dir l st with h | ⟨s, hs, hit, h⟩
  · rw [h]; exact hst
  · rw [h]; exact hl s hs hit

theorem foldl_sphere_step_unchanged (sqrt : F → F) (orig dir : vec3 F) (l : List (Sphere F))
    (st : SceneState F)
    (h : ∀ s ∈ l, (ray_sphere_intersect sqrt orig dir s).1 = true →
      st.nearest_dist < (ray_sphere_intersect sqrt orig dir s).2) :
    l.foldl (sphere_step sqrt orig dir) st = st := by
  induction l with
  | nil => rfl
  | cons a l ih =>
    have ha : sphere_step sqrt orig dir st a = st := by
      unfold sphere_step
      simp only
      rw [if_neg]
      rintro ⟨hit, hle⟩
      exact absurd (h a (List.mem_cons_self _ _) hit) (not_lt.mpr hle)
    rw [List.foldl_cons, ha]
    exact ih fun s hs => h s (List.mem_cons_of_mem _ hs)

/-- The low bit of a two's-complement integer is its remainder modulo two. -/
theorem land_one (n : Int) : Int.land n 1 = n % 2 := by
  cases n with
  | ofNat k =>
    show ((k &&& 1 : Nat) : Int) = _
    rw [Nat.and_one_is_mod]
    rfl
  | negSucc k =>
    have hk : Nat.ldiff 1 k = (k + 1) % 2 := by
      apply Nat.eq_of_testBit_eq
      intro i
      rw [Nat.testBit_ldiff]
      cases i with
      | zero =>
        rcases Nat.mod_two_eq_zero_or_one k with hm | hm <;>
          simp [Nat.testBit_zero, hm, Nat.add_mod, Nat.succ_mod_two_eq_one_iff]
      | succ i =>
        have h1 : Nat.testBit 1 (i + 1) = false := by simp [Nat.testBit_succ]
        have h2 : Nat.testBit ((k + 1) % 2) (i + 1) = false := by
          rcases Nat.mod_two_eq_zero_or_one (k + 1) with hm | hm <;> simp [hm, Nat.testBit_succ]
        simp [h1, h2]
    show ((Nat.ldiff 1 k : Nat) : Int) = _
    rw [hk, Int.negSucc_eq]
    omega

theorem floor_material_ne_init (c : vec3 F) (hc : c.x ≠ 0) :
    floor_material c ≠ (init_Material : Material F) := by
  intro h
  have h2 : (floor_material c).diffuse_color.x = (init_Material : Material F).diffuse_color.x := by
    rw [h]
  exact hc h2

/-- With no light intensity the composite is the weighted sum of the two
recursive colours. -/
theorem composite_unlit (m : Material F) (rc fc : vec3 F) :
    composite m rc fc 0 0 = add (scale rc (m.albedo 2)) (scale fc (m.albedo 3)) := by
  simp [composite, add, scale]

variable [FloorRing F]

theorem floor_step_init (orig dir : vec3 F) :
    (floor_step orig dir scene_init = scene_init ∧
        (floor_candidate orig dir → (10000000000 : F) ≤ floor_dist orig dir)) ∨
      (floor_candidate orig dir ∧ floor_dist orig dir < 10000000000 ∧
        floor_step orig dir scene_init =
          { nearest_dist := floor_dist orig dir
            pt := floor_point orig dir
            Normal := ⟨0, 1, 0⟩
            mat := floor_material (floor_color (floor_point orig dir)) }) := by
  unfold floor_step floor_candidate
  by_cases h1 : |dir.y| > 0.001
  · by_cases h2 : floor_dist orig dir > 0.001 ∧
        floor_dist orig dir < (scene_init : SceneState F).nearest_dist ∧
        |(floor_point orig dir).x| < 10 ∧ (floor_point orig dir).z < -10 ∧
        (floor_point orig dir).z > -30
    · right
      rw [if_pos h1, if_pos h2]
      exact ⟨⟨h1, h2.1, h2.2.2⟩, h2.2.1, rfl⟩
    · left
      rw [if_pos h1, if_neg h2]
      refine ⟨rfl, fun hc => ?_⟩
      by_contra hlt
      exact h2 ⟨hc.2.1, lt_of_not_le hlt, hc.2.2⟩
  · left
    rw [if_neg h1]
    exact ⟨rfl, fun hc => absurd hc.1 h1⟩

end Basic

/-! ## The scene query: which candidate is reported -/

section SceneLemmas

variable {F : Type} [LinearOrderedField F] [FloorRing F]

theorem scene_hit_iff (sqrt : F → F) (orig dir : vec3 F) (spheres : List (Sphere F)) :
    (scene_intersect sqrt orig dir spheres).hit = true ↔
      (scene_state sqrt orig dir spheres).nearest_dist < 1000 := by
  simp [scene_intersect]

theorem floor_color_cases (p : vec3 F) : floor_color p = BOX_COLOR1 ∨ floor_color p = BOX_COLOR2 := by
  unfold floor_color
  split_ifs
  · left; rfl
  · right; rfl

/-- The final state of the scene query is the initial one, the floor's, or the
one left by a sphere the ray hits; in each case `nearest_dist` is the least
candidate distance, capped by the initial `1e10`. -/
theorem scene_state_cases (sqrt : F → F) (orig dir : vec3 F) (spheres : List (Sphere F)) :
    scene_state sqrt orig dir spheres = scene_init ∨
      (floor_candidate orig dir ∧
        scene_state sqrt orig dir spheres =
          { nearest_dist := floor_dist orig dir
            pt := floor_point orig dir
            Normal := ⟨0, 1, 0⟩
            mat := floor_material (floor_color (floor_point orig dir)) }) ∨
      ∃ s ∈ spheres, (ray_sphere_intersect sqrt orig dir s).1 = true ∧
        scene_state sqrt orig dir spheres =
          { nearest_dist := (ray_sphere_intersect sqrt orig dir s).2
            pt := add orig (scale dir (ray_sphere_intersect sqrt orig dir s).2)
            Normal := normalized sqrt
              (subtract (add orig (scale dir (ray_sphere_intersect sqrt orig dir s).2)) s.center)
            mat := s.material } := by
  unfold scene_state
  rcases foldl_sphere_step_cases sqrt orig dir spheres (floor_step orig dir scene_init) with
    h | h
  · rcases floor_step_init orig dir with ⟨h0, _⟩ | ⟨hc, _, hf⟩
    · left; rw [h, h0]
    · right; left; exact ⟨hc, by rw [h, hf]⟩
  · right; right; exact h

theorem scene_state_le_floor (sqrt : F → F) (orig dir : vec3 F) (spheres : List (Sphere F))
    (hc : floor_candidate orig dir) :
    (scene_state sqrt orig dir spheres).nearest_dist ≤ floor_dist orig dir := by
  unfold scene_state
  refine le_trans (foldl_sphere_step_le sqrt orig dir spheres _) ?_
  rcases floor_step_init orig dir with ⟨h0, hge⟩ | ⟨_, _, hf⟩
  · rw [h0]; exact hge hc
  · rw [hf]

theorem scene_state_le_sphere (sqrt : F → F) (orig dir : vec3 F) (spheres : List (Sphere F))
    (s : Sphere F) (hs : s ∈ spheres) (hit : (ray_sphere_intersect sqrt orig dir s).1 = true) :
    (scene_state sqrt orig dir spheres).nearest_dist ≤ (ray_sphere_intersect sqrt orig dir s).2 :=
  foldl_sphere_step_le_mem sqrt orig dir spheres _ s hs hit

/-- The checkerboard colour inside the floor rectangle: there `0.5*x + 1000` is
positive, so its truncation is a floor, and `0.5*z` is negative, so its
truncation is a ceiling. -/
theorem floor_color_eq (p : vec3 F) (hx : |p.x| < 10) (hz : p.z < -10) :
    floor_color p =
      if (⌊0.5 * p.x⌋ + ⌈0.5 * p.z⌉) % 2 = 1 then BOX_COLOR1 else BOX_COLOR2 := by
  have hx2 := abs_lt.mp hx
  have h1 : int_cast (0.5 * p.x + 1000) = ⌊0.5 * p.x⌋ + 1000 := by
    unfold int_cast
    rw [if_pos (by linarith [hx2.1])]
    have hc : (0.5 * p.x + 1000 : F) = 0.5 * p.x + ((1000 : Int) : F) := by norm_num
    rw [hc, Int.floor_add_int]
  have h2 : int_cast (0.5 * p.z) = ⌈0.5 * p.z⌉ := by
    unfold int_cast
    rw [if_neg (by linarith)]
  unfold floor_color
  rw [h1, h2, land_one]
  by_cases hodd : (⌊0.5 * p.x⌋ + ⌈0.5 * p.z⌉) % 2 = 1
  · rw [if_pos hodd, if_pos]
    omega
  · rw [if_neg hodd, if_neg]
    omega

/-- The query state when the floor is a candidate below `1e10` and every sphere
the ray hits is strictly farther. -/
theorem scene_state_floor (sqrt : F → F) (orig dir : vec3 F) (spheres : List (Sphere F))
    (hc : floor_candidate orig dir) (hd : floor_dist orig dir < 10000000000)
    (hs : ∀ s ∈ spheres, (ray_sphere_intersect sqrt orig dir s).1 = true →
      floor_dist orig dir < (ray_sphere_intersect sqrt orig dir s).2) :
    scene_state sqrt orig dir spheres =
      { nearest_dist := floor_dist orig dir
        pt := floor_point orig dir
        Normal := ⟨0, 1, 0⟩
        mat := floor_material (floor_color (floor_point orig dir)) } := by
  unfold scene_state
  rcases floor_step_init orig dir with ⟨_, hge⟩ | ⟨_, _, hf⟩
  · exact absurd (hge hc) (not_le.mpr hd)
  · rw [hf]
    exact foldl_sphere_step_unchanged sqrt orig dir spheres _ hs

/-- The query state when the sphere `s`, hit at distance `t`, is the last one
attaining the least candidate distance `t <= 1e10`. -/
theorem scene_state_last (sqrt : F → F) (orig dir : vec3 F) (pre post : List (Sphere F))
    (s : Sphere F) (t : F) (hs : ray_sphere_intersect sqrt orig dir s = (true, t))
    (ht : t ≤ 10000000000)
    (hpre : ∀ a ∈ pre, (ray_sphere_intersect sqrt orig dir a).1 = true →
      t ≤ (ray_sphere_intersect sqrt orig dir a).2)
    (hpost : ∀ a ∈ post, (ray_sphere_intersect sqrt orig dir a).1 = true →
      t < (ray_sphere_intersect sqrt orig dir a).2)
    (hfloor : floor_candidate orig dir → t ≤ floor_dist orig dir) :
    scene_state sqrt orig dir (pre ++ s :: post) =
      { nearest_dist := t
        pt := add orig (scale dir t)
        Normal := normalized sqrt (subtract (add orig (scale dir t)) s.center)
        mat := s.material } := by
  have h0 : t ≤ (floor_step orig dir scene_init).nearest_dist := by
    rcases floor_step_init orig dir with ⟨h0, _⟩ | ⟨hc, _, hf⟩
    · rw [h0]; exact ht
    · rw [hf]; exact hfloor hc
  have h1 := foldl_sphere_step_ge sqrt orig dir pre _ t h0 hpre
  unfold scene_state
  rw [List.foldl_append, List.foldl_cons]
  have h2 : sphere_step sqrt orig dir
        (pre.foldl (sphere_step sqrt orig dir) (floor_step orig dir scene_init)) s =
      { nearest_dist := t
        pt := add orig (scale dir t)
        Normal := normalized sqrt (subtract (add orig (scale dir t)) s.center)
        mat := s.material } := by
    unfold sphere_step
    simp only [hs]
    rw [if_pos ⟨trivial, h1⟩]
  rw [h2]
  exact foldl_sphere_step_unchanged sqrt orig dir post _ hpost

/-- The same with the list given by indices: `s` is the sphere at index `j`,
and no sphere of larger index is hit at distance `t`. -/
theorem scene_state_index (sqrt : F → F) (orig dir : vec3 F) (spheres : List (Sphere F))
    (j : Nat) (s : Sphere F) (t : F) (hj : spheres[j]? = some s)
    (hs : ray_sphere_intersect sqrt orig dir s = (true, t)) (ht : t ≤ 10000000000)
    (hmin : ∀ a ∈ spheres, (ray_sphere_intersect sqrt orig dir a).1 = true →
      t ≤ (ray_sphere_intersect sqrt orig dir a).2)
    (hlast : ∀ (k : Nat) (a : Sphere F), j < k → spheres[k]? = some a →
      ray_sphere_intersect sqrt orig dir a ≠ (true, t))
    (hfloor : floor_candidate orig dir → t ≤ floor_dist orig dir) :
    scene_state sqrt orig dir spheres =
      { nearest_dist := t
        pt := add orig (scale dir t)
        Normal := normalized sqrt (subtract (add orig (scale dir t)) s.center)
        mat := s.material } := by
  obtain ⟨hlt, hget⟩ := List.getElem?_eq_some_iff.mp hj
  have hsplit : spheres = spheres.take j ++ s :: spheres.drop (j + 1) := by
    rw [← hget, ← List.drop_eq_getElem_cons hlt, List.take_append_drop]
  have hmem_pre : ∀ a ∈ spheres.take j, a ∈ spheres := fun a ha => List.mem_of_mem_take ha
  have hmem_post : ∀ a ∈ spheres.drop (j + 1), a ∈ spheres := fun a ha => List.mem_of_mem_drop ha
  have key := scene_state_last sqrt orig dir (spheres.take j) (spheres.drop (j + 1)) s t hs ht
    (fun a ha hit => hmin a (hmem_pre a ha) hit)
    (fun a ha hit => by
      obtain ⟨n, hn⟩ := List.mem_iff_getElem?.mp ha
      rw [List.getElem?_drop] at hn
      have hne := hlast (j + 1 + n) a (by omega) hn
      have hle := hmin a (hmem_post a ha) hit
      rcases lt_or_eq_of_le hle with hlt2 | heq
      · exact hlt2
      · exact absurd (Prod.ext hit heq.symm) hne)
    hfloor
  rw [← hsplit] at key
  exact key

/-- When the query ends below the initial `1e10`, the reported point is
`orig + nearest_dist*dir` and `nearest_dist` exceeds the epsilon. -/
theorem scene_state_point (sqrt : F → F) (orig dir : vec3 F) (spheres : List (Sphere F))
    (h : (scene_state sqrt orig dir spheres).nearest_dist < 10000000000) :
    (scene_state sqrt orig dir spheres).pt =
        add orig (scale dir (scene_state sqrt orig dir spheres).nearest_dist) ∧
      (scene_state sqrt orig dir spheres).nearest_dist > 0.001 := by
  rcases scene_state_cases sqrt orig dir spheres with h0 | ⟨hc, hf⟩ | ⟨s, _, hit, hs⟩
  · rw [h0] at h
    norm_num [scene_init] at h
  · rw [hf]
    exact ⟨rfl, hc.2.1⟩
  · rw [hs]
    exact ⟨rfl, ray_sphere_intersect_gt sqrt orig dir s hit⟩

/-- The body of `cast_ray`, one level unfolded. -/
theorem cast_ray_eq (sqrt : F → F) (pow : F → F → F) (orig dir : vec3 F) (depth : Int)
    (spheres : List (Sphere F)) (lights : List (vec3 F)) :
    cast_ray sqrt pow orig dir depth spheres lights =
      if depth > DEPTH ∨ (scene_intersect sqrt orig dir spheres).hit = false then BACKGROUND_COLOR
      else
        composite (scene_intersect sqrt orig dir spheres).material
          (cast_ray sqrt pow (scene_intersect sqrt orig dir spheres).point
            (normalized sqrt (reflect dir (scene_intersect sqrt orig dir spheres).N))
            (depth + 1) spheres lights)
          (cast_ray sqrt pow (scene_intersect sqrt orig dir spheres).point
            (normalized sqrt (refract sqrt dir (scene_intersect sqrt orig dir spheres).N
              (scene_intersect sqrt orig dir spheres).material.refractive_index 1))
            (depth + 1) spheres lights)
          (lights.foldl (light_step sqrt pow spheres dir
            (scene_intersect sqrt orig dir spheres).point (scene_intersect sqrt orig dir spheres).N
            (scene_intersect sqrt orig dir spheres).material) (0, 0)).1
          (lights.foldl (light_step sqrt pow spheres dir
            (scene_intersect sqrt orig dir spheres).point (scene_intersect sqrt orig dir spheres).N
            (scene_intersect sqrt orig dir spheres).material) (0, 0)).2 := by
  rw [cast_ray]
  simp only [dite_eq_ite]

end SceneLemmas

/-! ## Exact real arithmetic: the geometry of `ray_sphere_intersect` -/

section RealGeometry

theorem ray_sphere_intersect_eq (sqrt : ℝ → ℝ) (orig dir : vec3 ℝ) (s : Sphere ℝ) :
    ray_sphere_intersect sqrt orig dir s =
      if sphere_d2 orig dir s > s.radius * s.radius then (false, 0)
      else if sphere_t0 sqrt orig dir s > 0.001 then (true, sphere_t0 sqrt orig dir s)
      else if sphere_t1 sqrt orig dir s > 0.001 then (true, sphere_t1 sqrt orig dir s)
      else (false, 0) := rfl

theorem norm_eq_iff (v : vec3 ℝ) (r : ℝ) (hr : 0 ≤ r) :
    norm Real.sqrt v = r ↔ dot v v = r * r := by
  unfold norm dot
  have h0 : 0 ≤ v.x * v.x + v.y * v.y + v.z * v.z :=
    add_nonneg (add_nonneg (mul_self_nonneg _) (mul_self_nonneg _)) (mul_self_nonneg _)
  rw [Real.sqrt_eq_iff_mul_self_eq h0 hr]

theorem norm_unit_dot (v : vec3 ℝ) (h : norm Real.sqrt v = 1) : dot v v = 1 := by
  have := (norm_eq_iff v 1 zero_le_one).mp h
  simpa using this

/-- A point of a unit-direction ray lies on the sphere exactly when its
parameter solves `(t - tca)^2 + d2 = radius^2`. -/
theorem on_sphere_iff (orig dir : vec3 ℝ) (s : Sphere ℝ) (t : ℝ)
    (hdir : norm Real.sqrt dir = 1) (hr : 0 ≤ s.radius) :
    on_sphere Real.sqrt orig dir s t ↔
      (t - sphere_tca orig dir s) * (t - sphere_tca orig dir s) + sphere_d2 orig dir s =
        s.radius * s.radius := by
  unfold on_sphere
  rw [norm_eq_iff _ _ hr]
  have hu := norm_unit_dot dir hdir
  have key : dot (subtract (add orig (scale dir t)) s.center)
        (subtract (add orig (scale dir t)) s.center) =
      (t - sphere_tca orig dir s) * (t - sphere_tca orig dir s) + sphere_d2 orig dir s := by
    simp only [dot, subtract, add, scale, sphere_tca, sphere_d2] at hu ⊢
    linear_combination (t * t) * hu
  rw [key]

theorem on_sphere_iff_root (orig dir : vec3 ℝ) (s : Sphere ℝ) (t : ℝ)
    (hdir : norm Real.sqrt dir = 1) (hr : 0 ≤ s.radius)
    (hd2 : ¬ sphere_d2 orig dir s > s.radius * s.radius) :
    on_sphere Real.sqrt orig dir s t ↔
      t = sphere_t0 Real.sqrt orig dir s ∨ t = sphere_t1 Real.sqrt orig dir s := by
  rw [on_sphere_iff orig dir s t hdir hr]
  have hnn : 0 ≤ s.radius * s.radius - sphere_d2 orig dir s := by linarith [not_lt.mp hd2]
  have hsq := Real.mul_self_sqrt hnn
  unfold sphere_t0 sphere_t1
  set thc := Real.sqrt (s.radius * s.radius - sphere_d2 orig dir s) with hthc
  set tca := sphere_tca orig dir s
  constructor
  · intro h
    have hz : (t - (tca - thc)) * (t - (tca + thc)) = 0 := by
      linear_combination h - hsq
    rcases mul_eq_zero.mp hz with h1 | h1
    · left; linarith
    · right; linarith
  · rintro (h | h)
    · rw [h]; linear_combination hsq
    · rw [h]; linear_combination hsq

theorem not_on_sphere_of_far (orig dir : vec3 ℝ) (s : Sphere ℝ) (t : ℝ)
    (hdir : norm Real.sqrt dir = 1) (hr : 0 ≤ s.radius)
    (hd2 : sphere_d2 orig dir s > s.radius * s.radius) :
    ¬ on_sphere Real.sqrt orig dir s t := by
  rw [on_sphere_iff orig dir s t hdir hr]
  intro h
  nlinarith [mul_self_nonneg (t - sphere_tca orig dir s)]

theorem sphere_t0_le_t1 (orig dir : vec3 ℝ) (s : Sphere ℝ) :
    sphere_t0 Real.sqrt orig dir s ≤ sphere_t1 Real.sqrt orig dir s := by
  unfold sphere_t0 sphere_t1
  linarith [Real.sqrt_nonneg (s.radius * s.radius - sphere_d2 orig dir s)]

/-- What a reported hit means on a unit-direction ray. -/
theorem ray_sphere_hit_spec (orig dir : vec3 ℝ) (s : Sphere ℝ)
    (hdir : norm Real.sqrt dir = 1) (hr : 0 ≤ s.radius)
    (h : (ray_sphere_intersect Real.sqrt orig dir s).1 = true) :
    (ray_sphere_intersect Real.sqrt orig dir s).2 > 0.001 ∧
      on_sphere Real.sqrt orig dir s (ray_sphere_intersect Real.sqrt orig dir s).2 ∧
      (∀ t : ℝ, 0.001 < t → t < (ray_sphere_intersect Real.sqrt orig dir s).2 →
        ¬ on_sphere Real.sqrt orig dir s t) ∧
      ((sphere_t0 Real.sqrt orig dir s > 0.001 ∧
          (ray_sphere_intersect Real.sqrt orig dir s).2 = sphere_t0 Real.sqrt orig dir s) ∨
        (¬ sphere_t0 Real.sqrt orig dir s > 0.001 ∧ sphere_t1 Real.sqrt orig dir s > 0.001 ∧
          (ray_sphere_intersect Real.sqrt orig dir s).2 = sphere_t1 Real.sqrt orig dir s)) := by
  rw [ray_sphere_intersect_eq] at h ⊢
  have h01 := sphere_t0_le_t1 orig dir s
  split_ifs at h ⊢ with h1 h2 h3
  · refine ⟨h2, (on_sphere_iff_root orig dir s _ hdir hr h1).mpr (Or.inl rfl), ?_, Or.inl ⟨h2, rfl⟩⟩
    intro t _ hlt hon
    rcases (on_sphere_iff_root orig dir s t hdir hr h1).mp hon with e | e
    · simp only at hlt; linarith
    · simp only at hlt; linarith
  · refine ⟨h3, (on_sphere_iff_root orig dir s _ hdir hr h1).mpr (Or.inr rfl), ?_,
      Or.inr ⟨h2, h3, rfl⟩⟩
    intro t hgt hlt hon
    rcases (on_sphere_iff_root orig dir s t hdir hr h1).mp hon with e | e
    · exact h2 (by rw [← e]; exact hgt)
    · simp only at hlt; linarith

/-- What a reported miss means on a unit-direction ray. -/
theorem ray_sphere_miss_spec (orig dir : vec3 ℝ) (s : Sphere ℝ)
    (hdir : norm Real.sqrt dir = 1) (hr : 0 ≤ s.radius)
    (h : (ray_sphere_intersect Real.sqrt orig dir s).1 = false) :
    (ray_sphere_intersect Real.sqrt orig dir s).2 = 0 ∧
      ∀ t : ℝ, 0.001 < t → ¬ on_sphere Real.sqrt orig dir s t := by
  rw [ray_sphere_intersect_eq] at h ⊢
  have h01 := sphere_t0_le_t1 orig dir s
  split_ifs at h ⊢ with h1 h2 h3
  · exact ⟨rfl, fun t _ => not_on_sphere_of_far orig dir s t hdir hr h1⟩
  · refine ⟨rfl, fun t hgt hon => ?_⟩
    rcases (on_sphere_iff_root orig dir s t hdir hr h1).mp hon with e | e
    · exact h2 (by rw [← e]; exact hgt)
    · exact h3 (by rw [← e]; exact hgt)

theorem dot_self_pos (v : vec3 ℝ) (hv : v ≠ ⟨0, 0, 0⟩) : 0 < dot v v := by
  unfold dot
  by_contra hle
  have hx := mul_self_nonneg v.x
  have hy := mul_self_nonneg v.y
  have hz := mul_self_nonneg v.z
  have h0 : v.x * v.x = 0 ∧ v.y * v.y = 0 ∧ v.z * v.z = 0 := by
    refine ⟨?_, ?_, ?_⟩ <;> linarith
  apply hv
  cases v
  simp only [mul_self_eq_zero] at h0
  simp only [vec3.mk.injEq]
  exact h0

theorem norm_pos (v : vec3 ℝ) (hv : v ≠ ⟨0, 0, 0⟩) : 0 < norm Real.sqrt v :=
  Real.sqrt_pos.mpr (dot_self_pos v hv)

/-- Normalising a non-zero vector gives a unit vector. -/
theorem norm_normalized_eq_one (v : vec3 ℝ) (hv : v ≠ ⟨0, 0, 0⟩) :
    norm Real.sqrt (normalized Real.sqrt v) = 1 := by
  rw [norm_eq_iff _ _ zero_le_one]
  have hn := norm_pos v hv
  have hsq : norm Real.sqrt v * norm Real.sqrt v = dot v v :=
    Real.mul_self_sqrt (le_of_lt (dot_self_pos v hv))
  have hne : norm Real.sqrt v ≠ 0 := ne_of_gt hn
  unfold normalized
  generalize norm Real.sqrt v = n at hsq hne
  simp only [dot, scale] at hsq ⊢
  field_simp
  linear_combination -hsq

theorem subtract_ne_zero (u v : vec3 ℝ) (h : u ≠ v) : subtract u v ≠ ⟨0, 0, 0⟩ := by
  intro h0
  apply h
  cases u
  cases v
  simp only [subtract, vec3.mk.injEq, sub_eq_zero] at h0
  simp only [vec3.mk.injEq]
  exact h0

/-- The distance from `pt` to the point at parameter `t >= 0` of a
unit-direction ray from `pt` is `t`. -/
theorem norm_ray_offset (pt dir : vec3 ℝ) (t : ℝ) (hdir : norm Real.sqrt dir = 1) (ht : 0 ≤ t) :
    norm Real.sqrt (subtract (add pt (scale dir t)) pt) = t := by
  rw [norm_eq_iff _ _ ht]
  have hu := norm_unit_dot dir hdir
  simp only [dot, subtract, add, scale] at hu ⊢
  linear_combination (t * t) * hu

/-- A light occluded by a sphere contributes nothing in `light_step`. -/
theorem light_step_occluded (pow : ℝ → ℝ → ℝ) (spheres : List (Sphere ℝ))
    (dir pt N : vec3 ℝ) (m : Material ℝ) (acc : ℝ × ℝ) (light : vec3 ℝ) (hne : light ≠ pt)
    (hocc : ∃ s ∈ spheres, ∃ d : ℝ,
      ray_sphere_intersect Real.sqrt pt (normalized Real.sqrt (subtract light pt)) s = (true, d) ∧
      d < 1000 ∧ d < norm Real.sqrt (subtract light pt)) :
    light_step Real.sqrt pow spheres dir pt N m acc light = acc := by
  obtain ⟨s, hs, d, hrsi, hd, hlt⟩ := hocc
  have hunit := norm_normalized_eq_one _ (subtract_ne_zero light pt hne)
  have h1 : (ray_sphere_intersect Real.sqrt pt (normalized Real.sqrt (subtract light pt)) s).1
      = true := by rw [hrsi]
  have hle := scene_state_le_sphere Real.sqrt pt (normalized Real.sqrt (subtract light pt))
    spheres s hs h1
  rw [hrsi] at hle
  simp only at hle
  have hpt := scene_state_point Real.sqrt pt (normalized Real.sqrt (subtract light pt)) spheres
    (by linarith)
  unfold light_step
  simp only
  rw [if_pos]
  refine ⟨(scene_hit_iff _ _ _ _).mpr (by linarith), ?_⟩
  show norm Real.sqrt (subtract (scene_state Real.sqrt pt
    (normalized Real.sqrt (subtract light pt)) spheres).pt pt) < _
  rw [hpt.1, norm_ray_offset _ _ _ hunit (by linarith [hpt.2])]
  linarith

end RealGeometry

/-! ## Concrete evaluations used by the witnesses -/

section Eval

/-- The unit sphere of the spec's test: centre `(0,0,-5)`, radius `1`. -/
theorem eval_ray_sphere_hit (m : Material ℝ) :
    ray_sphere_intersect Real.sqrt ⟨0, 0, 0⟩ ⟨0, 0, -1⟩ ⟨⟨0, 0, -5⟩, 1, m⟩ = (true, 4) := by
  norm_num [ray_sphere_intersect, subtract, dot]

/-- The sphere of the spec's miss test: centre `(5,0,-5)`, radius `1`. -/
theorem eval_ray_sphere_miss (m : Material ℝ) :
    ray_sphere_intersect Real.sqrt ⟨0, 0, 0⟩ ⟨0, 0, -1⟩ ⟨⟨5, 0, -5⟩, 1, m⟩ = (false, 0) := by
  norm_num [ray_sphere_intersect, subtract, dot]

theorem eval_floor_step_flat (orig : vec3 ℝ) (x z : ℝ) (st : SceneState ℝ) :
    floor_step orig ⟨x, 0, z⟩ st = st := by
  norm_num [floor_step]

theorem eval_scene_hit (m : Material ℝ) :
    scene_intersect Real.sqrt ⟨0, 0, 0⟩ ⟨0, 0, -1⟩ [⟨⟨0, 0, -5⟩, 1, m⟩] =
      ⟨true, ⟨0, 0, -4⟩, ⟨0, 0, 1⟩, m⟩ := by
  simp only [scene_intersect, scene_state, eval_floor_step_flat, List.foldl_cons, List.foldl_nil,
    sphere_step, eval_ray_sphere_hit]
  norm_num [scene_init, normalized, norm, add, scale, subtract]

/-- A sphere behind the ray origin is missed. -/
theorem eval_ray_sphere_behind (m : Material ℝ) :
    ray_sphere_intersect Real.sqrt ⟨0, 0, 0⟩ ⟨0, 0, -1⟩ ⟨⟨0, 0, 3⟩, 1, m⟩ = (false, 0) := by
  norm_num [ray_sphere_intersect, subtract, dot]

theorem eval_scene_two (m1 m2 : Material ℝ) :
    scene_intersect Real.sqrt ⟨0, 0, 0⟩ ⟨0, 0, -1⟩ [⟨⟨0, 0, -5⟩, 1, m1⟩, ⟨⟨0, 0, 3⟩, 1, m2⟩] =
      ⟨true, ⟨0, 0, -4⟩, ⟨0, 0, 1⟩, m1⟩ := by
  simp only [scene_intersect, scene_state, eval_floor_step_flat, List.foldl_cons, List.foldl_nil,
    sphere_step, eval_ray_sphere_hit, eval_ray_sphere_behind]
  norm_num [scene_init, normalized, norm, add, scale, subtract]

theorem eval_norm_to_light : norm Real.sqrt (subtract (⟨0, 0, 10⟩ : vec3 ℝ) ⟨0, 0, -4⟩) = 14 := by
  rw [norm_eq_iff _ _ (by norm_num)]
  norm_num [dot, subtract]

theorem eval_light_dir :
    normalized Real.sqrt (subtract (⟨0, 0, 10⟩ : vec3 ℝ) ⟨0, 0, -4⟩) = ⟨0, 0, 1⟩ := by
  unfold normalized
  rw [eval_norm_to_light]
  norm_num [subtract, scale]

/-- The occluder between the hit point `(0,0,-4)` and the light `(0,0,10)`. -/
theorem eval_ray_sphere_occluder (m : Material ℝ) :
    ray_sphere_intersect Real.sqrt ⟨0, 0, -4⟩ ⟨0, 0, 1⟩ ⟨⟨0, 0, 3⟩, 1, m⟩ = (true, 6) := by
  norm_num [ray_sphere_intersect, subtract, dot]

theorem eval_ray_sphere_remote (m : Material ℝ) :
    ray_sphere_intersect Real.sqrt ⟨0, 0, 0⟩ ⟨0, 0, -1⟩ ⟨⟨0, 0, -30000000000⟩, 1, m⟩ =
      (true, 29999999999) := by
  norm_num [ray_sphere_intersect, subtract, dot]

theorem eval_not_floor_candidate_flat (orig : vec3 ℝ) (x z : ℝ) :
    ¬ floor_candidate orig ⟨x, 0, z⟩ := by
  norm_num [floor_candidate]

theorem eval_floor_candidate_down (x z : ℝ) (hx : |x| < 10) (hz1 : z < -10) (hz2 : z > -30) :
    floor_candidate (⟨x, 0, z⟩ : vec3 ℝ) ⟨0, -1, 0⟩ ∧
      floor_dist (⟨x, 0, z⟩ : vec3 ℝ) ⟨0, -1, 0⟩ = 4 ∧
      floor_point (⟨x, 0, z⟩ : vec3 ℝ) ⟨0, -1, 0⟩ = ⟨x, -4, z⟩ := by
  have hd : floor_dist (⟨x, 0, z⟩ : vec3 ℝ) ⟨0, -1, 0⟩ = 4 := by
    norm_num [floor_dist]
  have hp : floor_point (⟨x, 0, z⟩ : vec3 ℝ) ⟨0, -1, 0⟩ = ⟨x, -4, z⟩ := by
    unfold floor_point
    rw [hd]
    norm_num [add, scale]
  refine ⟨?_, hd, hp⟩
  unfold floor_candidate
  rw [hd, hp]
  refine ⟨by norm_num, by norm_num, hx, hz1, hz2⟩

/-- The scene query of a ray straight down onto the floor, with no spheres. -/
theorem eval_scene_floor (x z : ℝ) (hx : |x| < 10) (hz1 : z < -10) (hz2 : z > -30) :
    scene_intersect Real.sqrt ⟨x, 0, z⟩ ⟨0, -1, 0⟩ [] =
      ⟨true, ⟨x, -4, z⟩, ⟨0, 1, 0⟩, floor_material (floor_color ⟨x, -4, z⟩)⟩ := by
  obtain ⟨hc, hd, hp⟩ := eval_floor_candidate_down x z hx hz1 hz2
  have hst := scene_state_floor Real.sqrt ⟨x, 0, z⟩ ⟨0, -1, 0⟩ [] hc (by rw [hd]; norm_num)
    (fun s hs => absurd hs (List.not_mem_nil s))
  unfold scene_intersect
  simp only [hst, hd, hp]
  norm_num

theorem eval_floor_color_a : floor_color (⟨0.5, -4, -12⟩ : vec3 ℝ) = BOX_COLOR2 := by
  rw [floor_color_eq _ (by norm_num [abs_lt]) (by norm_num)]
  have h1 : ⌊(0.5 : ℝ) * 0.5⌋ = 0 := by
    rw [Int.floor_eq_iff]; norm_num
  have h2 : ⌈(0.5 : ℝ) * (-12)⌉ = -6 := by
    rw [Int.ceil_eq_iff]; norm_num
  simp only [h1, h2]
  rfl

theorem eval_floor_color_b : floor_color (⟨2.5, -4, -13⟩ : vec3 ℝ) = BOX_COLOR1 := by
  rw [floor_color_eq _ (by norm_num [abs_lt]) (by norm_num)]
  have h1 : ⌊(0.5 : ℝ) * 2.5⌋ = 1 := by
    rw [Int.floor_eq_iff]; norm_num
  have h2 : ⌈(0.5 : ℝ) * (-13)⌉ = -6 := by
    rw [Int.ceil_eq_iff]; norm_num
  simp only [h1, h2]
  rfl

theorem box_colors_ne : (BOX_COLOR1 : vec3 ℝ) ≠ BOX_COLOR2 := by
  intro h
  have hy := congrArg vec3.y h
  norm_num [BOX_COLOR1, BOX_COLOR2] at hy

end Eval

/-! ## Refraction -/

section Refraction

variable {F : Type} [LinearOrderedField F]

theorem dot_addinv (I N : vec3 F) : dot I (addinv N) = -dot I N := by
  simp only [dot, addinv]
  ring

theorem MAX_eq_max (a b : F) : MAX a b = max a b := by
  unfold MAX
  split_ifs with h
  · exact (max_eq_left (le_of_lt h)).symm
  · exact (max_eq_right (not_lt.mp h)).symm

theorem MIN_eq_min (a b : F) : MIN a b = min a b := by
  unfold MIN
  split_ifs with h
  · exact (min_eq_left (le_of_lt h)).symm
  · exact (min_eq_right (not_lt.mp h)).symm

/-- The clamped cosine written with the lattice operations. -/
theorem cosi_eq_clamp (I N : vec3 F) : cosi I N = -(max (-1) (min 1 (dot I N))) := by
  unfold cosi
  rw [MIN_eq_min, MAX_eq_max]

theorem cosi_bounds (I N : vec3 F) : -1 ≤ cosi I N ∧ cosi I N ≤ 1 := by
  rw [cosi_eq_clamp]
  constructor
  · have : max (-1) (min 1 (dot I N)) ≤ 1 := max_le (by norm_num) (min_le_left _ _)
    linarith
  · have : (-1 : F) ≤ max (-1) (min 1 (dot I N)) := le_max_left _ _
    linarith

theorem cosi_nonneg_of_dot_nonpos (I N : vec3 F) (h : dot I N ≤ 0) : 0 ≤ cosi I N := by
  rw [cosi_eq_clamp]
  have : max (-1) (min 1 (dot I N)) ≤ 0 :=
    max_le (by norm_num) (le_trans (min_le_right _ _) h)
  linarith

theorem cosi_neg_of_dot_pos (I N : vec3 F) (h : 0 < dot I N) : cosi I N < 0 := by
  rw [cosi_eq_clamp]
  have : 0 < max (-1) (min 1 (dot I N)) :=
    lt_of_lt_of_le (lt_min (by norm_num) h) (le_max_right _ _)
  linarith

theorem dot_pos_of_cosi_neg (I N : vec3 F) (h : cosi I N < 0) : 0 < dot I N := by
  by_contra hle
  exact absurd h (not_lt.mpr (cosi_nonneg_of_dot_nonpos I N (not_lt.mp hle)))

/-- Flipping the normal negates the clamped cosine. -/
theorem cosi_addinv (I N : vec3 F) : cosi I (addinv N) = -cosi I N := by
  rw [cosi_eq_clamp, cosi_eq_clamp, dot_addinv]
  rcases le_total (dot I N) (-1) with h1 | h1
  · rw [min_eq_left (by linarith), max_eq_right (by norm_num), min_eq_right (by linarith),
      max_eq_left h1]
    norm_num
  · rcases le_total (dot I N) 1 with h2 | h2
    · rw [min_eq_right (by linarith), max_eq_right (by linarith), min_eq_right h2,
        max_eq_right h1]
    · rw [min_eq_right (by linarith), max_eq_left (by linarith), min_eq_left h2,
        max_eq_right (by norm_num)]

/-- The body of `refract`, one level unfolded. -/
theorem refract_eq (sqrt : F → F) (I N : vec3 F) (eta_t eta_i : F) :
    refract sqrt I N eta_t eta_i =
      if cosi I N < 0 then refract sqrt I (addinv N) eta_i eta_t
      else snell sqrt I N eta_t eta_i := by
  rw [refract]
  simp only [dite_eq_ite, snell]

/-- Front face: `refract` is the non-recursive formula. -/
theorem refract_front (sqrt : F → F) (I N : vec3 F) (eta_t eta_i : F) (h : ¬ cosi I N < 0) :
    refract sqrt I N eta_t eta_i = snell sqrt I N eta_t eta_i := by
  rw [refract_eq, if_neg h]

/-- Back face: one recursive call, with the normal flipped and the indices
swapped, which does not recurse again. -/
theorem refract_back (sqrt : F → F) (I N : vec3 F) (eta_t eta_i : F) (h : cosi I N < 0) :
    refract sqrt I N eta_t eta_i = snell sqrt I (addinv N) eta_i eta_t := by
  rw [refract_eq, if_pos h]
  apply refract_front
  rw [cosi_addinv]
  linarith

theorem refract_calls_eq (I N : vec3 F) :
    refract_calls I N = if cosi I N < 0 then 1 + refract_calls I (addinv N) else 0 := by
  rw [refract_calls]
  simp only [dite_eq_ite]

theorem refract_calls_front (I N : vec3 F) (h : ¬ cosi I N < 0) : refract_calls I N = 0 := by
  rw [refract_calls_eq, if_neg h]

theorem refract_calls_back (I N : vec3 F) (h : cosi I N < 0) : refract_calls I N = 1 := by
  rw [refract_calls_eq, if_pos h, refract_calls_front]
  rw [cosi_addinv]
  linarith

end Refraction

/-! ## Exact real arithmetic: unit vectors, reflection and refraction -/

section RealRefraction

theorem dot_comm (u v : vec3 ℝ) : dot u v = dot v u := by
  simp only [dot]
  ring

/-- Cauchy-Schwarz for unit vectors. -/
theorem dot_unit_bounds (I N : vec3 ℝ) (hI : norm Real.sqrt I = 1) (hN : norm Real.sqrt N = 1) :
    -1 ≤ dot I N ∧ dot I N ≤ 1 := by
  have hI2 := norm_unit_dot I hI
  have hN2 := norm_unit_dot N hN
  have hid : dot I I * dot N N - dot I N * dot I N =
      (I.y * N.z - I.z * N.y) ^ 2 + (I.z * N.x - I.x * N.z) ^ 2 + (I.x * N.y - I.y * N.x) ^ 2 := by
    simp only [dot]
    ring
  have hsq : dot I N * dot I N ≤ 1 := by
    rw [hI2, hN2] at hid
    nlinarith [sq_nonneg (I.y * N.z - I.z * N.y), sq_nonneg (I.z * N.x - I.x * N.z),
      sq_nonneg (I.x * N.y - I.y * N.x)]
  constructor
  · nlinarith
  · nlinarith

/-- On unit vectors the clamp of `refract` is inactive. -/
theorem cosi_unit (I N : vec3 ℝ) (hI : norm Real.sqrt I = 1) (hN : norm Real.sqrt N = 1) :
    cosi I N = -dot I N := by
  obtain ⟨h1, h2⟩ := dot_unit_bounds I N hI hN
  rw [cosi_eq_clamp, min_eq_right h2, max_eq_right h1]

theorem norm_addinv (N : vec3 ℝ) : norm Real.sqrt (addinv N) = norm Real.sqrt N := by
  simp only [norm, addinv]
  congr 1
  ring

theorem norm_sentinel : norm Real.sqrt (⟨1, 0, 0⟩ : vec3 ℝ) = 1 := by
  norm_num [norm]

/-- Snell's direction of unit vectors is a unit vector. -/
theorem norm_snell_direction (I N : vec3 ℝ) (eta : ℝ) (hI : norm Real.sqrt I = 1)
    (hN : norm Real.sqrt N = 1)
    (hk : 0 ≤ 1 - eta * eta * (1 - cosi I N * cosi I N)) :
    norm Real.sqrt (add (scale I eta)
      (scale N (eta * cosi I N - Real.sqrt (1 - eta * eta * (1 - cosi I N * cosi I N))))) = 1 := by
  rw [norm_eq_iff _ _ zero_le_one]
  have hI2 := norm_unit_dot I hI
  have hN2 := norm_unit_dot N hN
  have hc := cosi_unit I N hI hN
  have hsq := Real.mul_self_sqrt hk
  generalize Real.sqrt (1 - eta * eta * (1 - cosi I N * cosi I N)) = sk at hsq
  generalize cosi I N = c at hc hsq
  simp only [dot, add, scale] at hI2 hN2 hc ⊢
  have hIN : I.x * N.x + I.y * N.y + I.z * N.z = -c := by linarith
  linear_combination (eta * eta) * hI2 + (eta * c - sk) * (eta * c - sk) * hN2 +
    2 * eta * (eta * c - sk) * hIN + hsq

theorem norm_snell (I N : vec3 ℝ) (eta_t eta_i : ℝ) (hI : norm Real.sqrt I = 1)
    (hN : norm Real.sqrt N = 1) : norm Real.sqrt (snell Real.sqrt I N eta_t eta_i) = 1 := by
  unfold snell
  simp only
  split_ifs with hk
  · exact norm_sentinel
  · exact norm_snell_direction I N (eta_i / eta_t) hI hN (not_lt.mp hk)

/-- The refracted direction of unit vectors is a unit vector. -/
theorem norm_refract (I N : vec3 ℝ) (eta_t eta_i : ℝ) (hI : norm Real.sqrt I = 1)
    (hN : norm Real.sqrt N = 1) : norm Real.sqrt (refract Real.sqrt I N eta_t eta_i) = 1 := by
  by_cases h : cosi I N < 0
  · rw [refract_back Real.sqrt I N eta_t eta_i h]
    exact norm_snell I (addinv N) eta_i eta_t hI (by rw [norm_addinv]; exact hN)
  · rw [refract_front Real.sqrt I N eta_t eta_i h]
    exact norm_snell I N eta_t eta_i hI hN

/-- Normalising a unit vector leaves it unchanged. -/
theorem normalized_of_unit (v : vec3 ℝ) (h : norm Real.sqrt v = 1) :
    normalized Real.sqrt v = v := by
  unfold normalized
  rw [h]
  cases v
  simp [scale]

/-- With equal indices the non-recursive formula returns the incident vector. -/
theorem snell_same_index (I N : vec3 ℝ) (n : ℝ) (hn : n ≠ 0) (hc : 0 ≤ cosi I N) :
    snell Real.sqrt I N n n = I := by
  unfold snell
  simp only
  rw [div_self hn]
  have hk : 1 - 1 * 1 * (1 - cosi I N * cosi I N) = cosi I N * cosi I N := by ring
  rw [hk, if_neg (not_lt.mpr (mul_self_nonneg _)), Real.sqrt_mul_self hc]
  cases I
  simp [add, scale]

theorem refract_same_index (I N : vec3 ℝ) (n : ℝ) (hn : n ≠ 0) :
    refract Real.sqrt I N n n = I := by
  by_cases h : cosi I N < 0
  · rw [refract_back Real.sqrt I N n n h]
    apply snell_same_index I (addinv N) n hn
    rw [cosi_addinv]
    linarith
  · rw [refract_front Real.sqrt I N n n h]
    exact snell_same_index I N n hn (not_lt.mp h)

/-- With `0 < eta_i <= eta_t` the discriminant `k` of `refract` is not negative. -/
theorem snell_k_nonneg (I N : vec3 ℝ) (eta_t eta_i : ℝ) (hpos : 0 < eta_i) (hle : eta_i ≤ eta_t) :
    0 ≤ 1 - eta_i / eta_t * (eta_i / eta_t) * (1 - cosi I N * cosi I N) := by
  obtain ⟨hc1, hc2⟩ := cosi_bounds I N
  have ht : 0 < eta_t := lt_of_lt_of_le hpos hle
  have he0 : 0 ≤ eta_i / eta_t := le_of_lt (div_pos hpos ht)
  have he1 : eta_i / eta_t ≤ 1 := (div_le_one ht).mpr hle
  have hcc : cosi I N * cosi I N ≤ 1 := by nlinarith
  have hcc0 : 0 ≤ cosi I N * cosi I N := mul_self_nonneg _
  have hee : eta_i / eta_t * (eta_i / eta_t) ≤ 1 := by nlinarith
  have hee0 : 0 ≤ eta_i / eta_t * (eta_i / eta_t) := mul_self_nonneg _
  nlinarith

end RealRefraction

/-! ## Exact real arithmetic: a sphere seen from outside -/

section FrontFace

/-- Cauchy-Schwarz for a unit direction: the squared distance `d2` from the
centre to the ray's line is not negative. -/
theorem sphere_d2_nonneg (orig dir : vec3 ℝ) (s : Sphere ℝ) (hdir : norm Real.sqrt dir = 1) :
    0 ≤ sphere_d2 orig dir s := by
  have hu := norm_unit_dot dir hdir
  unfold sphere_d2 sphere_tca
  generalize subtract s.center orig = L
  have hid : dot L L * dot dir dir - dot L dir * dot L dir =
      (L.y * dir.z - L.z * dir.y) ^ 2 + (L.z * dir.x - L.x * dir.z) ^ 2 +
        (L.x * dir.y - L.y * dir.x) ^ 2 := by
    simp only [dot]
    ring
  rw [hu] at hid
  nlinarith [sq_nonneg (L.y * dir.z - L.z * dir.y), sq_nonneg (L.z * dir.x - L.x * dir.z),
    sq_nonneg (L.x * dir.y - L.y * dir.x)]

/-- From an origin farther than `radius + 0.001` from the centre, a reported hit
is at the near root `t0`. -/
theorem ray_sphere_outside_t0 (orig dir : vec3 ℝ) (s : Sphere ℝ)
    (hdir : norm Real.sqrt dir = 1) (hr : 0 < s.radius)
    (hfar : norm Real.sqrt (subtract s.center orig) > s.radius + 0.001)
    (hit : (ray_sphere_intersect Real.sqrt orig dir s).1 = true) :
    sphere_t0 Real.sqrt orig dir s > 0.001 ∧
      (ray_sphere_intersect Real.sqrt orig dir s).2 = sphere_t0 Real.sqrt orig dir s := by
  have hspec := ray_sphere_hit_spec orig dir s hdir (le_of_lt hr) hit
  rcases hspec.2.2.2 with ⟨h0, he⟩ | ⟨h0, h1, _⟩
  · exact ⟨h0, he⟩
  · exfalso
    have hd2 : ¬ sphere_d2 orig dir s > s.radius * s.radius := by
      intro hgt
      rw [ray_sphere_intersect_eq, if_pos hgt] at hit
      exact Bool.noConfusion hit
    have hd0 := sphere_d2_nonneg orig dir s hdir
    have hnn : 0 ≤ s.radius * s.radius - sphere_d2 orig dir s := by linarith [not_lt.mp hd2]
    have hsq := Real.mul_self_sqrt hnn
    have hthc0 := Real.sqrt_nonneg (s.radius * s.radius - sphere_d2 orig dir s)
    have hLL : dot (subtract s.center orig) (subtract s.center orig) >
        (s.radius + 0.001) * (s.radius + 0.001) := by
      have hn0 : 0 ≤ norm Real.sqrt (subtract s.center orig) := Real.sqrt_nonneg _
      have hsq2 : norm Real.sqrt (subtract s.center orig) *
          norm Real.sqrt (subtract s.center orig) =
          dot (subtract s.center orig) (subtract s.center orig) := by
        have := (norm_eq_iff (subtract s.center orig) _ hn0).mp rfl
        exact this.symm
      nlinarith
    unfold sphere_t0 at h0
    unfold sphere_t1 at h1
    have hd2def : sphere_d2 orig dir s =
        dot (subtract s.center orig) (subtract s.center orig) -
          sphere_tca orig dir s * sphere_tca orig dir s := rfl
    generalize Real.sqrt (s.radius * s.radius - sphere_d2 orig dir s) = thc at *
    generalize sphere_tca orig dir s = tca at *
    generalize dot (subtract s.center orig) (subtract s.center orig) = LL at *
    generalize sphere_d2 orig dir s = d2 at *
    have hthc_le : thc ≤ s.radius := by nlinarith
    have hprod : (tca - thc) * (tca + thc) = LL - s.radius * s.radius := by
      rw [hd2def] at hsq
      linear_combination -hsq
    have ht0 : 0 < tca - thc := by
      by_contra hneg
      have : (tca - thc) * (tca + thc) ≤ 0 :=
        mul_nonpos_of_nonpos_of_nonneg (not_lt.mp hneg) (by linarith)
      nlinarith
    nlinarith

/-- The normal `scene_intersect` computes for a sphere hit at its near root is a
unit vector that faces the incoming ray. -/
theorem sphere_normal_front (orig dir : vec3 ℝ) (s : Sphere ℝ)
    (hdir : norm Real.sqrt dir = 1) (hr : 0 < s.radius)
    (hfar : norm Real.sqrt (subtract s.center orig) > s.radius + 0.001)
    (hit : (ray_sphere_intersect Real.sqrt orig dir s).1 = true) :
    norm Real.sqrt (normalized Real.sqrt
        (subtract (add orig (scale dir (ray_sphere_intersect Real.sqrt orig dir s).2))
          s.center)) = 1 ∧
      dot dir (normalized Real.sqrt
        (subtract (add orig (scale dir (ray_sphere_intersect Real.sqrt orig dir s).2))
          s.center)) ≤ 0 := by
  have hspec := ray_sphere_hit_spec orig dir s hdir (le_of_lt hr) hit
  obtain ⟨_, he⟩ := ray_sphere_outside_t0 orig dir s hdir hr hfar hit
  have hon : norm Real.sqrt
      (subtract (add orig (scale dir (ray_sphere_intersect Real.sqrt orig dir s).2)) s.center) =
      s.radius := hspec.2.1
  have hne : subtract (add orig (scale dir (ray_sphere_intersect Real.sqrt orig dir s).2))
      s.center ≠ ⟨0, 0, 0⟩ := by
    intro h0
    rw [h0] at hon
    have : norm Real.sqrt (⟨0, 0, 0⟩ : vec3 ℝ) = 0 := by norm_num [norm]
    rw [this] at hon
    linarith
  refine ⟨norm_normalized_eq_one _ hne, ?_⟩
  unfold normalized
  rw [hon, he]
  have hu := norm_unit_dot dir hdir
  have hthc0 := Real.sqrt_nonneg (s.radius * s.radius - sphere_d2 orig dir s)
  have hdot : dot dir (subtract (add orig (scale dir (sphere_t0 Real.sqrt orig dir s))) s.center) =
      -Real.sqrt (s.radius * s.radius - sphere_d2 orig dir s) := by
    unfold sphere_t0 sphere_tca
    generalize Real.sqrt (s.radius * s.radius - sphere_d2 orig dir s) = thc
    simp only [dot, subtract, add, scale] at hu ⊢
    linear_combination (s.center.x * dir.x + s.center.y * dir.y + s.center.z * dir.z -
      (orig.x * dir.x + orig.y * dir.y + orig.z * dir.z) - thc) * hu
  have hscale : ∀ (v : vec3 ℝ) (c : ℝ), dot dir (scale v c) = dot dir v * c := by
    intro v c
    simp only [dot, scale]
    ring
  rw [hscale, hdot]
  have hinv : 0 ≤ 1 / s.radius := le_of_lt (one_div_pos.mpr hr)
  nlinarith

end FrontFace

/-! ## The call tree of `cast_ray` -/

section CallTree

variable {F : Type} [LinearOrderedField F] [FloorRing F]

/-- The body of `cast_ray_traced`, one level unfolded. -/
theorem cast_ray_traced_eq (sqrt : F → F) (pow : F → F → F) (orig dir : vec3 F) (depth : Int)
    (spheres : List (Sphere F)) (lights : List (vec3 F)) :
    cast_ray_traced sqrt pow orig dir depth spheres lights =
      if depth > DEPTH ∨ (scene_intersect sqrt orig dir spheres).hit = false then
        (BACKGROUND_COLOR, 1)
      else
        (composite (scene_intersect sqrt orig dir spheres).material
          (cast_ray_traced sqrt pow (scene_intersect sqrt orig dir spheres).point
            (normalized sqrt (reflect dir (scene_intersect sqrt orig dir spheres).N))
            (depth + 1) spheres lights).1
          (cast_ray_traced sqrt pow (scene_intersect sqrt orig dir spheres).point
            (normalized sqrt (refract sqrt dir (scene_intersect sqrt orig dir spheres).N
              (scene_intersect sqrt orig dir spheres).material.refractive_index 1))
            (depth + 1) spheres lights).1
          (lights.foldl (light_step sqrt pow spheres dir
            (scene_intersect sqrt orig dir spheres).point (scene_intersect sqrt orig dir spheres).N
            (scene_intersect sqrt orig dir spheres).material) (0, 0)).1
          (lights.foldl (light_step sqrt pow spheres dir
            (scene_intersect sqrt orig dir spheres).point (scene_intersect sqrt orig dir spheres).N
            (scene_intersect sqrt orig dir spheres).material) (0, 0)).2,
        1 + (cast_ray_traced sqrt pow (scene_intersect sqrt orig dir spheres).point
            (normalized sqrt (reflect dir (scene_intersect sqrt orig dir spheres).N))
            (depth + 1) spheres lights).2 +
          (cast_ray_traced sqrt pow (scene_intersect sqrt orig dir spheres).point
            (normalized sqrt (refract sqrt dir (scene_intersect sqrt orig dir spheres).N
              (scene_intersect sqrt orig dir spheres).material.refractive_index 1))
            (depth + 1) spheres lights).2) := by
  rw [cast_ray_traced]
  simp only [dite_eq_ite]

/-- The traced recursion computes the colour of `cast_ray`. -/
theorem cast_ray_traced_fst (sqrt : F → F) (pow : F → F → F) (spheres : List (Sphere F))
    (lights : List (vec3 F)) (n : Nat) :
    ∀ (orig dir : vec3 F) (depth : Int), (DEPTH + 1 - depth).toNat = n →
      (cast_ray_traced sqrt pow orig dir depth spheres lights).1 =
        cast_ray sqrt pow orig dir depth spheres lights := by
  induction n with
  | zero =>
    intro orig dir depth hn
    have hd : depth > DEPTH := by
      simp only [DEPTH] at hn ⊢
      omega
    rw [cast_ray_traced_eq, cast_ray_eq, if_pos (Or.inl hd), if_pos (Or.inl hd)]
  | succ n ih =>
    intro orig dir depth hn
    rw [cast_ray_traced_eq, cast_ray_eq]
    by_cases hg : depth > DEPTH ∨ (scene_intersect sqrt orig dir spheres).hit = false
    · rw [if_pos hg, if_pos hg]
    · rw [if_neg hg, if_neg hg]
      have hn2 : (DEPTH + 1 - (depth + 1)).toNat = n := by
        simp only [DEPTH] at hn ⊢
        omega
      simp only [ih _ _ _ hn2]

/-- The call tree below depth `depth` has at most `2^(n+1) - 1` invocations,
where `n` is the number of levels left, `DEPTH + 1 - depth`. -/
theorem cast_ray_traced_snd_le (sqrt : F → F) (pow : F → F → F) (spheres : List (Sphere F))
    (lights : List (vec3 F)) (n : Nat) :
    ∀ (orig dir : vec3 F) (depth : Int), (DEPTH + 1 - depth).toNat = n →
      (cast_ray_traced sqrt pow orig dir depth spheres lights).2 ≤ 2 ^ (n + 1) - 1 := by
  induction n with
  | zero =>
    intro orig dir depth hn
    have hd : depth > DEPTH := by
      simp only [DEPTH] at hn ⊢
      omega
    rw [cast_ray_traced_eq, if_pos (Or.inl hd)]
    exact le_refl 1
  | succ n ih =>
    intro orig dir depth hn
    rw [cast_ray_traced_eq]
    have hpow : 1 ≤ 2 ^ (n + 1) := Nat.one_le_two_pow
    by_cases hg : depth > DEPTH ∨ (scene_intersect sqrt orig dir spheres).hit = false
    · rw [if_pos hg]
      show 1 ≤ 2 ^ (n + 1 + 1) - 1
      rw [pow_succ]
      omega
    · rw [if_neg hg]
      have hn2 : (DEPTH + 1 - (depth + 1)).toNat = n := by
        simp only [DEPTH] at hn ⊢
        omega
      have h1 := ih (scene_intersect sqrt orig dir spheres).point
        (normalized sqrt (reflect dir (scene_intersect sqrt orig dir spheres).N)) (depth + 1) hn2
      have h2 := ih (scene_intersect sqrt orig dir spheres).point
        (normalized sqrt (refract sqrt dir (scene_intersect sqrt orig dir spheres).N
          (scene_intersect sqrt orig dir spheres).material.refractive_index 1)) (depth + 1) hn2
      show 1 + _ + _ ≤ 2 ^ (n + 1 + 1) - 1
      rw [pow_succ 2 (n + 1)]
      omega

end CallTree

/-! ## Exact real arithmetic: rays along the axis of the nested spheres -/

section NestedScene

theorem nested_mem (s : Sphere ℝ) :
    s ∈ (nested_spheres : List (Sphere ℝ)) ↔
      ∃ k : Nat, k < 11 ∧ s = ⟨⟨0, 0, 0⟩, (k : ℝ) + 1, ivory⟩ := by
  unfold nested_spheres
  rw [List.mem_map]
  constructor
  · rintro ⟨k, hk, rfl⟩
    exact ⟨k, List.mem_range.mp hk, rfl⟩
  · rintro ⟨k, hk, rfl⟩
    exact ⟨k, List.mem_range.mpr hk, rfl⟩

/-- The intersection of an axis ray with a sphere centred at the origin. -/
theorem axis_ray_sphere (z σ R : ℝ) (m : Material ℝ) (hσ : σ = 1 ∨ σ = -1) (hR : 0 ≤ R) :
    ray_sphere_intersect Real.sqrt ⟨0, 0, z⟩ ⟨0, 0, σ⟩ ⟨⟨0, 0, 0⟩, R, m⟩ =
      if -(z * σ) - R > 0.001 then (true, -(z * σ) - R)
      else if -(z * σ) + R > 0.001 then (true, -(z * σ) + R)
      else (false, 0) := by
  have hσ2 : σ * σ = 1 := by
    rcases hσ with rfl | rfl <;> norm_num
  have htca : sphere_tca (⟨0, 0, z⟩ : vec3 ℝ) ⟨0, 0, σ⟩ ⟨⟨0, 0, 0⟩, R, m⟩ = -(z * σ) := by
    simp only [sphere_tca, dot, subtract]
    ring
  have hd2 : sphere_d2 (⟨0, 0, z⟩ : vec3 ℝ) ⟨0, 0, σ⟩ ⟨⟨0, 0, 0⟩, R, m⟩ = 0 := by
    unfold sphere_d2
    rw [htca]
    simp only [dot, subtract]
    linear_combination (-(z * z)) * hσ2
  have hthc : Real.sqrt (R * R - 0) = R := by
    rw [sub_zero, Real.sqrt_mul_self hR]
  rw [ray_sphere_intersect_eq]
  simp only [sphere_t0, sphere_t1, htca, hd2, hthc]
  rw [if_neg (not_lt.mpr (mul_self_nonneg R))]

/-- From a point of the axis within distance `j` of the origin, an axis ray hits
one of the nested spheres, at a point of the axis within distance `j + 1`, with
a normal along the axis. -/
theorem axis_scene_hit (z σ : ℝ) (j : Nat) (hj : j < 11) (hz : |z| ≤ (j : ℝ))
    (hσ : σ = 1 ∨ σ = -1) :
    ∃ z2 ν : ℝ, scene_intersect Real.sqrt ⟨0, 0, z⟩ ⟨0, 0, σ⟩ nested_spheres =
        ⟨true, ⟨0, 0, z2⟩, ⟨0, 0, ν⟩, ivory⟩ ∧ |z2| ≤ (j : ℝ) + 1 ∧ (ν = 1 ∨ ν = -1) := by
  have hσ2 : σ * σ = 1 := by
    rcases hσ with rfl | rfl <;> norm_num
  have hzb := abs_le.mp hz
  have hzσ : -(j : ℝ) ≤ z * σ ∧ z * σ ≤ (j : ℝ) := by
    rcases hσ with rfl | rfl
    · constructor <;> linarith [hzb.1, hzb.2]
    · constructor <;> linarith [hzb.1, hzb.2]
  have hj0 : (0 : ℝ) ≤ (j : ℝ) := Nat.cast_nonneg j
  have hj11 : (j : ℝ) ≤ 10 := by
    have : j ≤ 10 := by omega
    exact_mod_cast this
  -- the sphere of radius `j + 1` is hit at its far root
  have hK : ray_sphere_intersect Real.sqrt ⟨0, 0, z⟩ ⟨0, 0, σ⟩ ⟨⟨0, 0, 0⟩, (j : ℝ) + 1, ivory⟩ =
      (true, -(z * σ) + ((j : ℝ) + 1)) := by
    rw [axis_ray_sphere z σ _ ivory hσ (by linarith), if_neg (by linarith [hzσ.1]),
      if_pos (by linarith [hzσ.2])]
  have hKmem : (⟨⟨0, 0, 0⟩, (j : ℝ) + 1, ivory⟩ : Sphere ℝ) ∈ nested_spheres :=
    (nested_mem _).mpr ⟨j, hj, rfl⟩
  have hle := scene_state_le_sphere Real.sqrt ⟨0, 0, z⟩ ⟨0, 0, σ⟩ nested_spheres _ hKmem
    (by rw [hK])
  rw [hK] at hle
  simp only at hle
  rcases scene_state_cases Real.sqrt ⟨0, 0, z⟩ ⟨0, 0, σ⟩ nested_spheres with
    h0 | ⟨hc, _⟩ | ⟨s, hs, hit, hst⟩
  · rw [h0] at hle
    norm_num [scene_init] at hle
    linarith [hzσ.1]
  · exact absurd hc (eval_not_floor_candidate_flat _ _ _)
  · obtain ⟨k, hk, rfl⟩ := (nested_mem s).mp hs
    have hk0 : (0 : ℝ) ≤ (k : ℝ) := Nat.cast_nonneg k
    have hgt := ray_sphere_intersect_gt Real.sqrt ⟨0, 0, z⟩ ⟨0, 0, σ⟩
      ⟨⟨0, 0, 0⟩, (k : ℝ) + 1, ivory⟩ hit
    rw [hst] at hle
    simp only at hle
    have hform := axis_ray_sphere z σ ((k : ℝ) + 1) ivory hσ (by linarith)
    -- the hit point is `∓σ (k + 1)` on the axis
    have hroot : ∃ τ : ℝ, (τ = 1 ∨ τ = -1) ∧
        (ray_sphere_intersect Real.sqrt ⟨0, 0, z⟩ ⟨0, 0, σ⟩ ⟨⟨0, 0, 0⟩, (k : ℝ) + 1, ivory⟩).2 =
          -(z * σ) + τ * ((k : ℝ) + 1) := by
      rw [hform]
      split_ifs
      · exact ⟨-1, Or.inr rfl, by simp only; ring⟩
      · exact ⟨1, Or.inl rfl, by simp only; ring⟩
      · rw [hform] at hit
        simp_all
    obtain ⟨τ, hτ, hd⟩ := hroot
    have hτ2 : τ * τ = 1 := by
      rcases hτ with rfl | rfl <;> norm_num
    set d := (ray_sphere_intersect Real.sqrt ⟨0, 0, z⟩ ⟨0, 0, σ⟩
      ⟨⟨0, 0, 0⟩, (k : ℝ) + 1, ivory⟩).2 with hddef
    have hz2 : z + σ * d = σ * τ * ((k : ℝ) + 1) := by
      rw [hd]
      linear_combination (-z) * hσ2
    have hστ : σ * τ = 1 ∨ σ * τ = -1 := by
      rcases hσ with rfl | rfl <;> rcases hτ with rfl | rfl <;> norm_num
    have hpt : add (⟨0, 0, z⟩ : vec3 ℝ) (scale ⟨0, 0, σ⟩ d) = ⟨0, 0, z + σ * d⟩ := by
      simp [add, scale]
    have hnorm : norm Real.sqrt (subtract (⟨0, 0, z + σ * d⟩ : vec3 ℝ) ⟨0, 0, 0⟩) =
        (k : ℝ) + 1 := by
      rw [norm_eq_iff _ _ (by linarith), hz2]
      simp only [dot, subtract]
      rcases hστ with h | h <;> rw [h] <;> ring
    have hN : normalized Real.sqrt (subtract (⟨0, 0, z + σ * d⟩ : vec3 ℝ) ⟨0, 0, 0⟩) =
        ⟨0, 0, σ * τ⟩ := by
      unfold normalized
      rw [hnorm, hz2]
      have hk1 : ((k : ℝ) + 1) ≠ 0 := by linarith
      simp only [subtract, scale, vec3.mk.injEq]
      refine ⟨by ring, by ring, ?_⟩
      field_simp
    refine ⟨z + σ * d, σ * τ, ?_, ?_, hστ⟩
    · unfold scene_intersect
      simp only [hst]
      rw [hpt, hN]
      have hlt : d < 1000 := by linarith [hzσ.1]
      simp [hlt]
    · rw [abs_le]
      rcases hσ with rfl | rfl
      · constructor <;> nlinarith [hzb.1, hzb.2]
      · constructor <;> nlinarith [hzb.1, hzb.2]

theorem axis_reflect_dir (σ ν : ℝ) (hσ : σ = 1 ∨ σ = -1) (hν : ν = 1 ∨ ν = -1) :
    normalized Real.sqrt (reflect (⟨0, 0, σ⟩ : vec3 ℝ) ⟨0, 0, ν⟩) = ⟨0, 0, -σ⟩ := by
  rcases hσ with rfl | rfl <;> rcases hν with rfl | rfl <;>
    norm_num [normalized, reflect, subtract, scale, dot, norm]

theorem axis_refract_dir (σ ν : ℝ) (hσ : σ = 1 ∨ σ = -1) :
    normalized Real.sqrt
        (refract Real.sqrt (⟨0, 0, σ⟩ : vec3 ℝ) ⟨0, 0, ν⟩ (ivory : Material ℝ).refractive_index 1) =
      ⟨0, 0, σ⟩ := by
  have h1 : (ivory : Material ℝ).refractive_index = 1 := rfl
  rw [h1, refract_same_index _ _ 1 one_ne_zero]
  apply normalized_of_unit
  rcases hσ with rfl | rfl <;> norm_num [norm]

/-- Every axis ray at depth `j <= 10` that starts within distance `j` of the
origin hits, and so do its two children: the call tree is the full binary tree
down to depth `DEPTH + 1`. -/
theorem nested_calls (pow : ℝ → ℝ → ℝ) (lights : List (vec3 ℝ)) (n : Nat) :
    ∀ (j : Nat) (z σ : ℝ), j + n = 11 → |z| ≤ (j : ℝ) → (σ = 1 ∨ σ = -1) →
      (cast_ray_traced Real.sqrt pow ⟨0, 0, z⟩ ⟨0, 0, σ⟩ (j : Int) nested_spheres lights).2 =
        2 ^ (n + 1) - 1 := by
  induction n with
  | zero =>
    intro j z σ hj _ _
    have hd : (j : Int) > DEPTH := by
      simp only [DEPTH]
      omega
    rw [cast_ray_traced_eq, if_pos (Or.inl hd)]
    rfl
  | succ n ih =>
    intro j z σ hj hz hσ
    obtain ⟨z2, ν, hq, hz2, hν⟩ := axis_scene_hit z σ j (by omega) hz hσ
    have hg : ¬ ((j : Int) > DEPTH ∨
        (scene_intersect Real.sqrt ⟨0, 0, z⟩ ⟨0, 0, σ⟩ nested_spheres).hit = false) := by
      rw [hq]
      simp only [DEPTH, not_or, not_lt]
      exact ⟨by omega, Bool.noConfusion⟩
    rw [cast_ray_traced_eq, if_neg hg, hq]
    simp only
    rw [axis_reflect_dir σ ν hσ hν, axis_refract_dir σ ν hσ]
    have hcast : ((j : Int) + 1) = ((j + 1 : Nat) : Int) := by push_cast; ring
    have hz3 : |z2| ≤ ((j + 1 : Nat) : ℝ) := by push_cast; exact hz2
    have hσn : -σ = 1 ∨ -σ = -1 := by
      rcases hσ with rfl | rfl
      · right; rfl
      · left; norm_num
    rw [hcast, ih (j + 1) z2 (-σ) (by omega) hz3 hσn, ih (j + 1) z2 σ (by omega) hz3 hσ]
    have hpow : 1 ≤ 2 ^ (n + 1) := Nat.one_le_two_pow
    rw [pow_succ 2 (n + 1)]
    omega

end NestedScene

/-! ## Exact real arithmetic: the corner pixel of `main` -/

section Camera

/-- A sphere is missed when the line of the ray passes farther than the radius
from the centre; stated on the direction before normalisation. -/
theorem ray_sphere_miss_of_far (orig v : vec3 ℝ) (s : Sphere ℝ) (hv : v ≠ ⟨0, 0, 0⟩)
    (h : (dot (subtract s.center orig) (subtract s.center orig) - s.radius * s.radius) * dot v v >
      dot (subtract s.center orig) v * dot (subtract s.center orig) v) :
    ray_sphere_intersect Real.sqrt orig (normalized Real.sqrt v) s = (false, 0) := by
  have hvv := dot_self_pos v hv
  have hn := norm_pos v hv
  have hsq : norm Real.sqrt v * norm Real.sqrt v = dot v v :=
    Real.mul_self_sqrt (le_of_lt hvv)
  have htca : sphere_tca orig (normalized Real.sqrt v) s =
      dot (subtract s.center orig) v / norm Real.sqrt v := by
    unfold sphere_tca normalized
    simp only [dot, scale]
    field_simp
  have hd2 : sphere_d2 orig (normalized Real.sqrt v) s > s.radius * s.radius := by
    unfold sphere_d2
    rw [htca, div_mul_div_comm, hsq]
    have hq : dot (subtract s.center orig) v * dot (subtract s.center orig) v / dot v v <
        dot (subtract s.center orig) (subtract s.center orig) - s.radius * s.radius := by
      rw [div_lt_iff₀ hvv]
      exact h
    linarith
  rw [ray_sphere_intersect_eq, if_pos hd2]

/-- The `z` component of the camera rays: `0 < 768 / (2 tan(1.05/2)) < 732`. -/
theorem camera_depth_bounds :
    0 < 768 / (2 * Real.tan (1.05 / 2)) ∧ 768 / (2 * Real.tan (1.05 / 2)) < 732 := by
  have hpi := Real.pi_gt_three
  have h0 : (0 : ℝ) < 1.05 / 2 := by norm_num
  have h1 : (1.05 / 2 : ℝ) < Real.pi / 2 := by linarith
  have htan := Real.lt_tan h0 h1
  have hpos : 0 < 2 * Real.tan (1.05 / 2) := by linarith
  constructor
  · exact div_pos (by norm_num) hpos
  · rw [div_lt_iff₀ hpos]
    nlinarith

/-- The direction of pixel 0 before normalisation misses the four spheres of
`main`, for every admissible depth `Z` of the image plane. -/
theorem corner_misses_spheres (Z : ℝ) (h0 : 0 < Z) (h1 : Z < 732) (s : Sphere ℝ)
    (hs : s ∈ (main_spheres : List (Sphere ℝ))) :
    (dot (subtract s.center ⟨0, 0, 0⟩) (subtract s.center ⟨0, 0, 0⟩) - s.radius * s.radius) *
        dot (⟨-511.5, 383.5, -Z⟩ : vec3 ℝ) ⟨-511.5, 383.5, -Z⟩ >
      dot (subtract s.center ⟨0, 0, 0⟩) ⟨-511.5, 383.5, -Z⟩ *
        dot (subtract s.center ⟨0, 0, 0⟩) ⟨-511.5, 383.5, -Z⟩ := by
  have hZ2 : 0 < Z * (732 - Z) := mul_pos h0 (by linarith)
  simp only [main_spheres, List.mem_cons, List.mem_singleton, List.not_mem_nil, or_false] at hs
  rcases hs with rfl | rfl | rfl | rfl
  · simp only [dot, subtract]
    norm_num
    nlinarith [mul_self_nonneg Z]
  · simp only [dot, subtract]
    norm_num
    nlinarith [mul_self_nonneg Z]
  · simp only [dot, subtract]
    norm_num
    nlinarith [mul_self_nonneg Z]
  · simp only [dot, subtract]
    norm_num
    nlinarith [mul_self_nonneg Z]

theorem pixel_dir_zero :
    pixel_dir Real.sqrt Real.tan 0 =
      normalized Real.sqrt ⟨-511.5, 383.5, -768 / (2 * Real.tan (1.05 / 2))⟩ := by
  unfold pixel_dir
  norm_num [width, height, fov]

theorem corner_vector_ne (Z : ℝ) : (⟨-511.5, 383.5, Z⟩ : vec3 ℝ) ≠ ⟨0, 0, 0⟩ := by
  intro h
  have hy := congrArg vec3.y h
  norm_num at hy

/-- The ray of pixel 0 points upwards, so the floor is no candidate. -/
theorem corner_not_floor_candidate :
    ¬ floor_candidate (⟨0, 0, 0⟩ : vec3 ℝ) (pixel_dir Real.sqrt Real.tan 0) := by
  rw [pixel_dir_zero]
  intro hc
  have hd := hc.2.1
  have hn := norm_pos _ (corner_vector_ne (-768 / (2 * Real.tan (1.05 / 2))))
  unfold floor_dist normalized at hd
  simp only [scale] at hd
  have hy : 0 < 383.5 * (1 / norm Real.sqrt
      (⟨-511.5, 383.5, -768 / (2 * Real.tan (1.05 / 2))⟩ : vec3 ℝ)) :=
    mul_pos (by norm_num) (one_div_pos.mpr hn)
  have hneg : -((0 : ℝ) + 4) / (383.5 * (1 / norm Real.sqrt
      (⟨-511.5, 383.5, -768 / (2 * Real.tan (1.05 / 2))⟩ : vec3 ℝ))) < 0 :=
    div_neg_of_neg_of_pos (by norm_num) hy
  linarith

theorem corner_sphere_miss (s : Sphere ℝ) (hs : s ∈ (main_spheres : List (Sphere ℝ))) :
    ray_sphere_intersect Real.sqrt ⟨0, 0, 0⟩ (pixel_dir Real.sqrt Real.tan 0) s = (false, 0) := by
  rw [pixel_dir_zero]
  obtain ⟨h0, h1⟩ := camera_depth_bounds
  have hneg : (-768 / (2 * Real.tan (1.05 / 2)) : ℝ) = -(768 / (2 * Real.tan (1.05 / 2))) := by
    ring
  rw [hneg]
  exact ray_sphere_miss_of_far _ _ s (corner_vector_ne _)
    (corner_misses_spheres _ h0 h1 s hs)

theorem corner_scene_state :
    scene_state Real.sqrt ⟨0, 0, 0⟩ (pixel_dir Real.sqrt Real.tan 0) main_spheres = scene_init := by
  unfold scene_state
  rcases floor_step_init (⟨0, 0, 0⟩ : vec3 ℝ) (pixel_dir Real.sqrt Real.tan 0) with
    ⟨h0, _⟩ | ⟨hc, _, _⟩
  · rw [h0]
    apply foldl_sphere_step_unchanged
    intro s hs hit
    rw [corner_sphere_miss s hs] at hit
    exact Bool.noConfusion hit
  · exact absurd hc corner_not_floor_candidate

end Camera

/-! ## Binary32: evaluating the rounding -/

section Rounding

variable {F : Type} [LinearOrderedField F] [FloorRing F]

theorem round_even_eq (y : F) (m : Int) (h : |y - (m : F)| < 1 / 2) :
    Binary32.round_even y = m := by
  have hab := abs_lt.mp h
  unfold Binary32.round_even
  by_cases hm : (m : F) ≤ y
  · have hf : ⌊y⌋ = m := by
      rw [Int.floor_eq_iff]
      exact ⟨hm, by linarith [hab.2]⟩
    rw [hf, if_pos (by linarith [hab.2])]
  · have hf : ⌊y⌋ = m - 1 := by
      rw [Int.floor_eq_iff]
      push_cast
      exact ⟨by linarith [hab.1], by linarith [not_le.mp hm]⟩
    rw [hf]
    push_cast
    rw [if_neg (by linarith [hab.1]), if_pos (by linarith [hab.1])]
    ring

theorem int_log_two_eq (x : F) (e : Int) (h1 : (2 : F) ^ e ≤ x) (h2 : x < (2 : F) ^ (e + 1)) :
    Int.log 2 x = e := by
  have hx : 0 < x := lt_of_lt_of_le (zpow_pos (by norm_num) e) h1
  have a : e ≤ Int.log 2 x :=
    (Int.zpow_le_iff_le_log (by norm_num) hx).mp (by exact_mod_cast h1)
  have b : Int.log 2 x < e + 1 :=
    (Int.lt_zpow_iff_log_lt (by norm_num) hx).mp (by exact_mod_cast h2)
  omega

theorem round_bits_zero (p : Nat) : Binary32.round_bits p (0 : F) = 0 := by
  unfold Binary32.round_bits
  rw [if_pos rfl]

/-- The value of a rounding, from the binade `2^e <= |x| < 2^(e+1)` and the
integer `m` nearest to `x / 2^(e - (p - 1))`. -/
theorem round_bits_eq (p : Nat) (x : F) (e m : Int) (h1 : (2 : F) ^ e ≤ |x|)
    (h2 : |x| < (2 : F) ^ (e + 1))
    (hlo : (m : F) - 1 / 2 < x / (2 : F) ^ (e - ((p : Int) - 1)))
    (hhi : x / (2 : F) ^ (e - ((p : Int) - 1)) < (m : F) + 1 / 2) :
    Binary32.round_bits p x = (m : F) * (2 : F) ^ (e - ((p : Int) - 1)) := by
  have hx : x ≠ 0 := by
    intro h0
    rw [h0, abs_zero] at h1
    exact absurd h1 (not_le.mpr (zpow_pos (by norm_num) e))
  have h3 : |x / (2 : F) ^ (e - ((p : Int) - 1)) - (m : F)| < 1 / 2 := by
    rw [abs_lt]
    constructor <;> linarith
  unfold Binary32.round_bits
  rw [if_neg hx, int_log_two_eq |x| e h1 h2, round_even_eq _ m h3]

theorem round_bits_pos (p : Nat) (x : F) (e m : Int) (h1 : (2 : F) ^ e ≤ x)
    (h2 : x < (2 : F) ^ (e + 1))
    (hlo : (m : F) - 1 / 2 < x / (2 : F) ^ (e - ((p : Int) - 1)))
    (hhi : x / (2 : F) ^ (e - ((p : Int) - 1)) < (m : F) + 1 / 2) :
    Binary32.round_bits p x = (m : F) * (2 : F) ^ (e - ((p : Int) - 1)) := by
  have hx : 0 < x := lt_of_lt_of_le (zpow_pos (by norm_num) e) h1
  exact round_bits_eq p x e m (by rw [abs_of_pos hx]; exact h1)
    (by rw [abs_of_pos hx]; exact h2) hlo hhi

theorem round_bits_neg (p : Nat) (x : F) (e m : Int) (h1 : (2 : F) ^ e ≤ -x)
    (h2 : -x < (2 : F) ^ (e + 1))
    (hlo : (m : F) - 1 / 2 < x / (2 : F) ^ (e - ((p : Int) - 1)))
    (hhi : x / (2 : F) ^ (e - ((p : Int) - 1)) < (m : F) + 1 / 2) :
    Binary32.round_bits p x = (m : F) * (2 : F) ^ (e - ((p : Int) - 1)) := by
  have hx : x < 0 := by
    have := lt_of_lt_of_le (zpow_pos (by norm_num : (0 : F) < 2) e) h1
    linarith
  exact round_bits_eq p x e m (by rw [abs_of_neg hx]; exact h1)
    (by rw [abs_of_neg hx]; exact h2) hlo hhi

end Rounding

section Binary32Eval

theorem fl_zero : Binary32.fl (0 : ℝ) = 0 := round_bits_zero 24

theorem fl64_zero : Binary32.fl64 (0 : ℝ) = 0 := round_bits_zero 53

theorem fl_one : Binary32.fl (1 : ℝ) = 1 := by
  unfold Binary32.fl
  rw [round_bits_pos 24 (1 : ℝ) 0 8388608 (by norm_num) (by norm_num) (by norm_num)
    (by norm_num)]
  norm_num

theorem fl_2 : Binary32.fl (2 : ℝ) = 2 := by
  unfold Binary32.fl
  rw [round_bits_pos 24 _ 1 8388608 (by norm_num) (by norm_num) (by norm_num) (by norm_num)]
  norm_num

theorem fl_neg_2 : Binary32.fl (-2 : ℝ) = -2 := by
  unfold Binary32.fl
  rw [round_bits_neg 24 _ 1 (-8388608) (by norm_num) (by norm_num) (by norm_num) (by norm_num)]
  norm_num

theorem fl_3 : Binary32.fl (3 : ℝ) = 3 := by
  unfold Binary32.fl
  rw [round_bits_pos 24 _ 1 12582912 (by norm_num) (by norm_num) (by norm_num) (by norm_num)]
  norm_num

theorem fl_4 : Binary32.fl (4 : ℝ) = 4 := by
  unfold Binary32.fl
  rw [round_bits_pos 24 _ 2 8388608 (by norm_num) (by norm_num) (by norm_num) (by norm_num)]
  norm_num

theorem fl_neg_1 : Binary32.fl (-1 : ℝ) = -1 := by
  unfold Binary32.fl
  rw [round_bits_neg 24 _ 0 (-8388608) (by norm_num) (by norm_num) (by norm_num) (by norm_num)]
  norm_num

theorem fl_1_div_2 : Binary32.fl (1 / 2 : ℝ) = 1 / 2 := by
  unfold Binary32.fl
  rw [round_bits_pos 24 _ (-1) 8388608 (by norm_num) (by norm_num) (by norm_num) (by norm_num)]
  norm_num

theorem fl_neg_1_div_2 : Binary32.fl (-(1 / 2) : ℝ) = -(1 / 2) := by
  unfold Binary32.fl
  rw [round_bits_neg 24 _ (-1) (-8388608) (by norm_num) (by norm_num) (by norm_num) (by norm_num)]
  norm_num

theorem fl_1_div_4 : Binary32.fl (1 / 4 : ℝ) = 1 / 4 := by
  unfold Binary32.fl
  rw [round_bits_pos 24 _ (-2) 8388608 (by norm_num) (by norm_num) (by norm_num) (by norm_num)]
  norm_num

theorem fl_3_div_2 : Binary32.fl (3 / 2 : ℝ) = 3 / 2 := by
  unfold Binary32.fl
  rw [round_bits_pos 24 _ 0 12582912 (by norm_num) (by norm_num) (by norm_num) (by norm_num)]
  norm_num

theorem fl_neg_3_div_2 : Binary32.fl (-(3 / 2) : ℝ) = -(3 / 2) := by
  unfold Binary32.fl
  rw [round_bits_neg 24 _ 0 (-12582912) (by norm_num) (by norm_num) (by norm_num) (by norm_num)]
  norm_num

theorem fl_9_div_4 : Binary32.fl (9 / 4 : ℝ) = 9 / 4 := by
  unfold Binary32.fl
  rw [round_bits_pos 24 _ 1 9437184 (by norm_num) (by norm_num) (by norm_num) (by norm_num)]
  norm_num

theorem fl_5_div_2 : Binary32.fl (5 / 2 : ℝ) = 5 / 2 := by
  unfold Binary32.fl
  rw [round_bits_pos 24 _ 1 10485760 (by norm_num) (by norm_num) (by norm_num) (by norm_num)]
  norm_num

theorem fl_25_div_4 : Binary32.fl (25 / 4 : ℝ) = 25 / 4 := by
  unfold Binary32.fl
  rw [round_bits_pos 24 _ 2 13107200 (by norm_num) (by norm_num) (by norm_num) (by norm_num)]
  norm_num

theorem fl_33_div_64 : Binary32.fl (33 / 64 : ℝ) = 33 / 64 := by
  unfold Binary32.fl
  rw [round_bits_pos 24 _ (-1) 8650752 (by norm_num) (by norm_num) (by norm_num) (by norm_num)]
  norm_num

theorem fl_1089_div_4096 : Binary32.fl (1089 / 4096 : ℝ) = 1089 / 4096 := by
  unfold Binary32.fl
  rw [round_bits_pos 24 _ (-2) 8921088 (by norm_num) (by norm_num) (by norm_num) (by norm_num)]
  norm_num

theorem fl_127_div_64 : Binary32.fl (127 / 64 : ℝ) = 127 / 64 := by
  unfold Binary32.fl
  rw [round_bits_pos 24 _ 0 16646144 (by norm_num) (by norm_num) (by norm_num) (by norm_num)]
  norm_num

theorem fl_neg_129_div_64 : Binary32.fl (-(129 / 64) : ℝ) = -(129 / 64) := by
  unfold Binary32.fl
  rw [round_bits_neg 24 _ 1 (-8454144) (by norm_num) (by norm_num) (by norm_num) (by norm_num)]
  norm_num

theorem fl_neg_63_div_64 : Binary32.fl (-(63 / 64) : ℝ) = -(63 / 64) := by
  unfold Binary32.fl
  rw [round_bits_neg 24 _ (-1) (-16515072) (by norm_num) (by norm_num) (by norm_num) (by norm_num)]
  norm_num

theorem fl_neg_1048576 : Binary32.fl (-1048576 : ℝ) = -1048576 := by
  unfold Binary32.fl
  rw [round_bits_neg 24 _ 20 (-8388608) (by norm_num) (by norm_num) (by norm_num) (by norm_num)]
  norm_num

theorem fl_neg_1048574 : Binary32.fl (-1048574 : ℝ) = -1048574 := by
  unfold Binary32.fl
  rw [round_bits_neg 24 _ 19 (-16777184) (by norm_num) (by norm_num) (by norm_num) (by norm_num)]
  norm_num

theorem fl_neg_67108737_div_64 : Binary32.fl (-(67108737 / 64) : ℝ) = -1048574 := by
  unfold Binary32.fl
  rw [round_bits_neg 24 _ 19 (-16777184) (by norm_num) (by norm_num) (by norm_num) (by norm_num)]
  norm_num

theorem fl_1_div_1000 : Binary32.fl (1 / 1000 : ℝ) = 8589935 / 8589934592 := by
  unfold Binary32.fl
  rw [round_bits_pos 24 _ (-10) 8589935 (by norm_num) (by norm_num) (by norm_num) (by norm_num)]
  norm_num

theorem fl64_1 : Binary32.fl64 (1 : ℝ) = 1 := by
  unfold Binary32.fl64
  rw [round_bits_pos 53 _ 0 4503599627370496 (by norm_num) (by norm_num) (by norm_num) (by norm_num)]
  norm_num

theorem fl64_2 : Binary32.fl64 (2 : ℝ) = 2 := by
  unfold Binary32.fl64
  rw [round_bits_pos 53 _ 1 4503599627370496 (by norm_num) (by norm_num) (by norm_num) (by norm_num)]
  norm_num

theorem fl64_33_div_64 : Binary32.fl64 (33 / 64 : ℝ) = 33 / 64 := by
  unfold Binary32.fl64
  rw [round_bits_pos 53 _ (-1) 4644337115725824 (by norm_num) (by norm_num) (by norm_num) (by norm_num)]
  norm_num

theorem fl64_1_div_2 : Binary32.fl64 (1 / 2 : ℝ) = 1 / 2 := by
  unfold Binary32.fl64
  rw [round_bits_pos 53 _ (-1) 4503599627370496 (by norm_num) (by norm_num) (by norm_num) (by norm_num)]
  norm_num

theorem sqrt_four : Real.sqrt 4 = 2 := by
  rw [Real.sqrt_eq_iff_mul_self_eq (by norm_num) (by norm_num)]
  norm_num

theorem sqrt_quarter : Real.sqrt (1 / 4) = 1 / 2 := by
  rw [Real.sqrt_eq_iff_mul_self_eq (by norm_num) (by norm_num)]
  norm_num

theorem sqrt_1089 : Real.sqrt 1089 = 33 := by
  rw [Real.sqrt_eq_iff_mul_self_eq (by norm_num) (by norm_num)]
  norm_num

theorem sqrt_4096 : Real.sqrt 4096 = 64 := by
  rw [Real.sqrt_eq_iff_mul_self_eq (by norm_num) (by norm_num)]
  norm_num

/-- The primary ray meets the sphere of centre `(0,0,-1048577)` and radius `1`
at distance `1`. -/
theorem b32_primary_near (m : Material ℝ) :
    Binary32.ray_sphere_intersect Real.sqrt ⟨0, 0, -1048575⟩ ⟨0, 0, -1⟩
      ⟨⟨0, 0, -1048577⟩, 1, m⟩ = (true, 1) := by
  norm_num [Binary32.ray_sphere_intersect, Binary32.subtract, Binary32.dot, Binary32.sqrtf,
    fl_zero, fl64_zero, fl_one, fl_2, fl_neg_2, fl_3, fl_4, fl_neg_1, fl_1_div_2, fl_neg_1_div_2, fl_1_div_4, fl_3_div_2, fl_neg_3_div_2, fl_9_div_4, fl_5_div_2, fl_25_div_4, fl_33_div_64, fl_1089_div_4096, fl_127_div_64, fl_neg_129_div_64, fl_neg_63_div_64, fl_neg_1048576, fl_neg_1048574, fl_neg_67108737_div_64, fl_1_div_1000, fl64_1, fl64_2, fl64_33_div_64, fl64_1_div_2, sqrt_four, sqrt_quarter, sqrt_1089, sqrt_4096]

/-- The primary ray misses the occluder, which lies behind its origin. -/
theorem b32_primary_far (m : Material ℝ) :
    Binary32.ray_sphere_intersect Real.sqrt ⟨0, 0, -1048575⟩ ⟨0, 0, -1⟩
      ⟨⟨0, 0, -1048573.5⟩, 0.515625, m⟩ = (false, 0) := by
  norm_num [Binary32.ray_sphere_intersect, Binary32.subtract, Binary32.dot, Binary32.sqrtf,
    fl_zero, fl64_zero, fl_one, fl_2, fl_neg_2, fl_3, fl_4, fl_neg_1, fl_1_div_2, fl_neg_1_div_2, fl_1_div_4, fl_3_div_2, fl_neg_3_div_2, fl_9_div_4, fl_5_div_2, fl_25_div_4, fl_33_div_64, fl_1089_div_4096, fl_127_div_64, fl_neg_129_div_64, fl_neg_63_div_64, fl_neg_1048576, fl_neg_1048574, fl_neg_67108737_div_64, fl_1_div_1000, fl64_1, fl64_2, fl64_33_div_64, fl64_1_div_2, sqrt_four, sqrt_quarter, sqrt_1089, sqrt_4096]

theorem b32_floor_step_flat (orig : vec3 ℝ) (x z : ℝ) (st : SceneState ℝ) :
    Binary32.floor_step orig ⟨x, 0, z⟩ st = st := by
  have h : ¬ |(0 : ℝ)| > Binary32.fl 0.001 := by
    norm_num [fl_1_div_1000]
  unfold Binary32.floor_step
  rw [if_neg h]

/-- The primary query: a hit at `(0, 0, -1048576)` with normal `(0, 0, 1)`. -/
theorem b32_primary_scene (m1 m2 : Material ℝ) :
    Binary32.scene_intersect Real.sqrt ⟨0, 0, -1048575⟩ ⟨0, 0, -1⟩
        [⟨⟨0, 0, -1048577⟩, 1, m1⟩, ⟨⟨0, 0, -1048573.5⟩, 0.515625, m2⟩] =
      ⟨true, ⟨0, 0, -1048576⟩, ⟨0, 0, 1⟩, m1⟩ := by
  simp only [Binary32.scene_intersect, Binary32.scene_state, b32_floor_step_flat,
    List.foldl_cons, List.foldl_nil, Binary32.sphere_step, b32_primary_near, b32_primary_far]
  norm_num [scene_init, Binary32.normalized, Binary32.norm, Binary32.add, Binary32.scale,
    Binary32.subtract, Binary32.sqrtf,
    fl_zero, fl64_zero, fl_one, fl_2, fl_neg_2, fl_3, fl_4, fl_neg_1, fl_1_div_2, fl_neg_1_div_2, fl_1_div_4, fl_3_div_2, fl_neg_3_div_2, fl_9_div_4, fl_5_div_2, fl_25_div_4, fl_33_div_64, fl_1089_div_4096, fl_127_div_64, fl_neg_129_div_64, fl_neg_63_div_64, fl_neg_1048576, fl_neg_1048574, fl_neg_67108737_div_64, fl_1_div_1000, fl64_1, fl64_2, fl64_33_div_64, fl64_1_div_2, sqrt_four, sqrt_quarter, sqrt_1089, sqrt_4096]

/-- The light `(0, 0, -1048574)` is at distance `2` from the hit point. -/
theorem b32_light_norm :
    Binary32.norm Real.sqrt
      (Binary32.subtract (⟨0, 0, -1048574⟩ : vec3 ℝ) ⟨0, 0, -1048576⟩) = 2 := by
  norm_num [Binary32.norm, Binary32.subtract, Binary32.sqrtf,
    fl_zero, fl64_zero, fl_one, fl_2, fl_neg_2, fl_3, fl_4, fl_neg_1, fl_1_div_2, fl_neg_1_div_2, fl_1_div_4, fl_3_div_2, fl_neg_3_div_2, fl_9_div_4, fl_5_div_2, fl_25_div_4, fl_33_div_64, fl_1089_div_4096, fl_127_div_64, fl_neg_129_div_64, fl_neg_63_div_64, fl_neg_1048576, fl_neg_1048574, fl_neg_67108737_div_64, fl_1_div_1000, fl64_1, fl64_2, fl64_33_div_64, fl64_1_div_2, sqrt_four, sqrt_quarter, sqrt_1089, sqrt_4096]

theorem b32_light_dir :
    Binary32.normalized Real.sqrt
      (Binary32.subtract (⟨0, 0, -1048574⟩ : vec3 ℝ) ⟨0, 0, -1048576⟩) = ⟨0, 0, 1⟩ := by
  unfold Binary32.normalized
  rw [b32_light_norm]
  norm_num [Binary32.subtract, Binary32.scale,
    fl_zero, fl64_zero, fl_one, fl_2, fl_neg_2, fl_3, fl_4, fl_neg_1, fl_1_div_2, fl_neg_1_div_2, fl_1_div_4, fl_3_div_2, fl_neg_3_div_2, fl_9_div_4, fl_5_div_2, fl_25_div_4, fl_33_div_64, fl_1089_div_4096, fl_127_div_64, fl_neg_129_div_64, fl_neg_63_div_64, fl_neg_1048576, fl_neg_1048574, fl_neg_67108737_div_64, fl_1_div_1000, fl64_1, fl64_2, fl64_33_div_64, fl64_1_div_2]

/-- The shadow ray leaves the sphere it starts on. -/
theorem b32_shadow_near (m : Material ℝ) :
    Binary32.ray_sphere_intersect Real.sqrt ⟨0, 0, -1048576⟩ ⟨0, 0, 1⟩
      ⟨⟨0, 0, -1048577⟩, 1, m⟩ = (false, 0) := by
  norm_num [Binary32.ray_sphere_intersect, Binary32.subtract, Binary32.dot, Binary32.sqrtf,
    fl_zero, fl64_zero, fl_one, fl_2, fl_neg_2, fl_3, fl_4, fl_neg_1, fl_1_div_2, fl_neg_1_div_2, fl_1_div_4, fl_3_div_2, fl_neg_3_div_2, fl_9_div_4, fl_5_div_2, fl_25_div_4, fl_33_div_64, fl_1089_div_4096, fl_127_div_64, fl_neg_129_div_64, fl_neg_63_div_64, fl_neg_1048576, fl_neg_1048574, fl_neg_67108737_div_64, fl_1_div_1000, fl64_1, fl64_2, fl64_33_div_64, fl64_1_div_2, sqrt_four, sqrt_quarter, sqrt_1089, sqrt_4096]

/-- The shadow ray meets the occluder at distance `1.984375 < 2`. -/
theorem b32_shadow_occluder (m : Material ℝ) :
    Binary32.ray_sphere_intersect Real.sqrt ⟨0, 0, -1048576⟩ ⟨0, 0, 1⟩
      ⟨⟨0, 0, -1048573.5⟩, 0.515625, m⟩ = (true, 1.984375) := by
  norm_num [Binary32.ray_sphere_intersect, Binary32.subtract, Binary32.dot, Binary32.sqrtf,
    fl_zero, fl64_zero, fl_one, fl_2, fl_neg_2, fl_3, fl_4, fl_neg_1, fl_1_div_2, fl_neg_1_div_2, fl_1_div_4, fl_3_div_2, fl_neg_3_div_2, fl_9_div_4, fl_5_div_2, fl_25_div_4, fl_33_div_64, fl_1089_div_4096, fl_127_div_64, fl_neg_129_div_64, fl_neg_63_div_64, fl_neg_1048576, fl_neg_1048574, fl_neg_67108737_div_64, fl_1_div_1000, fl64_1, fl64_2, fl64_33_div_64, fl64_1_div_2, sqrt_four, sqrt_quarter, sqrt_1089, sqrt_4096]

/-- The shadow query: the hit point `-1048576 + 1.984375` is rounded to
`-1048574`, the position of the light. -/
theorem b32_shadow_scene (m1 m2 : Material ℝ) :
    Binary32.scene_intersect Real.sqrt ⟨0, 0, -1048576⟩ ⟨0, 0, 1⟩
        [⟨⟨0, 0, -1048577⟩, 1, m1⟩, ⟨⟨0, 0, -1048573.5⟩, 0.515625, m2⟩] =
      ⟨true, ⟨0, 0, -1048574⟩, ⟨0, 0, -1⟩, m2⟩ := by
  simp only [Binary32.scene_intersect, Binary32.scene_state, b32_floor_step_flat,
    List.foldl_cons, List.foldl_nil, Binary32.sphere_step, b32_shadow_near, b32_shadow_occluder]
  norm_num [scene_init, Binary32.normalized, Binary32.norm, Binary32.add, Binary32.scale,
    Binary32.subtract, Binary32.sqrtf,
    fl_zero, fl64_zero, fl_one, fl_2, fl_neg_2, fl_3, fl_4, fl_neg_1, fl_1_div_2, fl_neg_1_div_2, fl_1_div_4, fl_3_div_2, fl_neg_3_div_2, fl_9_div_4, fl_5_div_2, fl_25_div_4, fl_33_div_64, fl_1089_div_4096, fl_127_div_64, fl_neg_129_div_64, fl_neg_63_div_64, fl_neg_1048576, fl_neg_1048574, fl_neg_67108737_div_64, fl_1_div_1000, fl64_1, fl64_2, fl64_33_div_64, fl64_1_div_2, sqrt_four, sqrt_quarter, sqrt_1089, sqrt_4096]

/-- In binary32 the light is not skipped: its diffuse contribution is `1`. -/
theorem b32_light_step (pow : ℝ → ℝ → ℝ) (m1 m2 m : Material ℝ) (dir : vec3 ℝ) :
    (Binary32.light_step Real.sqrt pow
      [⟨⟨0, 0, -1048577⟩, 1, m1⟩, ⟨⟨0, 0, -1048573.5⟩, 0.515625, m2⟩] dir
      ⟨0, 0, -1048576⟩ ⟨0, 0, 1⟩ m (0, 0) ⟨0, 0, -1048574⟩).1 = 1 := by
  unfold Binary32.light_step
  simp only [b32_light_dir, b32_light_norm, b32_shadow_scene]
  norm_num [Binary32.norm, Binary32.subtract, Binary32.dot, Binary32.sqrtf, MAX,
    fl_zero, fl64_zero, fl_one, fl_2, fl_neg_2, fl_3, fl_4, fl_neg_1, fl_1_div_2, fl_neg_1_div_2, fl_1_div_4, fl_3_div_2, fl_neg_3_div_2, fl_9_div_4, fl_5_div_2, fl_25_div_4, fl_33_div_64, fl_1089_div_4096, fl_127_div_64, fl_neg_129_div_64, fl_neg_63_div_64, fl_neg_1048576, fl_neg_1048574, fl_neg_67108737_div_64, fl_1_div_1000, fl64_1, fl64_2, fl64_33_div_64, fl64_1_div_2, sqrt_four, sqrt_quarter, sqrt_1089, sqrt_4096]

theorem fl_neg_4 : Binary32.fl (-4 : ℝ) = -4 := by
  unfold Binary32.fl
  rw [round_bits_neg 24 _ 2 (-8388608) (by norm_num) (by norm_num) (by norm_num) (by norm_num)]
  norm_num

theorem fl_neg_13 : Binary32.fl (-13 : ℝ) = -13 := by
  unfold Binary32.fl
  rw [round_bits_neg 24 _ 3 (-13631488) (by norm_num) (by norm_num) (by norm_num) (by norm_num)]
  norm_num

theorem fl_neg_13_div_2 : Binary32.fl (-(13 / 2) : ℝ) = -(13 / 2) := by
  unfold Binary32.fl
  rw [round_bits_neg 24 _ 2 (-13631488) (by norm_num) (by norm_num) (by norm_num) (by norm_num)]
  norm_num

theorem fl_neg_1_div_32768 : Binary32.fl (-(1 / 32768) : ℝ) = -(1 / 32768) := by
  unfold Binary32.fl
  rw [round_bits_neg 24 _ (-15) (-8388608) (by norm_num) (by norm_num) (by norm_num) (by norm_num)]
  norm_num

theorem fl_neg_1_div_65536 : Binary32.fl (-(1 / 65536) : ℝ) = -(1 / 65536) := by
  unfold Binary32.fl
  rw [round_bits_neg 24 _ (-16) (-8388608) (by norm_num) (by norm_num) (by norm_num) (by norm_num)]
  norm_num

theorem fl_65535999_div_65536 : Binary32.fl (65535999 / 65536 : ℝ) = 1000 := by
  unfold Binary32.fl
  rw [round_bits_pos 24 _ 9 16384000 (by norm_num) (by norm_num) (by norm_num) (by norm_num)]
  norm_num

theorem fl_1000 : Binary32.fl (1000 : ℝ) = 1000 := by
  unfold Binary32.fl
  rw [round_bits_pos 24 _ 9 16384000 (by norm_num) (by norm_num) (by norm_num) (by norm_num)]
  norm_num

/-- The exact model skips the light of the far scene. -/
theorem exact_far_light_step (pow : ℝ → ℝ → ℝ) (dir N : vec3 ℝ) (m : Material ℝ) :
    light_step Real.sqrt pow far_spheres dir ⟨0, 0, -1048576⟩ N m (0, 0) ⟨0, 0, -1048574⟩ =
      (0, 0) := by
  have hn : norm Real.sqrt (subtract (⟨0, 0, -1048574⟩ : vec3 ℝ) ⟨0, 0, -1048576⟩) = 2 := by
    rw [norm_eq_iff _ _ (by norm_num)]
    norm_num [dot, subtract]
  have hd : normalized Real.sqrt (subtract (⟨0, 0, -1048574⟩ : vec3 ℝ) ⟨0, 0, -1048576⟩) =
      ⟨0, 0, 1⟩ := by
    unfold normalized
    rw [hn]
    norm_num [subtract, scale]
  apply light_step_occluded
  · intro h
    have hz := congrArg vec3.z h
    norm_num at hz
  · refine ⟨⟨⟨0, 0, -1048573.5⟩, 0.515625, matte⟩, by simp [far_spheres], 1.984375, ?_,
      by norm_num, ?_⟩
    · rw [hd]
      norm_num [ray_sphere_intersect, subtract, dot, sqrt_1089, sqrt_4096]
    · rw [hn]
      norm_num

/-- In binary32 the sum `.5f * x + 1000.f` at `x = -2^-15` is rounded to `1000`:
the floor point `(-2^-15, -4, -13)` gets `BOX_COLOR2`. -/
theorem b32_floor_strip :
    Binary32.scene_intersect Real.sqrt ⟨-(1 / 32768), 0, -13⟩ ⟨0, -1, 0⟩ [] =
      ⟨true, ⟨-(1 / 32768), -4, -13⟩, ⟨0, 1, 0⟩,
        { (init_Material : Material ℝ) with diffuse_color := Binary32.BOX_COLOR2 }⟩ := by
  have hcol : Binary32.floor_color (⟨-(1 / 32768), -4, -13⟩ : vec3 ℝ) = Binary32.BOX_COLOR2 := by
    have h1 : int_cast (1000 : ℝ) = 1000 := by
      unfold int_cast
      rw [if_pos (by norm_num)]
      exact_mod_cast Int.floor_intCast (1000 : Int)
    have h2 : int_cast (-(13 / 2) : ℝ) = -6 := by
      unfold int_cast
      rw [if_neg (by norm_num), Int.ceil_eq_iff]
      norm_num
    unfold Binary32.floor_color
    norm_num [fl_4, fl_neg_4, fl_neg_13, fl_neg_13_div_2, fl_neg_1_div_32768, fl_neg_1_div_65536, fl_65535999_div_65536, fl_1000, fl_4, h1, h2]
    intro h
    exact absurd (by rw [land_one]; decide) h
  have hp : Binary32.floor_point (⟨-(1 / 32768), 0, -13⟩ : vec3 ℝ) ⟨0, -1, 0⟩ =
      ⟨-(1 / 32768), -4, -13⟩ := by
    norm_num [Binary32.floor_point, Binary32.floor_dist, Binary32.add, Binary32.scale,
      fl_zero, fl_4, fl_neg_4, fl_neg_13, fl_neg_13_div_2, fl_neg_1_div_32768, fl_neg_1_div_65536, fl_65535999_div_65536, fl_1000, fl_4]
  have hd : Binary32.floor_dist (⟨-(1 / 32768), 0, -13⟩ : vec3 ℝ) ⟨0, -1, 0⟩ = 4 := by
    norm_num [Binary32.floor_dist, fl_zero, fl_4, fl_neg_4, fl_neg_13, fl_neg_13_div_2, fl_neg_1_div_32768, fl_neg_1_div_65536, fl_65535999_div_65536, fl_1000, fl_4]
  unfold Binary32.scene_intersect Binary32.scene_state Binary32.floor_step
  simp only [List.foldl_nil, hp, hd, hcol]
  norm_num [scene_init, fl_1_div_1000, abs_lt]

end Binary32Eval

/-! ## The claims -/

section Claims

variable {F : Type} [LinearOrderedField F] [FloorRing F]

/-- C1: for every origin, direction, sphere list and light list, `cast_ray`
called with any `depth > 10` (in particular `depth = DEPTH + 1 = 11`) returns
exactly `BACKGROUND_COLOR = (.1955, .9377, .6533)`, whatever the scene query
reports for the ray. -/
theorem cast_ray_beyond_depth (sqrt : F → F) (pow : F → F → F) (orig dir : vec3 F) (depth : Int)
    (spheres : List (Sphere F)) (lights : List (vec3 F)) (h : depth > 10) :
    cast_ray sqrt pow orig dir depth spheres lights = BACKGROUND_COLOR ∧
      (BACKGROUND_COLOR : vec3 F) = ⟨0.1955, 0.9377, 0.6533⟩ := by
  refine ⟨?_, rfl⟩
  rw [cast_ray]
  simp [DEPTH, h]

/-- C1 at `depth = DEPTH + 1 = 11`, on a ray that hits a sphere. -/
theorem cast_ray_beyond_depth_witness :
    DEPTH + 1 > 10 ∧
      cast_ray Real.sqrt (fun a b => a ^ b) ⟨0, 0, 0⟩ ⟨0, 0, -1⟩ (DEPTH + 1)
          [⟨⟨0, 0, -5⟩, 1, ivory⟩] [⟨-20, 20, 20⟩] = BACKGROUND_COLOR ∧
      (BACKGROUND_COLOR : vec3 ℝ) = ⟨0.1955, 0.9377, 0.6533⟩ :=
  ⟨by decide, cast_ray_beyond_depth _ _ _ _ _ _ _ (by decide)⟩

/-- C2: in exact real arithmetic, for every origin, every unit-length direction
and every sphere with radius `>= 0`: whenever `ray_sphere_intersect` reports a
hit with distance `d`, then `d > 0.001`, the point `orig + d*dir` lies on the
sphere surface, and no `t` with `0.001 < t < d` puts `orig + t*dir` on the
sphere; `d` is the first of `t0`, `t1` that exceeds the epsilon. -/
theorem ray_sphere_intersect_hit (orig dir : vec3 ℝ) (s : Sphere ℝ) (d : ℝ)
    (hdir : norm Real.sqrt dir = 1) (hr : 0 ≤ s.radius)
    (h : ray_sphere_intersect Real.sqrt orig dir s = (true, d)) :
    d > 0.001 ∧ on_sphere Real.sqrt orig dir s d ∧
      (∀ t : ℝ, 0.001 < t → t < d → ¬ on_sphere Real.sqrt orig dir s t) ∧
      ((sphere_t0 Real.sqrt orig dir s > 0.001 ∧ d = sphere_t0 Real.sqrt orig dir s) ∨
        (¬ sphere_t0 Real.sqrt orig dir s > 0.001 ∧ sphere_t1 Real.sqrt orig dir s > 0.001 ∧
          d = sphere_t1 Real.sqrt orig dir s)) := by
  have h1 : (ray_sphere_intersect Real.sqrt orig dir s).1 = true := by rw [h]
  have h2 : (ray_sphere_intersect Real.sqrt orig dir s).2 = d := by rw [h]
  have key := ray_sphere_hit_spec orig dir s hdir hr h1
  rw [h2] at key
  exact key

/-- C2 at the spec's test: origin `(0,0,0)`, direction `(0,0,-1)`, sphere centre
`(0,0,-5)` radius `1`, a hit with `d = 4`. -/
theorem ray_sphere_intersect_hit_witness :
    norm Real.sqrt (⟨0, 0, -1⟩ : vec3 ℝ) = 1 ∧ (0 : ℝ) ≤ (⟨⟨0, 0, -5⟩, 1, ivory⟩ : Sphere ℝ).radius ∧
      ray_sphere_intersect Real.sqrt ⟨0, 0, 0⟩ ⟨0, 0, -1⟩ ⟨⟨0, 0, -5⟩, 1, ivory⟩ = (true, 4) ∧
      ((4 : ℝ) > 0.001 ∧ on_sphere Real.sqrt ⟨0, 0, 0⟩ ⟨0, 0, -1⟩ ⟨⟨0, 0, -5⟩, 1, ivory⟩ 4 ∧
        (∀ t : ℝ, 0.001 < t → t < 4 →
          ¬ on_sphere Real.sqrt ⟨0, 0, 0⟩ ⟨0, 0, -1⟩ ⟨⟨0, 0, -5⟩, 1, ivory⟩ t) ∧
        ((sphere_t0 Real.sqrt ⟨0, 0, 0⟩ ⟨0, 0, -1⟩ ⟨⟨0, 0, -5⟩, 1, ivory⟩ > 0.001 ∧
            (4 : ℝ) = sphere_t0 Real.sqrt ⟨0, 0, 0⟩ ⟨0, 0, -1⟩ ⟨⟨0, 0, -5⟩, 1, ivory⟩) ∨
          (¬ sphere_t0 Real.sqrt ⟨0, 0, 0⟩ ⟨0, 0, -1⟩ ⟨⟨0, 0, -5⟩, 1, ivory⟩ > 0.001 ∧
            sphere_t1 Real.sqrt ⟨0, 0, 0⟩ ⟨0, 0, -1⟩ ⟨⟨0, 0, -5⟩, 1, ivory⟩ > 0.001 ∧
            (4 : ℝ) = sphere_t1 Real.sqrt ⟨0, 0, 0⟩ ⟨0, 0, -1⟩ ⟨⟨0, 0, -5⟩, 1, ivory⟩))) :=
  ⟨by norm_num [norm], by norm_num, eval_ray_sphere_hit ivory,
    ray_sphere_intersect_hit _ _ _ _ (by norm_num [norm]) (by norm_num)
      (eval_ray_sphere_hit ivory)⟩

/-- C3: in exact real arithmetic, for every origin, every unit-length direction
and every sphere with radius `>= 0`: `ray_sphere_intersect` reports a miss
(`intersection = false`, and then `d = 0`) if and only if there is no
`t > 0.001` such that `orig + t*dir` lies on the sphere surface. -/
theorem ray_sphere_intersect_miss (orig dir : vec3 ℝ) (s : Sphere ℝ)
    (hdir : norm Real.sqrt dir = 1) (hr : 0 ≤ s.radius) :
    ((ray_sphere_intersect Real.sqrt orig dir s).1 = false ↔
        ¬ ∃ t : ℝ, t > 0.001 ∧ on_sphere Real.sqrt orig dir s t) ∧
      ((ray_sphere_intersect Real.sqrt orig dir s).1 = false →
        (ray_sphere_intersect Real.sqrt orig dir s).2 = 0) := by
  refine ⟨⟨fun h => ?_, fun h => ?_⟩, fun h => (ray_sphere_miss_spec orig dir s hdir hr h).1⟩
  · rintro ⟨t, ht, hon⟩
    exact (ray_sphere_miss_spec orig dir s hdir hr h).2 t ht hon
  · by_contra hne
    have hit : (ray_sphere_intersect Real.sqrt orig dir s).1 = true := by
      simpa using hne
    have key := ray_sphere_hit_spec orig dir s hdir hr hit
    exact h ⟨_, key.1, key.2.1⟩

/-- C3 at the spec's test: origin `(0,0,0)`, direction `(0,0,-1)`, sphere centre
`(5,0,-5)` radius `1`, a miss with `d = 0`. -/
theorem ray_sphere_intersect_miss_witness :
    norm Real.sqrt (⟨0, 0, -1⟩ : vec3 ℝ) = 1 ∧ (0 : ℝ) ≤ (⟨⟨5, 0, -5⟩, 1, ivory⟩ : Sphere ℝ).radius ∧
      ray_sphere_intersect Real.sqrt ⟨0, 0, 0⟩ ⟨0, 0, -1⟩ ⟨⟨5, 0, -5⟩, 1, ivory⟩ = (false, 0) ∧
      (((ray_sphere_intersect Real.sqrt ⟨0, 0, 0⟩ ⟨0, 0, -1⟩ ⟨⟨5, 0, -5⟩, 1, ivory⟩).1 = false ↔
          ¬ ∃ t : ℝ, t > 0.001 ∧
            on_sphere Real.sqrt ⟨0, 0, 0⟩ ⟨0, 0, -1⟩ ⟨⟨5, 0, -5⟩, 1, ivory⟩ t) ∧
        ((ray_sphere_intersect Real.sqrt ⟨0, 0, 0⟩ ⟨0, 0, -1⟩ ⟨⟨5, 0, -5⟩, 1, ivory⟩).1 = false →
          (ray_sphere_intersect Real.sqrt ⟨0, 0, 0⟩ ⟨0, 0, -1⟩ ⟨⟨5, 0, -5⟩, 1, ivory⟩).2 = 0)) :=
  ⟨by norm_num [norm], by norm_num, eval_ray_sphere_miss ivory,
    ray_sphere_intersect_miss _ _ _ (by norm_num [norm]) (by norm_num)⟩

/-- C4: whenever `scene_intersect` reports `hit = true`, the reported point is
`orig + t*dir` where `t` is the minimum of the candidate distances: `t` is the
distance `ray_sphere_intersect` reports for a sphere of the list it says is hit,
or the floor-plane distance of a valid floor candidate; no sphere of the list
is reported hit at a smaller distance, and a valid floor candidate is not
nearer either. -/
theorem scene_intersect_nearest (sqrt : F → F) (orig dir : vec3 F) (spheres : List (Sphere F))
    (h : (scene_intersect sqrt orig dir spheres).hit = true) :
    ∃ t : F, (scene_intersect sqrt orig dir spheres).point = add orig (scale dir t) ∧
      ((∃ s ∈ spheres, ray_sphere_intersect sqrt orig dir s = (true, t)) ∨
        (floor_candidate orig dir ∧ t = floor_dist orig dir)) ∧
      (∀ s ∈ spheres, (ray_sphere_intersect sqrt orig dir s).1 = true →
        t ≤ (ray_sphere_intersect sqrt orig dir s).2) ∧
      (floor_candidate orig dir → t ≤ floor_dist orig dir) := by
  rw [scene_hit_iff] at h
  refine ⟨(scene_state sqrt orig dir spheres).nearest_dist, ?_, ?_,
    fun s hs hit => scene_state_le_sphere sqrt orig dir spheres s hs hit,
    fun hc => scene_state_le_floor sqrt orig dir spheres hc⟩
  · show (scene_state sqrt orig dir spheres).pt = _
    rcases scene_state_cases sqrt orig dir spheres with h0 | ⟨_, hf⟩ | ⟨s, _, _, hs⟩
    · rw [h0] at h
      norm_num [scene_init] at h
    · rw [hf]; rfl
    · rw [hs]
  · rcases scene_state_cases sqrt orig dir spheres with h0 | ⟨hc, hf⟩ | ⟨s, hmem, hit, hs⟩
    · rw [h0] at h
      norm_num [scene_init] at h
    · right
      exact ⟨hc, by rw [hf]⟩
    · left
      refine ⟨s, hmem, ?_⟩
      rw [hs]
      exact Prod.ext hit rfl

/-- C4 on a one-sphere scene where the query reports a hit. -/
theorem scene_intersect_nearest_witness :
    (scene_intersect Real.sqrt ⟨0, 0, 0⟩ ⟨0, 0, -1⟩ [⟨⟨0, 0, -5⟩, 1, ivory⟩]).hit = true ∧
    ∃ t : ℝ, (scene_intersect Real.sqrt ⟨0, 0, 0⟩ ⟨0, 0, -1⟩ [⟨⟨0, 0, -5⟩, 1, ivory⟩]).point =
        add ⟨0, 0, 0⟩ (scale ⟨0, 0, -1⟩ t) ∧
      ((∃ s ∈ [(⟨⟨0, 0, -5⟩, 1, ivory⟩ : Sphere ℝ)],
          ray_sphere_intersect Real.sqrt ⟨0, 0, 0⟩ ⟨0, 0, -1⟩ s = (true, t)) ∨
        (floor_candidate (⟨0, 0, 0⟩ : vec3 ℝ) ⟨0, 0, -1⟩ ∧
          t = floor_dist ⟨0, 0, 0⟩ ⟨0, 0, -1⟩)) ∧
      (∀ s ∈ [(⟨⟨0, 0, -5⟩, 1, ivory⟩ : Sphere ℝ)],
        (ray_sphere_intersect Real.sqrt ⟨0, 0, 0⟩ ⟨0, 0, -1⟩ s).1 = true →
        t ≤ (ray_sphere_intersect Real.sqrt ⟨0, 0, 0⟩ ⟨0, 0, -1⟩ s).2) ∧
      (floor_candidate (⟨0, 0, 0⟩ : vec3 ℝ) ⟨0, 0, -1⟩ → t ≤ floor_dist ⟨0, 0, 0⟩ ⟨0, 0, -1⟩) :=
  ⟨by rw [eval_scene_hit], scene_intersect_nearest _ _ _ _ (by rw [eval_scene_hit])⟩

/-- C5 as stated fails beyond the initial `nearest_dist`: two spheres (ivory,
then glass) are both hit at exactly the same distance `29999999999 > 1e10`, the
floor is no candidate, and `scene_intersect` reports neither sphere: no hit and
the default material, not the material of the sphere tested last. -/
theorem scene_intersect_tie_break_counterexample :
    ray_sphere_intersect Real.sqrt ⟨0, 0, 0⟩ ⟨0, 0, -1⟩ ⟨⟨0, 0, -30000000000⟩, 1, ivory⟩ =
        (true, 29999999999) ∧
      ray_sphere_intersect Real.sqrt ⟨0, 0, 0⟩ ⟨0, 0, -1⟩ ⟨⟨0, 0, -30000000000⟩, 1, glass⟩ =
        (true, 29999999999) ∧
      ¬ floor_candidate (⟨0, 0, 0⟩ : vec3 ℝ) ⟨0, 0, -1⟩ ∧
      (scene_intersect Real.sqrt ⟨0, 0, 0⟩ ⟨0, 0, -1⟩
        [⟨⟨0, 0, -30000000000⟩, 1, ivory⟩, ⟨⟨0, 0, -30000000000⟩, 1, glass⟩]).hit = false ∧
      (scene_intersect Real.sqrt ⟨0, 0, 0⟩ ⟨0, 0, -1⟩
        [⟨⟨0, 0, -30000000000⟩, 1, ivory⟩, ⟨⟨0, 0, -30000000000⟩, 1, glass⟩]).material =
          init_Material ∧
      (scene_intersect Real.sqrt ⟨0, 0, 0⟩ ⟨0, 0, -1⟩
        [⟨⟨0, 0, -30000000000⟩, 1, ivory⟩, ⟨⟨0, 0, -30000000000⟩, 1, glass⟩]).material ≠
          glass := by
  have hq : scene_intersect Real.sqrt ⟨0, 0, 0⟩ ⟨0, 0, -1⟩
      [⟨⟨0, 0, -30000000000⟩, 1, ivory⟩, ⟨⟨0, 0, -30000000000⟩, 1, glass⟩] =
      ⟨false, init_vec3, init_vec3, init_Material⟩ := by
    simp only [scene_intersect, scene_state, eval_floor_step_flat, List.foldl_cons,
      List.foldl_nil, sphere_step, eval_ray_sphere_remote]
    norm_num [scene_init]
  refine ⟨eval_ray_sphere_remote ivory, eval_ray_sphere_remote glass,
    eval_not_floor_candidate_flat _ _ _, by rw [hq], by rw [hq], ?_⟩
  rw [hq]
  intro h
  have hr := congrArg Material.refractive_index h
  norm_num [init_Material, glass] at hr

/-- C5 (amended): when the minimal candidate distance `t` does not exceed the
initial `nearest_dist = 1e10` (in particular whenever a hit is reported) and
several candidates attain it, `scene_intersect` reports the material and normal
of the one tested last: if the sphere at index `j` is hit at the minimal
distance `t` and no sphere of larger index is hit at `t`, the reported material
is that sphere's and the reported normal is the normalized vector from its
centre to `orig + t*dir`; a floor candidate at the same distance `t` loses to
the sphere. -/
theorem scene_intersect_tie_break (sqrt : F → F) (orig dir : vec3 F) (spheres : List (Sphere F))
    (j : Nat) (s : Sphere F) (t : F) (hj : spheres[j]? = some s)
    (hs : ray_sphere_intersect sqrt orig dir s = (true, t)) (ht : t ≤ 10000000000)
    (hmin : ∀ a ∈ spheres, (ray_sphere_intersect sqrt orig dir a).1 = true →
      t ≤ (ray_sphere_intersect sqrt orig dir a).2)
    (hlast : ∀ (k : Nat) (a : Sphere F), j < k → spheres[k]? = some a →
      ray_sphere_intersect sqrt orig dir a ≠ (true, t))
    (hfloor : floor_candidate orig dir → t ≤ floor_dist orig dir) :
    (scene_intersect sqrt orig dir spheres).material = s.material ∧
      (scene_intersect sqrt orig dir spheres).N =
        normalized sqrt (subtract (add orig (scale dir t)) s.center) ∧
      (scene_intersect sqrt orig dir spheres).point = add orig (scale dir t) := by
  have key := scene_state_index sqrt orig dir spheres j s t hj hs ht hmin hlast hfloor
  unfold scene_intersect
  simp only [key]
  exact ⟨trivial, trivial, trivial⟩

/-- C5 (amended) on two coincident spheres, ivory then glass, both hit at distance
`4`: the later one, glass, is reported. -/
theorem scene_intersect_tie_break_witness :
    [(⟨⟨0, 0, -5⟩, 1, ivory⟩ : Sphere ℝ), ⟨⟨0, 0, -5⟩, 1, glass⟩][1]? =
        some ⟨⟨0, 0, -5⟩, 1, glass⟩ ∧
      ray_sphere_intersect Real.sqrt ⟨0, 0, 0⟩ ⟨0, 0, -1⟩ ⟨⟨0, 0, -5⟩, 1, ivory⟩ = (true, 4) ∧
      ray_sphere_intersect Real.sqrt ⟨0, 0, 0⟩ ⟨0, 0, -1⟩ ⟨⟨0, 0, -5⟩, 1, glass⟩ = (true, 4) ∧
      (4 : ℝ) ≤ 10000000000 ∧
      (scene_intersect Real.sqrt ⟨0, 0, 0⟩ ⟨0, 0, -1⟩
        [⟨⟨0, 0, -5⟩, 1, ivory⟩, ⟨⟨0, 0, -5⟩, 1, glass⟩]).material = glass ∧
      (scene_intersect Real.sqrt ⟨0, 0, 0⟩ ⟨0, 0, -1⟩
        [⟨⟨0, 0, -5⟩, 1, ivory⟩, ⟨⟨0, 0, -5⟩, 1, glass⟩]).N =
          normalized Real.sqrt (subtract (add ⟨0, 0, 0⟩ (scale ⟨0, 0, -1⟩ 4)) ⟨0, 0, -5⟩) ∧
      (scene_intersect Real.sqrt ⟨0, 0, 0⟩ ⟨0, 0, -1⟩
        [⟨⟨0, 0, -5⟩, 1, ivory⟩, ⟨⟨0, 0, -5⟩, 1, glass⟩]).point =
          add ⟨0, 0, 0⟩ (scale ⟨0, 0, -1⟩ 4) := by
  refine ⟨rfl, eval_ray_sphere_hit ivory, eval_ray_sphere_hit glass, by norm_num, ?_⟩
  refine scene_intersect_tie_break Real.sqrt ⟨0, 0, 0⟩ ⟨0, 0, -1⟩
    [⟨⟨0, 0, -5⟩, 1, ivory⟩, ⟨⟨0, 0, -5⟩, 1, glass⟩] 1 ⟨⟨0, 0, -5⟩, 1, glass⟩ 4 rfl
    (eval_ray_sphere_hit glass) (by norm_num) ?_ ?_ ?_
  · intro a ha _
    simp only [List.mem_cons, List.mem_singleton, List.not_mem_nil, or_false] at ha
    rcases ha with rfl | rfl
    · rw [eval_ray_sphere_hit]
    · rw [eval_ray_sphere_hit]
  · intro k a hk hget
    have hlen := (List.getElem?_eq_some_iff.mp hget).1
    simp only [List.length_cons, List.length_nil] at hlen
    omega
  · intro hc
    exact absurd hc (eval_not_floor_candidate_flat _ _ _)

/-- C6: if `scene_intersect` reports `hit = true` then the reported material is
populated: it is the material of a sphere of the list that
`ray_sphere_intersect` reports as hit by the ray, or the floor material (the
default of `init_Material` with `diffuse_color` replaced by `BOX_COLOR1` or
`BOX_COLOR2`); so when no sphere of the scene carries the default material, the
reported material is not the unmodified default of `init_Material`. -/
theorem scene_intersect_material (sqrt : F → F) (orig dir : vec3 F) (spheres : List (Sphere F))
    (h : (scene_intersect sqrt orig dir spheres).hit = true) :
    ((∃ s ∈ spheres, (ray_sphere_intersect sqrt orig dir s).1 = true ∧
          (scene_intersect sqrt orig dir spheres).material = s.material) ∨
        (scene_intersect sqrt orig dir spheres).material = floor_material BOX_COLOR1 ∨
        (scene_intersect sqrt orig dir spheres).material = floor_material BOX_COLOR2) ∧
      ((∀ s ∈ spheres, s.material ≠ init_Material) →
        (scene_intersect sqrt orig dir spheres).material ≠ init_Material) := by
  rw [scene_hit_iff] at h
  have key : (∃ s ∈ spheres, (ray_sphere_intersect sqrt orig dir s).1 = true ∧
          (scene_intersect sqrt orig dir spheres).material = s.material) ∨
        (scene_intersect sqrt orig dir spheres).material = floor_material BOX_COLOR1 ∨
        (scene_intersect sqrt orig dir spheres).material = floor_material BOX_COLOR2 := by
    show (∃ s ∈ spheres, (ray_sphere_intersect sqrt orig dir s).1 = true ∧
          (scene_state sqrt orig dir spheres).mat = s.material) ∨
        (scene_state sqrt orig dir spheres).mat = floor_material BOX_COLOR1 ∨
        (scene_state sqrt orig dir spheres).mat = floor_material BOX_COLOR2
    rcases scene_state_cases sqrt orig dir spheres with h0 | ⟨_, hf⟩ | ⟨s, hmem, hit, hs⟩
    · rw [h0] at h
      norm_num [scene_init] at h
    · right
      rw [hf]
      rcases floor_color_cases (floor_point orig dir) with hc | hc
      · left; rw [hc]
      · right; rw [hc]
    · left
      exact ⟨s, hmem, hit, by rw [hs]⟩
  refine ⟨key, fun hne => ?_⟩
  rcases key with ⟨s, hmem, _, hs⟩ | hf | hf
  · rw [hs]; exact hne s hmem
  · rw [hf]; exact floor_material_ne_init _ (by norm_num [BOX_COLOR1])
  · rw [hf]; exact floor_material_ne_init _ (by norm_num [BOX_COLOR2])

/-- C6 on a one-sphere scene where the query reports a hit. -/
theorem scene_intersect_material_witness :
    (scene_intersect Real.sqrt ⟨0, 0, 0⟩ ⟨0, 0, -1⟩ [⟨⟨0, 0, -5⟩, 1, glass⟩]).hit = true ∧
    ((∃ s ∈ [(⟨⟨0, 0, -5⟩, 1, glass⟩ : Sphere ℝ)],
          (ray_sphere_intersect Real.sqrt ⟨0, 0, 0⟩ ⟨0, 0, -1⟩ s).1 = true ∧
          (scene_intersect Real.sqrt ⟨0, 0, 0⟩ ⟨0, 0, -1⟩ [⟨⟨0, 0, -5⟩, 1, glass⟩]).material =
            s.material) ∨
        (scene_intersect Real.sqrt ⟨0, 0, 0⟩ ⟨0, 0, -1⟩ [⟨⟨0, 0, -5⟩, 1, glass⟩]).material =
          floor_material BOX_COLOR1 ∨
        (scene_intersect Real.sqrt ⟨0, 0, 0⟩ ⟨0, 0, -1⟩ [⟨⟨0, 0, -5⟩, 1, glass⟩]).material =
          floor_material BOX_COLOR2) ∧
      ((∀ s ∈ [(⟨⟨0, 0, -5⟩, 1, glass⟩ : Sphere ℝ)], s.material ≠ init_Material) →
        (scene_intersect Real.sqrt ⟨0, 0, 0⟩ ⟨0, 0, -1⟩ [⟨⟨0, 0, -5⟩, 1, glass⟩]).material ≠
          init_Material) :=
  ⟨by rw [eval_scene_hit], scene_intersect_material _ _ _ _ (by rw [eval_scene_hit])⟩

/-- C7 as stated fails: two rays whose nearest hit is the floor, at `(0.5, -4, -12)`
and at `(2.5, -4, -13)`, both with `floor(0.5*x) + floor(0.5*z)` even (it is
`-6` at both), get different diffuse colours, `BOX_COLOR2` and `BOX_COLOR1`. -/
theorem floor_checkerboard_counterexample :
    scene_intersect Real.sqrt ⟨0.5, 0, -12⟩ ⟨0, -1, 0⟩ [] =
        ⟨true, ⟨0.5, -4, -12⟩, ⟨0, 1, 0⟩, floor_material BOX_COLOR2⟩ ∧
      scene_intersect Real.sqrt ⟨2.5, 0, -13⟩ ⟨0, -1, 0⟩ [] =
        ⟨true, ⟨2.5, -4, -13⟩, ⟨0, 1, 0⟩, floor_material BOX_COLOR1⟩ ∧
      Even (⌊(0.5 : ℝ) * 0.5⌋ + ⌊(0.5 : ℝ) * (-12)⌋) ∧
      Even (⌊(0.5 : ℝ) * 2.5⌋ + ⌊(0.5 : ℝ) * (-13)⌋) ∧
      (floor_material BOX_COLOR2 : Material ℝ).diffuse_color ≠
        (floor_material BOX_COLOR1 : Material ℝ).diffuse_color := by
  have ha := eval_scene_floor 0.5 (-12) (by norm_num [abs_lt]) (by norm_num) (by norm_num)
  have hb := eval_scene_floor 2.5 (-13) (by norm_num [abs_lt]) (by norm_num) (by norm_num)
  rw [eval_floor_color_a] at ha
  rw [eval_floor_color_b] at hb
  have h1 : ⌊(0.5 : ℝ) * 0.5⌋ = 0 := by
    rw [Int.floor_eq_iff]; norm_num
  have h2 : ⌊(0.5 : ℝ) * (-12)⌋ = -6 := by
    rw [Int.floor_eq_iff]; norm_num
  have h3 : ⌊(0.5 : ℝ) * 2.5⌋ = 1 := by
    rw [Int.floor_eq_iff]; norm_num
  have h4 : ⌊(0.5 : ℝ) * (-13)⌋ = -7 := by
    rw [Int.floor_eq_iff]; norm_num
  refine ⟨ha, hb, ?_, ?_, fun h => box_colors_ne h.symm⟩
  · rw [h1, h2]; decide
  · rw [h3, h4]; decide

/-- C7 (amended): in exact arithmetic (every linearly ordered field, in
particular the reals), for every ray whose nearest hit is the floor, at the
point `p = (x, -4, z)` inside the floor rectangle, the diffuse colour reported
by `scene_intersect` is determined by the parity of
`floor(0.5*x) + ceil(0.5*z)` (the C truncation of the negative `0.5*z` rounds
up): it is `BOX_COLOR1` where that sum is odd and `BOX_COLOR2` where it is even,
and the two colours differ.  So wherever `0.5*z` is not an integer the colour is
determined by the parity of `floor(0.5*x) + floor(0.5*z)`: `BOX_COLOR1` where
even, `BOX_COLOR2` where odd. -/
theorem floor_checkerboard (sqrt : F → F) (orig dir : vec3 F) (spheres : List (Sphere F))
    (hc : floor_candidate orig dir) (hd : floor_dist orig dir < 1000)
    (hs : ∀ s ∈ spheres, (ray_sphere_intersect sqrt orig dir s).1 = true →
      floor_dist orig dir < (ray_sphere_intersect sqrt orig dir s).2) :
    (scene_intersect sqrt orig dir spheres).hit = true ∧
      (scene_intersect sqrt orig dir spheres).point = floor_point orig dir ∧
      (floor_point orig dir).y = -4 ∧
      (Odd (⌊0.5 * (floor_point orig dir).x⌋ + ⌈0.5 * (floor_point orig dir).z⌉) →
        (scene_intersect sqrt orig dir spheres).material.diffuse_color = BOX_COLOR1) ∧
      (Even (⌊0.5 * (floor_point orig dir).x⌋ + ⌈0.5 * (floor_point orig dir).z⌉) →
        (scene_intersect sqrt orig dir spheres).material.diffuse_color = BOX_COLOR2) ∧
      (BOX_COLOR1 : vec3 F) ≠ BOX_COLOR2 ∧
      (0.5 * (floor_point orig dir).z ≠ (⌊0.5 * (floor_point orig dir).z⌋ : F) →
        (Even (⌊0.5 * (floor_point orig dir).x⌋ + ⌊0.5 * (floor_point orig dir).z⌋) →
          (scene_intersect sqrt orig dir spheres).material.diffuse_color = BOX_COLOR1) ∧
        (Odd (⌊0.5 * (floor_point orig dir).x⌋ + ⌊0.5 * (floor_point orig dir).z⌋) →
          (scene_intersect sqrt orig dir spheres).material.diffuse_color = BOX_COLOR2)) := by
  have hst := scene_state_floor sqrt orig dir spheres hc (by linarith) hs
  have hcol := floor_color_eq (floor_point orig dir) hc.2.2.1 hc.2.2.2.1
  have hy : dir.y ≠ 0 := by
    intro h0
    have := hc.1
    rw [h0] at this
    norm_num at this
  have hdc : (scene_intersect sqrt orig dir spheres).material.diffuse_color =
      floor_color (floor_point orig dir) := by
    show (scene_state sqrt orig dir spheres).mat.diffuse_color = _
    rw [hst]
    rfl
  refine ⟨?_, ?_, ?_, ?_, ?_, ?_, ?_⟩
  · rw [scene_hit_iff, hst]
    exact hd
  · show (scene_state sqrt orig dir spheres).pt = _
    rw [hst]
  · simp only [floor_point, floor_dist, add, scale]
    field_simp
  · intro hodd
    rw [hdc, hcol, if_pos (Int.odd_iff.mp hodd)]
  · intro heven
    rw [hdc, hcol, if_neg]
    rw [Int.even_iff] at heven
    omega
  · intro h
    have hy2 := congrArg vec3.y h
    norm_num [BOX_COLOR1, BOX_COLOR2] at hy2
  · intro hni
    have hceil : ⌈0.5 * (floor_point orig dir).z⌉ = ⌊0.5 * (floor_point orig dir).z⌋ + 1 := by
      rw [Int.ceil_eq_iff]
      push_cast
      refine ⟨?_, le_of_lt (Int.lt_floor_add_one _)⟩
      have hle := Int.floor_le (0.5 * (floor_point orig dir).z)
      rcases lt_or_eq_of_le hle with hlt | heq
      · linarith
      · exact absurd heq.symm hni
    rw [hdc, hcol, hceil]
    constructor
    · intro heven
      rw [Int.even_iff] at heven
      rw [if_pos]
      omega
    · intro hodd
      rw [Int.odd_iff] at hodd
      rw [if_neg]
      omega

/-- C7 (amended) at the floor point `(2.5, -4, -13)`, where
`floor(1.25) + ceil(-6.5) = -5` is odd. -/
theorem floor_checkerboard_witness :
    floor_candidate (⟨2.5, 0, -13⟩ : vec3 ℝ) ⟨0, -1, 0⟩ ∧
      floor_dist (⟨2.5, 0, -13⟩ : vec3 ℝ) ⟨0, -1, 0⟩ < 1000 ∧
      floor_point (⟨2.5, 0, -13⟩ : vec3 ℝ) ⟨0, -1, 0⟩ = ⟨2.5, -4, -13⟩ ∧
      Odd (⌊(0.5 : ℝ) * (floor_point (⟨2.5, 0, -13⟩ : vec3 ℝ) ⟨0, -1, 0⟩).x⌋ +
        ⌈(0.5 : ℝ) * (floor_point (⟨2.5, 0, -13⟩ : vec3 ℝ) ⟨0, -1, 0⟩).z⌉) ∧
      (scene_intersect Real.sqrt ⟨2.5, 0, -13⟩ ⟨0, -1, 0⟩ []).material.diffuse_color =
        BOX_COLOR1 := by
  obtain ⟨hc, hd, hp⟩ :=
    eval_floor_candidate_down 2.5 (-13) (by norm_num [abs_lt]) (by norm_num) (by norm_num)
  have hlt : floor_dist (⟨2.5, 0, -13⟩ : vec3 ℝ) ⟨0, -1, 0⟩ < 1000 := by
    rw [hd]; norm_num
  have hodd : Odd (⌊(0.5 : ℝ) * (floor_point (⟨2.5, 0, -13⟩ : vec3 ℝ) ⟨0, -1, 0⟩).x⌋ +
      ⌈(0.5 : ℝ) * (floor_point (⟨2.5, 0, -13⟩ : vec3 ℝ) ⟨0, -1, 0⟩).z⌉) := by
    rw [hp]
    have h1 : ⌊(0.5 : ℝ) * 2.5⌋ = 1 := by
      rw [Int.floor_eq_iff]; norm_num
    have h2 : ⌈(0.5 : ℝ) * (-13)⌉ = -6 := by
      rw [Int.ceil_eq_iff]; norm_num
    simp only [h1, h2]
    decide
  exact ⟨hc, hlt, hp, hodd,
    (floor_checkerboard Real.sqrt ⟨2.5, 0, -13⟩ ⟨0, -1, 0⟩ [] hc hlt
      (fun s hs => absurd hs (List.not_mem_nil s))).2.2.2.1 hodd⟩

/-- C8: in exact arithmetic (every linearly ordered field, in particular the
reals), for a scene with an empty sphere list `scene_intersect` reports
`hit = true` if and only if `|dir.y| > 0.001`, the plane distance
`d = -(orig.y + 4)/dir.y` satisfies `0.001 < d < 1000`, and the point
`p = orig + d*dir` satisfies `|p.x| < 10` and `-30 < p.z < -10`; in that case
the reported point is `p` with `p.y = -4` and the reported normal is `(0,1,0)`;
otherwise there is no hit and `cast_ray` returns `BACKGROUND_COLOR`. -/
theorem scene_intersect_no_spheres (sqrt : F → F) (pow : F → F → F) (orig dir : vec3 F) :
    ((scene_intersect sqrt orig dir []).hit = true ↔
        (|dir.y| > 0.001 ∧ 0.001 < floor_dist orig dir ∧ floor_dist orig dir < 1000 ∧
          |(floor_point orig dir).x| < 10 ∧ -30 < (floor_point orig dir).z ∧
          (floor_point orig dir).z < -10)) ∧
      ((scene_intersect sqrt orig dir []).hit = true →
        (scene_intersect sqrt orig dir []).point = floor_point orig dir ∧
          (floor_point orig dir).y = -4 ∧
          (scene_intersect sqrt orig dir []).N = ⟨0, 1, 0⟩) ∧
      ((scene_intersect sqrt orig dir []).hit = false →
        ∀ (depth : Int) (lights : List (vec3 F)),
          cast_ray sqrt pow orig dir depth [] lights = BACKGROUND_COLOR) := by
  have hst : scene_state sqrt orig dir [] = floor_step orig dir scene_init := rfl
  have hiff : (scene_intersect sqrt orig dir []).hit = true ↔
      (|dir.y| > 0.001 ∧ 0.001 < floor_dist orig dir ∧ floor_dist orig dir < 1000 ∧
        |(floor_point orig dir).x| < 10 ∧ -30 < (floor_point orig dir).z ∧
        (floor_point orig dir).z < -10) := by
    rw [scene_hit_iff, hst]
    rcases floor_step_init orig dir with ⟨h0, hge⟩ | ⟨hc, _, hf⟩
    · rw [h0]
      constructor
      · intro h
        norm_num [scene_init] at h
      · rintro ⟨h1, h2, h3, h4, h5, h6⟩
        have := hge ⟨h1, h2, h4, h6, h5⟩
        linarith
    · rw [hf]
      constructor
      · intro h
        exact ⟨hc.1, hc.2.1, h, hc.2.2.1, hc.2.2.2.2, hc.2.2.2.1⟩
      · intro h
        exact h.2.2.1
  refine ⟨hiff, fun h => ?_, fun h depth lights => ?_⟩
  · have hc := hiff.mp h
    have hy : dir.y ≠ 0 := by
      intro h0
      have := hc.1
      rw [h0] at this
      norm_num at this
    refine ⟨?_, ?_, ?_⟩
    · show (scene_state sqrt orig dir []).pt = _
      rw [hst]
      rcases floor_step_init orig dir with ⟨h0, hge⟩ | ⟨_, _, hf⟩
      · have := hge ⟨hc.1, hc.2.1, hc.2.2.2.1, hc.2.2.2.2.2, hc.2.2.2.2.1⟩
        linarith [hc.2.2.1]
      · rw [hf]
    · simp only [floor_point, floor_dist, add, scale]
      field_simp
    · show (scene_state sqrt orig dir []).Normal = _
      rw [hst]
      rcases floor_step_init orig dir with ⟨h0, hge⟩ | ⟨_, _, hf⟩
      · have := hge ⟨hc.1, hc.2.1, hc.2.2.2.1, hc.2.2.2.2.2, hc.2.2.2.2.1⟩
        linarith [hc.2.2.1]
      · rw [hf]
  · rw [cast_ray_eq, if_pos (Or.inr h)]

/-- C8 on a ray that meets the floor at `(0, -4, -20)` and on a ray parallel to the
floor, which gets the background colour. -/
theorem scene_intersect_no_spheres_witness :
    (scene_intersect Real.sqrt ⟨0, 0, -20⟩ ⟨0, -1, 0⟩ []).hit = true ∧
      (scene_intersect Real.sqrt ⟨0, 0, -20⟩ ⟨0, -1, 0⟩ []).point = ⟨0, -4, -20⟩ ∧
      (scene_intersect Real.sqrt ⟨0, 0, -20⟩ ⟨0, -1, 0⟩ []).N = ⟨0, 1, 0⟩ ∧
      (scene_intersect Real.sqrt ⟨0, 0, 0⟩ ⟨0, 0, -1⟩ []).hit = false ∧
      cast_ray Real.sqrt (fun a b => a ^ b) ⟨0, 0, 0⟩ ⟨0, 0, -1⟩ 0 [] [⟨-20, 20, 20⟩] =
        BACKGROUND_COLOR := by
  have hA := scene_intersect_no_spheres Real.sqrt (fun a b => a ^ b) ⟨0, 0, -20⟩ ⟨0, -1, 0⟩
  have hB := scene_intersect_no_spheres Real.sqrt (fun a b => a ^ b) ⟨0, 0, 0⟩ ⟨0, 0, -1⟩
  have h1 : (scene_intersect Real.sqrt ⟨0, 0, -20⟩ ⟨0, -1, 0⟩ []).hit = true :=
    hA.1.mpr (by norm_num [floor_dist, floor_point, add, scale, abs_lt])
  have h2 : (scene_intersect Real.sqrt ⟨0, 0, 0⟩ ⟨0, 0, -1⟩ []).hit = false := by
    have hn : ¬ (scene_intersect Real.sqrt ⟨0, 0, 0⟩ ⟨0, 0, -1⟩ []).hit = true := by
      rw [hB.1]
      norm_num
    simpa using hn
  have h3 := (hA.2.1 h1).1
  have h4 : floor_point (⟨0, 0, -20⟩ : vec3 ℝ) ⟨0, -1, 0⟩ = ⟨0, -4, -20⟩ := by
    norm_num [floor_point, floor_dist, add, scale]
  exact ⟨h1, h3.trans h4, (hA.2.1 h1).2.2, h2, hB.2.2 h2 0 _⟩

/-- C9 as stated fails on the binary32 arithmetic of the program.  In the scene
`far_spheres` the ray from `(0, 0, -1048575)` along `(0, 0, -1)` hits at
`pt = (0, 0, -1048576)`; the light `(0, 0, -1048574)` is at distance `2`, and
`ray_sphere_intersect` reports the occluder hit from `pt` towards the light at
`d = 1.984375 < 2`.  But the shadow point `pt + d*light_dir` is rounded to
`(0, 0, -1048574)`, so the test of `cast_ray` is `2 < 2`: the light is not
skipped and adds the diffuse intensity `1`.  The last part is the same light in
the exact model, where it is skipped. -/
theorem cast_ray_shadowed_counterexample :
    Binary32.scene_intersect Real.sqrt ⟨0, 0, -1048575⟩ ⟨0, 0, -1⟩ far_spheres =
        ⟨true, ⟨0, 0, -1048576⟩, ⟨0, 0, 1⟩, matte⟩ ∧
      (⟨0, 0, -1048574⟩ : vec3 ℝ) ≠ ⟨0, 0, -1048576⟩ ∧
      (∃ s ∈ (far_spheres : List (Sphere ℝ)), ∃ d : ℝ,
        Binary32.ray_sphere_intersect Real.sqrt ⟨0, 0, -1048576⟩
            (Binary32.normalized Real.sqrt
              (Binary32.subtract ⟨0, 0, -1048574⟩ ⟨0, 0, -1048576⟩)) s = (true, d) ∧
          d < 1000 ∧
          d < Binary32.norm Real.sqrt
            (Binary32.subtract (⟨0, 0, -1048574⟩ : vec3 ℝ) ⟨0, 0, -1048576⟩)) ∧
      (Binary32.light_step Real.sqrt (fun a b => a ^ b) far_spheres ⟨0, 0, -1⟩
        ⟨0, 0, -1048576⟩ ⟨0, 0, 1⟩ matte (0, 0) ⟨0, 0, -1048574⟩).1 = 1 ∧
      light_step Real.sqrt (fun a b => a ^ b) far_spheres ⟨0, 0, -1⟩
        ⟨0, 0, -1048576⟩ ⟨0, 0, 1⟩ matte (0, 0) ⟨0, 0, -1048574⟩ = (0, 0) := by
  refine ⟨b32_primary_scene matte matte, ?_, ?_, b32_light_step _ matte matte matte _,
    exact_far_light_step _ _ _ _⟩
  · intro h
    have hz := congrArg vec3.z h
    norm_num at hz
  · refine ⟨⟨⟨0, 0, -1048573.5⟩, 0.515625, matte⟩, by simp [far_spheres], 1.984375, ?_,
      by norm_num, ?_⟩
    · rw [b32_light_dir]
      exact b32_shadow_occluder matte
    · rw [b32_light_norm]
      norm_num

/-- C9 (amended): in exact real arithmetic, for every scene with exactly one
light, every `depth <= 10` and every ray whose scene query hits at point `pt`
(normal `N`, material `m`) with the light not at `pt`: if some sphere of the
scene is reported by `ray_sphere_intersect` as hit by the ray from `pt` in the
normalized direction to the light at a distance `d` with `d < 1000` and `d`
strictly less than the distance from `pt` to the light, then that light
contributes zero diffuse and zero specular intensity, so `cast_ray` returns
exactly `albedo[2] * reflect_color + albedo[3] * refract_color`, the two
recursive results at `depth + 1`. -/
theorem cast_ray_shadowed (pow : ℝ → ℝ → ℝ) (orig dir : vec3 ℝ) (depth : Int)
    (spheres : List (Sphere ℝ)) (light pt N : vec3 ℝ) (m : Material ℝ) (hd : depth ≤ 10)
    (hq : scene_intersect Real.sqrt orig dir spheres = ⟨true, pt, N, m⟩) (hne : light ≠ pt)
    (hocc : ∃ s ∈ spheres, ∃ d : ℝ,
      ray_sphere_intersect Real.sqrt pt (normalized Real.sqrt (subtract light pt)) s = (true, d) ∧
      d < 1000 ∧ d < norm Real.sqrt (subtract light pt)) :
    [light].foldl (light_step Real.sqrt pow spheres dir pt N m) (0, 0) = (0, 0) ∧
      cast_ray Real.sqrt pow orig dir depth spheres [light] =
        add
          (scale
            (cast_ray Real.sqrt pow pt (normalized Real.sqrt (reflect dir N)) (depth + 1)
              spheres [light])
            (m.albedo 2))
          (scale
            (cast_ray Real.sqrt pow pt
              (normalized Real.sqrt (refract Real.sqrt dir N m.refractive_index 1)) (depth + 1)
              spheres [light])
            (m.albedo 3)) := by
  have hl : [light].foldl (light_step Real.sqrt pow spheres dir pt N m) (0, 0) = (0, 0) := by
    rw [List.foldl_cons, List.foldl_nil]
    exact light_step_occluded pow spheres dir pt N m (0, 0) light hne hocc
  refine ⟨hl, ?_⟩
  rw [cast_ray_eq, hq]
  have hg : ¬ (depth > DEPTH ∨ true = false) := by
    simp only [DEPTH, gt_iff_lt, not_lt.mpr hd, false_or]
    exact Bool.noConfusion
  rw [if_neg hg]
  simp only
  rw [hl]
  exact composite_unlit _ _ _

/-- C9 (amended) on a scene where the sphere at `(0,0,3)` stands between the hit point
`(0,0,-4)` and the light `(0,0,10)`. -/
theorem cast_ray_shadowed_witness :
    (0 : Int) ≤ 10 ∧
      scene_intersect Real.sqrt ⟨0, 0, 0⟩ ⟨0, 0, -1⟩
          [⟨⟨0, 0, -5⟩, 1, ivory⟩, ⟨⟨0, 0, 3⟩, 1, glass⟩] =
        ⟨true, ⟨0, 0, -4⟩, ⟨0, 0, 1⟩, ivory⟩ ∧
      (⟨0, 0, 10⟩ : vec3 ℝ) ≠ ⟨0, 0, -4⟩ ∧
      (∃ s ∈ [(⟨⟨0, 0, -5⟩, 1, ivory⟩ : Sphere ℝ), ⟨⟨0, 0, 3⟩, 1, glass⟩], ∃ d : ℝ,
        ray_sphere_intersect Real.sqrt ⟨0, 0, -4⟩
            (normalized Real.sqrt (subtract ⟨0, 0, 10⟩ ⟨0, 0, -4⟩)) s = (true, d) ∧
          d < 1000 ∧ d < norm Real.sqrt (subtract (⟨0, 0, 10⟩ : vec3 ℝ) ⟨0, 0, -4⟩)) ∧
      [(⟨0, 0, 10⟩ : vec3 ℝ)].foldl
          (light_step Real.sqrt (fun a b => a ^ b)
            [⟨⟨0, 0, -5⟩, 1, ivory⟩, ⟨⟨0, 0, 3⟩, 1, glass⟩] ⟨0, 0, -1⟩ ⟨0, 0, -4⟩ ⟨0, 0, 1⟩ ivory)
          (0, 0) = (0, 0) ∧
      cast_ray Real.sqrt (fun a b => a ^ b) ⟨0, 0, 0⟩ ⟨0, 0, -1⟩ 0
          [⟨⟨0, 0, -5⟩, 1, ivory⟩, ⟨⟨0, 0, 3⟩, 1, glass⟩] [⟨0, 0, 10⟩] =
        add
          (scale
            (cast_ray Real.sqrt (fun a b => a ^ b) ⟨0, 0, -4⟩
              (normalized Real.sqrt (reflect ⟨0, 0, -1⟩ ⟨0, 0, 1⟩)) (0 + 1)
              [⟨⟨0, 0, -5⟩, 1, ivory⟩, ⟨⟨0, 0, 3⟩, 1, glass⟩] [⟨0, 0, 10⟩])
            ((ivory : Material ℝ).albedo 2))
          (scale
            (cast_ray Real.sqrt (fun a b => a ^ b) ⟨0, 0, -4⟩
              (normalized Real.sqrt
                (refract Real.sqrt ⟨0, 0, -1⟩ ⟨0, 0, 1⟩ (ivory : Material ℝ).refractive_index 1))
              (0 + 1) [⟨⟨0, 0, -5⟩, 1, ivory⟩, ⟨⟨0, 0, 3⟩, 1, glass⟩] [⟨0, 0, 10⟩])
            ((ivory : Material ℝ).albedo 3)) := by
  have hne : (⟨0, 0, 10⟩ : vec3 ℝ) ≠ ⟨0, 0, -4⟩ := by
    intro h
    have hz := congrArg vec3.z h
    norm_num at hz
  have hocc : ∃ s ∈ [(⟨⟨0, 0, -5⟩, 1, ivory⟩ : Sphere ℝ), ⟨⟨0, 0, 3⟩, 1, glass⟩], ∃ d : ℝ,
      ray_sphere_intersect Real.sqrt ⟨0, 0, -4⟩
          (normalized Real.sqrt (subtract ⟨0, 0, 10⟩ ⟨0, 0, -4⟩)) s = (true, d) ∧
        d < 1000 ∧ d < norm Real.sqrt (subtract (⟨0, 0, 10⟩ : vec3 ℝ) ⟨0, 0, -4⟩) := by
    refine ⟨⟨⟨0, 0, 3⟩, 1, glass⟩, by simp, 6, ?_, by norm_num, ?_⟩
    · rw [eval_light_dir]
      exact eval_ray_sphere_occluder glass
    · rw [eval_norm_to_light]
      norm_num
  exact ⟨by decide, eval_scene_two ivory glass, hne, hocc,
    cast_ray_shadowed (fun a b => a ^ b) ⟨0, 0, 0⟩ ⟨0, 0, -1⟩ 0 _ ⟨0, 0, 10⟩ ⟨0, 0, -4⟩ ⟨0, 0, 1⟩
      ivory (by decide) (eval_scene_two ivory glass) hne hocc⟩

/-- C10: for every scene with an empty light list, every `depth <= 10` and every
ray whose scene query reports a hit at point `pt` with normal `N` and material
`m`, the diffuse and specular intensities are zero and `cast_ray` returns exactly
`m.albedo[2] * cast_ray(pt, normalized(reflect(dir, N)), depth + 1) +
m.albedo[3] * cast_ray(pt, normalized(refract(dir, N, m.refractive_index, 1)), depth + 1)`,
unclamped. -/
theorem cast_ray_no_lights (sqrt : F → F) (pow : F → F → F) (orig dir : vec3 F) (depth : Int)
    (spheres : List (Sphere F)) (pt N : vec3 F) (m : Material F) (hd : depth ≤ 10)
    (hq : scene_intersect sqrt orig dir spheres = ⟨true, pt, N, m⟩) :
    ([] : List (vec3 F)).foldl (light_step sqrt pow spheres dir pt N m) (0, 0) = (0, 0) ∧
      cast_ray sqrt pow orig dir depth spheres [] =
        add
          (scale
            (cast_ray sqrt pow pt (normalized sqrt (reflect dir N)) (depth + 1) spheres [])
            (m.albedo 2))
          (scale
            (cast_ray sqrt pow pt (normalized sqrt (refract sqrt dir N m.refractive_index 1))
              (depth + 1) spheres [])
            (m.albedo 3)) := by
  refine ⟨rfl, ?_⟩
  rw [cast_ray_eq, hq]
  have hg : ¬ (depth > DEPTH ∨ true = false) := by
    simp only [DEPTH, gt_iff_lt, not_lt.mpr hd, false_or]
    exact Bool.noConfusion
  rw [if_neg hg, List.foldl_nil]
  exact composite_unlit _ _ _

/-- C10 on a one-sphere scene with no lights, at depth `0`. -/
theorem cast_ray_no_lights_witness :
    (0 : Int) ≤ 10 ∧
      scene_intersect Real.sqrt ⟨0, 0, 0⟩ ⟨0, 0, -1⟩ [⟨⟨0, 0, -5⟩, 1, glass⟩] =
        ⟨true, ⟨0, 0, -4⟩, ⟨0, 0, 1⟩, glass⟩ ∧
      cast_ray Real.sqrt (fun a b => a ^ b) ⟨0, 0, 0⟩ ⟨0, 0, -1⟩ 0 [⟨⟨0, 0, -5⟩, 1, glass⟩] [] =
        add
          (scale
            (cast_ray Real.sqrt (fun a b => a ^ b) ⟨0, 0, -4⟩
              (normalized Real.sqrt (reflect ⟨0, 0, -1⟩ ⟨0, 0, 1⟩)) (0 + 1)
              [⟨⟨0, 0, -5⟩, 1, glass⟩] [])
            ((glass : Material ℝ).albedo 2))
          (scale
            (cast_ray Real.sqrt (fun a b => a ^ b) ⟨0, 0, -4⟩
              (normalized Real.sqrt
                (refract Real.sqrt ⟨0, 0, -1⟩ ⟨0, 0, 1⟩ (glass : Material ℝ).refractive_index 1))
              (0 + 1) [⟨⟨0, 0, -5⟩, 1, glass⟩] [])
            ((glass : Material ℝ).albedo 3)) :=
  ⟨by decide, eval_scene_hit glass,
    (cast_ray_no_lights Real.sqrt (fun a b => a ^ b) ⟨0, 0, 0⟩ ⟨0, 0, -1⟩ 0
      [⟨⟨0, 0, -5⟩, 1, glass⟩] ⟨0, 0, -4⟩ ⟨0, 0, 1⟩ glass (by decide) (eval_scene_hit glass)).2⟩

end Claims

/-! ## The claims about reflection and refraction -/

section RefractionClaims

variable {F : Type} [LinearOrderedField F]

/-- C11: in exact arithmetic (every linearly ordered field and every `sqrt`, in
particular the reals), for all `I` and `N` with `dot(I, N) <= 0` and all
non-zero `eta_t`, with `cosi = -clamp(dot(I, N), -1, 1)`, `eta = eta_i/eta_t`
and `k = 1 - eta^2 * (1 - cosi^2)`: `refract(I, N, eta_t, eta_i)` returns the
sentinel `(1, 0, 0)` when `k < 0` and otherwise returns
`eta*I + (eta*cosi - sqrt(k))*N`. -/
theorem refract_front_face (sqrt : F → F) (I N : vec3 F) (eta_t eta_i : F)
    (hdot : dot I N ≤ 0) (_heta : eta_t ≠ 0) :
    cosi I N = -(max (-1) (min 1 (dot I N))) ∧
      (1 - eta_i / eta_t * (eta_i / eta_t) * (1 - cosi I N * cosi I N) < 0 →
        refract sqrt I N eta_t eta_i = ⟨1, 0, 0⟩) ∧
      (¬ 1 - eta_i / eta_t * (eta_i / eta_t) * (1 - cosi I N * cosi I N) < 0 →
        refract sqrt I N eta_t eta_i =
          add (scale I (eta_i / eta_t))
            (scale N (eta_i / eta_t * cosi I N -
              sqrt (1 - eta_i / eta_t * (eta_i / eta_t) * (1 - cosi I N * cosi I N))))) := by
  have hfront := refract_front sqrt I N eta_t eta_i
    (not_lt.mpr (cosi_nonneg_of_dot_nonpos I N hdot))
  refine ⟨cosi_eq_clamp I N, fun hk => ?_, fun hk => ?_⟩
  · rw [hfront]
    unfold snell
    simp only
    rw [if_pos hk]
  · rw [hfront]
    unfold snell
    simp only
    rw [if_neg hk]

/-- C11 at a ray entering glass head-on (`k = 1`, the direction is kept) and at a
grazing ray leaving glass (`k = -0.44`, the sentinel). -/
theorem refract_front_face_witness :
    dot (⟨0, 0, -1⟩ : vec3 ℝ) ⟨0, 0, 1⟩ ≤ 0 ∧ (1.5 : ℝ) ≠ 0 ∧
      refract Real.sqrt ⟨0, 0, -1⟩ ⟨0, 0, 1⟩ 1.5 1 = ⟨0, 0, -1⟩ ∧
      dot (⟨0.8, 0, -0.6⟩ : vec3 ℝ) ⟨0, 0, 1⟩ ≤ 0 ∧ (1 : ℝ) ≠ 0 ∧
      refract Real.sqrt ⟨0.8, 0, -0.6⟩ ⟨0, 0, 1⟩ 1 1.5 = ⟨1, 0, 0⟩ := by
  have hd1 : dot (⟨0, 0, -1⟩ : vec3 ℝ) ⟨0, 0, 1⟩ ≤ 0 := by norm_num [dot]
  have hd2 : dot (⟨0.8, 0, -0.6⟩ : vec3 ℝ) ⟨0, 0, 1⟩ ≤ 0 := by norm_num [dot]
  have hc1 : cosi (⟨0, 0, -1⟩ : vec3 ℝ) ⟨0, 0, 1⟩ = 1 := by
    norm_num [cosi, MAX, MIN, dot]
  have hc2 : cosi (⟨0.8, 0, -0.6⟩ : vec3 ℝ) ⟨0, 0, 1⟩ = 0.6 := by
    norm_num [cosi, MAX, MIN, dot]
  have h1 := (refract_front_face Real.sqrt ⟨0, 0, -1⟩ ⟨0, 0, 1⟩ 1.5 1 hd1 (by norm_num)).2.2
  have h2 := (refract_front_face Real.sqrt ⟨0.8, 0, -0.6⟩ ⟨0, 0, 1⟩ 1 1.5 hd2 (by norm_num)).2.1
  rw [hc1] at h1
  rw [hc2] at h2
  refine ⟨hd1, by norm_num, ?_, hd2, by norm_num, h2 (by norm_num)⟩
  rw [h1 (by norm_num)]
  norm_num [add, scale]

/-- C12: in exact real arithmetic, for every vector `I` and every unit-length
normal `N`, `reflect(reflect(I, N), N) = I`. -/
theorem reflect_involutive (I N : vec3 ℝ) (hN : norm Real.sqrt N = 1) :
    reflect (reflect I N) N = I := by
  have hN2 := norm_unit_dot N hN
  cases I with
  | mk a b c =>
    cases N with
    | mk p q r =>
      simp only [dot] at hN2
      simp only [reflect, subtract, scale, dot, vec3.mk.injEq]
      refine ⟨?_, ?_, ?_⟩
      · linear_combination (4 * p * (a * p + b * q + c * r)) * hN2
      · linear_combination (4 * q * (a * p + b * q + c * r)) * hN2
      · linear_combination (4 * r * (a * p + b * q + c * r)) * hN2

/-- C12 at `I = (1, 2, 3)` and the unit normal `(0, 0, 1)`. -/
theorem reflect_involutive_witness :
    norm Real.sqrt (⟨0, 0, 1⟩ : vec3 ℝ) = 1 ∧
      reflect (reflect (⟨1, 2, 3⟩ : vec3 ℝ) ⟨0, 0, 1⟩) ⟨0, 0, 1⟩ = ⟨1, 2, 3⟩ :=
  ⟨by norm_num [norm], reflect_involutive _ _ (by norm_num [norm])⟩

/-- C13: in exact real arithmetic, for every non-zero vector `v`,
`norm(normalized(v)) = 1`. -/
theorem norm_normalized (v : vec3 ℝ) (hv : v ≠ ⟨0, 0, 0⟩) :
    norm Real.sqrt (normalized Real.sqrt v) = 1 :=
  norm_normalized_eq_one v hv

/-- C13 at `v = (3, 0, 4)`. -/
theorem norm_normalized_witness :
    (⟨3, 0, 4⟩ : vec3 ℝ) ≠ ⟨0, 0, 0⟩ ∧
      norm Real.sqrt (normalized Real.sqrt (⟨3, 0, 4⟩ : vec3 ℝ)) = 1 := by
  have hv : (⟨3, 0, 4⟩ : vec3 ℝ) ≠ ⟨0, 0, 0⟩ := by
    intro h
    have hx := congrArg vec3.x h
    norm_num at hx
  exact ⟨hv, norm_normalized _ hv⟩

/-- C16: for all inputs `I`, `N`, `eta_t`, `eta_i`, `refract` makes at most one
recursive call: when `dot(I, N) > 0` the call with the flipped normal `-N` and
swapped indices computes a non-negative `cosi` and returns without recursing
again, so `refract(I, N, eta_t, eta_i)` equals the non-recursive Snell formula
(or the sentinel) evaluated on `(I, -N, eta_i, eta_t)`; when `dot(I, N) <= 0`
there is no recursive call. -/
theorem refract_recursion (sqrt : F → F) (I N : vec3 F) (eta_t eta_i : F) :
    refract_calls I N ≤ 1 ∧
      (dot I N > 0 →
        refract_calls I N = 1 ∧ 0 ≤ cosi I (addinv N) ∧ refract_calls I (addinv N) = 0 ∧
          refract sqrt I N eta_t eta_i = snell sqrt I (addinv N) eta_i eta_t) ∧
      (¬ dot I N > 0 →
        refract_calls I N = 0 ∧ refract sqrt I N eta_t eta_i = snell sqrt I N eta_t eta_i) := by
  refine ⟨?_, fun h => ?_, fun h => ?_⟩
  · by_cases hc : cosi I N < 0
    · rw [refract_calls_back I N hc]
    · rw [refract_calls_front I N hc]
      exact Nat.zero_le 1
  · have hc := cosi_neg_of_dot_pos I N h
    have hflip : 0 ≤ cosi I (addinv N) := by
      rw [cosi_addinv]
      linarith
    exact ⟨refract_calls_back I N hc, hflip, refract_calls_front I (addinv N) (not_lt.mpr hflip),
      refract_back sqrt I N eta_t eta_i hc⟩
  · have hc : ¬ cosi I N < 0 := not_lt.mpr (cosi_nonneg_of_dot_nonpos I N (not_lt.mp h))
    exact ⟨refract_calls_front I N hc, refract_front sqrt I N eta_t eta_i hc⟩

/-- C16 at a back-face hit: a ray along `(0, 0, -1)` leaving through the normal
`(0, 0, -1)`. -/
theorem refract_recursion_witness :
    dot (⟨0, 0, -1⟩ : vec3 ℝ) ⟨0, 0, -1⟩ > 0 ∧
      refract_calls (⟨0, 0, -1⟩ : vec3 ℝ) ⟨0, 0, -1⟩ = 1 ∧
      refract Real.sqrt ⟨0, 0, -1⟩ ⟨0, 0, -1⟩ 1.5 1 =
        snell Real.sqrt ⟨0, 0, -1⟩ (addinv ⟨0, 0, -1⟩) 1 1.5 := by
  have hd : dot (⟨0, 0, -1⟩ : vec3 ℝ) ⟨0, 0, -1⟩ > 0 := by norm_num [dot]
  have h := (refract_recursion Real.sqrt ⟨0, 0, -1⟩ ⟨0, 0, -1⟩ 1.5 1).2.1 hd
  exact ⟨hd, h.1, h.2.2.2⟩

/-- C17: in exact real arithmetic, for all unit-length `I` and `N` and all
non-zero refractive indices, `refract(I, N, eta_t, eta_i)` returns a unit-length
vector: the Snell branch `eta*I + (eta*cosi - sqrt(k))*N` has norm exactly 1
whenever `k >= 0`, and the total-internal-reflection sentinel `(1,0,0)` is unit
too, so the normalisation `cast_ray` applies to the refraction direction leaves
it unchanged. -/
theorem refract_unit (I N : vec3 ℝ) (eta_t eta_i : ℝ) (hI : norm Real.sqrt I = 1)
    (hN : norm Real.sqrt N = 1) (_ht : eta_t ≠ 0) (_hi : eta_i ≠ 0) :
    norm Real.sqrt (refract Real.sqrt I N eta_t eta_i) = 1 ∧
      (0 ≤ 1 - eta_i / eta_t * (eta_i / eta_t) * (1 - cosi I N * cosi I N) →
        norm Real.sqrt (add (scale I (eta_i / eta_t))
          (scale N (eta_i / eta_t * cosi I N -
            Real.sqrt (1 - eta_i / eta_t * (eta_i / eta_t) * (1 - cosi I N * cosi I N))))) = 1) ∧
      norm Real.sqrt (⟨1, 0, 0⟩ : vec3 ℝ) = 1 ∧
      normalized Real.sqrt (refract Real.sqrt I N eta_t eta_i) =
        refract Real.sqrt I N eta_t eta_i := by
  have hu := norm_refract I N eta_t eta_i hI hN
  exact ⟨hu, fun hk => norm_snell_direction I N (eta_i / eta_t) hI hN hk, norm_sentinel,
    normalized_of_unit _ hu⟩

/-- C17 at a unit ray hitting the unit normal `(0, 0, 1)` of a glass surface. -/
theorem refract_unit_witness :
    norm Real.sqrt (⟨0.8, 0, -0.6⟩ : vec3 ℝ) = 1 ∧ norm Real.sqrt (⟨0, 0, 1⟩ : vec3 ℝ) = 1 ∧
      (1.5 : ℝ) ≠ 0 ∧ (1 : ℝ) ≠ 0 ∧
      norm Real.sqrt (refract Real.sqrt ⟨0.8, 0, -0.6⟩ ⟨0, 0, 1⟩ 1.5 1) = 1 ∧
      normalized Real.sqrt (refract Real.sqrt ⟨0.8, 0, -0.6⟩ ⟨0, 0, 1⟩ 1.5 1) =
        refract Real.sqrt ⟨0.8, 0, -0.6⟩ ⟨0, 0, 1⟩ 1.5 1 := by
  have hI : norm Real.sqrt (⟨0.8, 0, -0.6⟩ : vec3 ℝ) = 1 := by
    rw [norm_eq_iff _ _ zero_le_one]
    norm_num [dot]
  have hN : norm Real.sqrt (⟨0, 0, 1⟩ : vec3 ℝ) = 1 := by norm_num [norm]
  have h := refract_unit ⟨0.8, 0, -0.6⟩ ⟨0, 0, 1⟩ 1.5 1 hI hN (by norm_num) (by norm_num)
  exact ⟨hI, hN, by norm_num, by norm_num, h.1, h.2.2.2⟩

/-- C18: in exact real arithmetic, for all vectors `I` and `N` and every non-zero
index `n`, `refract(I, N, n, n) = I`: with equal refractive indices on both
sides (as for the ivory, rubber and mirror materials, index 1 against ambient
1) the refracted direction is the incident direction, on front-face and
back-face hits alike. -/
theorem refract_equal_indices (I N : vec3 ℝ) (n : ℝ) (hn : n ≠ 0) :
    refract Real.sqrt I N n n = I ∧
      refract Real.sqrt I N (ivory : Material ℝ).refractive_index 1 = I ∧
      refract Real.sqrt I N (rubber : Material ℝ).refractive_index 1 = I ∧
      refract Real.sqrt I N (mirror : Material ℝ).refractive_index 1 = I :=
  ⟨refract_same_index I N n hn, refract_same_index I N 1 one_ne_zero,
    refract_same_index I N 1 one_ne_zero, refract_same_index I N 1 one_ne_zero⟩

/-- C18 at a front-face and at a back-face hit with index `1.5` on both sides. -/
theorem refract_equal_indices_witness :
    (1.5 : ℝ) ≠ 0 ∧
      refract Real.sqrt ⟨0.8, 0, -0.6⟩ ⟨0, 0, 1⟩ 1.5 1.5 = ⟨0.8, 0, -0.6⟩ ∧
      refract Real.sqrt ⟨0.8, 0, -0.6⟩ ⟨0, 0, -1⟩ 1.5 1.5 = ⟨0.8, 0, -0.6⟩ :=
  ⟨by norm_num, (refract_equal_indices _ _ _ (by norm_num)).1,
    (refract_equal_indices _ _ _ (by norm_num)).1⟩

/-- C20: in exact real arithmetic, for all unit-length `I` and `N` with
`dot(I, N) <= 0` and all indices with `0 < eta_i <= eta_t`, `refract` never takes
the total-internal-reflection branch: `k = 1 - (eta_i/eta_t)^2 * (1 - cosi^2) >= 0`
and the Snell direction is returned. -/
theorem refract_no_total_reflection (I N : vec3 ℝ) (eta_t eta_i : ℝ)
    (_hI : norm Real.sqrt I = 1) (_hN : norm Real.sqrt N = 1) (hdot : dot I N ≤ 0)
    (hpos : 0 < eta_i) (hle : eta_i ≤ eta_t) :
    0 ≤ 1 - eta_i / eta_t * (eta_i / eta_t) * (1 - cosi I N * cosi I N) ∧
      1 - (eta_i / eta_t) ^ 2 * (1 - cosi I N ^ 2) =
        1 - eta_i / eta_t * (eta_i / eta_t) * (1 - cosi I N * cosi I N) ∧
      refract Real.sqrt I N eta_t eta_i =
        add (scale I (eta_i / eta_t))
          (scale N (eta_i / eta_t * cosi I N -
            Real.sqrt (1 - eta_i / eta_t * (eta_i / eta_t) * (1 - cosi I N * cosi I N)))) := by
  have hk := snell_k_nonneg I N eta_t eta_i hpos hle
  refine ⟨hk, by ring, ?_⟩
  rw [refract_front Real.sqrt I N eta_t eta_i (not_lt.mpr (cosi_nonneg_of_dot_nonpos I N hdot))]
  unfold snell
  simp only
  rw [if_neg (not_lt.mpr hk)]

/-- C20 at a unit ray entering glass (`eta_i = 1`, `eta_t = 1.5`). -/
theorem refract_no_total_reflection_witness :
    norm Real.sqrt (⟨0.8, 0, -0.6⟩ : vec3 ℝ) = 1 ∧ norm Real.sqrt (⟨0, 0, 1⟩ : vec3 ℝ) = 1 ∧
      dot (⟨0.8, 0, -0.6⟩ : vec3 ℝ) ⟨0, 0, 1⟩ ≤ 0 ∧ (0 : ℝ) < 1 ∧ (1 : ℝ) ≤ 1.5 ∧
      0 ≤ 1 - (1 : ℝ) / 1.5 * (1 / 1.5) *
        (1 - cosi (⟨0.8, 0, -0.6⟩ : vec3 ℝ) ⟨0, 0, 1⟩ * cosi (⟨0.8, 0, -0.6⟩ : vec3 ℝ) ⟨0, 0, 1⟩) := by
  have hI : norm Real.sqrt (⟨0.8, 0, -0.6⟩ : vec3 ℝ) = 1 := by
    rw [norm_eq_iff _ _ zero_le_one]
    norm_num [dot]
  have hN : norm Real.sqrt (⟨0, 0, 1⟩ : vec3 ℝ) = 1 := by norm_num [norm]
  have hd : dot (⟨0.8, 0, -0.6⟩ : vec3 ℝ) ⟨0, 0, 1⟩ ≤ 0 := by norm_num [dot]
  exact ⟨hI, hN, hd, by norm_num, by norm_num,
    (refract_no_total_reflection ⟨0.8, 0, -0.6⟩ ⟨0, 0, 1⟩ 1.5 1 hI hN hd (by norm_num)
      (by norm_num)).1⟩

/-- C19: in exact real arithmetic, for every unit-length direction and every
sphere with radius `> 0` whose centre is farther than `radius + 0.001` from the
ray origin: if `scene_intersect` reports that sphere as the nearest hit (the
reported point, normal and material are the ones the sphere loop writes for
it), the reported normal `N` has unit length and faces the incoming ray,
`dot(dir, N) <= 0` (the near root `t0` is the one returned), so `refract` takes
the front-face path without flipping the normal. -/
theorem sphere_hit_front_face (orig dir : vec3 ℝ) (spheres : List (Sphere ℝ)) (s : Sphere ℝ)
    (eta_t eta_i : ℝ) (hdir : norm Real.sqrt dir = 1) (hr : 0 < s.radius)
    (hfar : norm Real.sqrt (subtract s.center orig) > s.radius + 0.001)
    (_hs : s ∈ spheres) (hit : (ray_sphere_intersect Real.sqrt orig dir s).1 = true)
    (hrep : scene_intersect Real.sqrt orig dir spheres =
      ⟨true, add orig (scale dir (ray_sphere_intersect Real.sqrt orig dir s).2),
        normalized Real.sqrt
          (subtract (add orig (scale dir (ray_sphere_intersect Real.sqrt orig dir s).2))
            s.center),
        s.material⟩) :
    norm Real.sqrt (scene_intersect Real.sqrt orig dir spheres).N = 1 ∧
      dot dir (scene_intersect Real.sqrt orig dir spheres).N ≤ 0 ∧
      (ray_sphere_intersect Real.sqrt orig dir s).2 = sphere_t0 Real.sqrt orig dir s ∧
      refract_calls dir (scene_intersect Real.sqrt orig dir spheres).N = 0 ∧
      refract Real.sqrt dir (scene_intersect Real.sqrt orig dir spheres).N eta_t eta_i =
        snell Real.sqrt dir (scene_intersect Real.sqrt orig dir spheres).N eta_t eta_i := by
  obtain ⟨hunit, hdot⟩ := sphere_normal_front orig dir s hdir hr hfar hit
  have ht0 := (ray_sphere_outside_t0 orig dir s hdir hr hfar hit).2
  rw [hrep]
  simp only
  have hc : ¬ cosi dir (normalized Real.sqrt
      (subtract (add orig (scale dir (ray_sphere_intersect Real.sqrt orig dir s).2))
        s.center)) < 0 :=
    not_lt.mpr (cosi_nonneg_of_dot_nonpos _ _ hdot)
  exact ⟨hunit, hdot, ht0, refract_calls_front _ _ hc, refract_front _ _ _ _ _ hc⟩

/-- C19 on the sphere of centre `(0,0,-5)` and radius `1` seen from the origin
along `(0,0,-1)`: the reported normal is `(0,0,1)`. -/
theorem sphere_hit_front_face_witness :
    norm Real.sqrt (⟨0, 0, -1⟩ : vec3 ℝ) = 1 ∧
      norm Real.sqrt (subtract (⟨0, 0, -5⟩ : vec3 ℝ) ⟨0, 0, 0⟩) > 1 + 0.001 ∧
      scene_intersect Real.sqrt ⟨0, 0, 0⟩ ⟨0, 0, -1⟩ [⟨⟨0, 0, -5⟩, 1, glass⟩] =
        ⟨true, ⟨0, 0, -4⟩, ⟨0, 0, 1⟩, glass⟩ ∧
      norm Real.sqrt
        (scene_intersect Real.sqrt ⟨0, 0, 0⟩ ⟨0, 0, -1⟩ [⟨⟨0, 0, -5⟩, 1, glass⟩]).N = 1 ∧
      dot ⟨0, 0, -1⟩
        (scene_intersect Real.sqrt ⟨0, 0, 0⟩ ⟨0, 0, -1⟩ [⟨⟨0, 0, -5⟩, 1, glass⟩]).N ≤ 0 := by
  have hdir : norm Real.sqrt (⟨0, 0, -1⟩ : vec3 ℝ) = 1 := by norm_num [norm]
  have hfar : norm Real.sqrt (subtract (⟨0, 0, -5⟩ : vec3 ℝ) ⟨0, 0, 0⟩) > 1 + 0.001 := by
    have h5 : norm Real.sqrt (subtract (⟨0, 0, -5⟩ : vec3 ℝ) ⟨0, 0, 0⟩) = 5 := by
      rw [norm_eq_iff _ _ (by norm_num)]
      norm_num [dot, subtract]
    rw [h5]
    norm_num
  have hrsi := eval_ray_sphere_hit glass
  have hrep : scene_intersect Real.sqrt ⟨0, 0, 0⟩ ⟨0, 0, -1⟩ [⟨⟨0, 0, -5⟩, 1, glass⟩] =
      ⟨true, add ⟨0, 0, 0⟩ (scale ⟨0, 0, -1⟩
          (ray_sphere_intersect Real.sqrt ⟨0, 0, 0⟩ ⟨0, 0, -1⟩ ⟨⟨0, 0, -5⟩, 1, glass⟩).2),
        normalized Real.sqrt
          (subtract (add ⟨0, 0, 0⟩ (scale ⟨0, 0, -1⟩
            (ray_sphere_intersect Real.sqrt ⟨0, 0, 0⟩ ⟨0, 0, -1⟩ ⟨⟨0, 0, -5⟩, 1, glass⟩).2))
            (⟨⟨0, 0, -5⟩, 1, glass⟩ : Sphere ℝ).center),
        (⟨⟨0, 0, -5⟩, 1, glass⟩ : Sphere ℝ).material⟩ := by
    rw [eval_scene_hit, hrsi]
    norm_num [normalized, norm, add, scale, subtract]
  have h := sphere_hit_front_face ⟨0, 0, 0⟩ ⟨0, 0, -1⟩ [⟨⟨0, 0, -5⟩, 1, glass⟩]
    ⟨⟨0, 0, -5⟩, 1, glass⟩ 1.5 1 hdir (by norm_num) hfar (by simp) (by rw [hrsi]) hrep
  exact ⟨hdir, hfar, eval_scene_hit glass, h.1, h.2.1⟩

end RefractionClaims

/-! ## The claims about the call tree and the camera -/

section RenderClaims

variable {F : Type} [LinearOrderedField F] [FloorRing F]

/-- C14: for the four-sphere, three-light scene built in `main`, the ray of the
top-left corner pixel (pixel index 0: origin `(0,0,0)`, direction
`normalized(-511.5, 383.5, -768/(2*tan(1.05/2)))`) misses every sphere and the
bounded floor rectangle, so `cast_ray` at depth 0 returns exactly
`BACKGROUND_COLOR = (.1955, .9377, .6533)`.  Exact real arithmetic, with
`Real.sqrt` and `Real.tan`, for every `pow`. -/
theorem corner_pixel_background (pow : ℝ → ℝ → ℝ) :
    pixel_dir Real.sqrt Real.tan 0 =
        normalized Real.sqrt ⟨-511.5, 383.5, -768 / (2 * Real.tan (1.05 / 2))⟩ ∧
      (∀ s ∈ (main_spheres : List (Sphere ℝ)),
        ray_sphere_intersect Real.sqrt ⟨0, 0, 0⟩ (pixel_dir Real.sqrt Real.tan 0) s =
          (false, 0)) ∧
      ¬ floor_candidate (⟨0, 0, 0⟩ : vec3 ℝ) (pixel_dir Real.sqrt Real.tan 0) ∧
      (scene_intersect Real.sqrt ⟨0, 0, 0⟩ (pixel_dir Real.sqrt Real.tan 0) main_spheres).hit =
        false ∧
      cast_ray Real.sqrt pow ⟨0, 0, 0⟩ (pixel_dir Real.sqrt Real.tan 0) 0 main_spheres
        main_lights = BACKGROUND_COLOR ∧
      render_pixel Real.sqrt Real.tan pow 0 = ⟨0.1955, 0.9377, 0.6533⟩ := by
  have hhit : (scene_intersect Real.sqrt ⟨0, 0, 0⟩ (pixel_dir Real.sqrt Real.tan 0)
      main_spheres).hit = false := by
    unfold scene_intersect
    simp only [corner_scene_state]
    norm_num [scene_init]
  have hcast : cast_ray Real.sqrt pow ⟨0, 0, 0⟩ (pixel_dir Real.sqrt Real.tan 0) 0 main_spheres
      main_lights = BACKGROUND_COLOR := by
    rw [cast_ray_eq, if_pos (Or.inr hhit)]
  exact ⟨pixel_dir_zero, corner_sphere_miss, corner_not_floor_candidate, hhit, hcast, hcast⟩

/-- C15 as stated fails: from the centre of eleven concentric spheres (radii
`1` to `11`) the ray along `(0, 0, -1)` and all its reflection and refraction
rays hit a sphere at every depth `0..10`, so the call tree is the full binary
tree with levels `0..11`: it has `4095` invocations, more than
`2^(DEPTH+1) = 2048`. -/
theorem cast_ray_call_tree_counterexample :
    (cast_ray_traced Real.sqrt (fun a b => a ^ b) ⟨0, 0, 0⟩ ⟨0, 0, -1⟩ 0 nested_spheres
        main_lights).2 = 4095 ∧
      ¬ (cast_ray_traced Real.sqrt (fun a b => a ^ b) ⟨0, 0, 0⟩ ⟨0, 0, -1⟩ 0 nested_spheres
        main_lights).2 ≤ 2 ^ (DEPTH.toNat + 1) ∧
      (2 : Nat) ^ (DEPTH.toNat + 1) = 2048 := by
  have h := nested_calls (fun a b => a ^ b) main_lights 11 0 0 (-1) rfl (by simp) (Or.inr rfl)
  have h2 : (cast_ray_traced Real.sqrt (fun a b => a ^ b) ⟨0, 0, 0⟩ ⟨0, 0, -1⟩ 0 nested_spheres
      main_lights).2 = 4095 := by
    simpa using h
  have hp : (2 : Nat) ^ (DEPTH.toNat + 1) = 2048 := by decide
  refine ⟨h2, ?_, hp⟩
  rw [h2, hp]
  decide

/-- C15 (amended): for every scene and every ray, the call tree of one top-level
`cast_ray` call at depth 0 (the top-level call plus every recursive `cast_ray`
invocation it triggers, including those that return the background colour
immediately) has at most `2^(DEPTH+2) - 1 = 4095` invocations.  The count is that
of the traced recursion, which computes the colour of `cast_ray`. -/
theorem cast_ray_call_tree (sqrt : F → F) (pow : F → F → F) (orig dir : vec3 F)
    (spheres : List (Sphere F)) (lights : List (vec3 F)) :
    (cast_ray_traced sqrt pow orig dir 0 spheres lights).1 =
        cast_ray sqrt pow orig dir 0 spheres lights ∧
      (cast_ray_traced sqrt pow orig dir 0 spheres lights).2 ≤ 2 ^ (DEPTH.toNat + 2) - 1 ∧
      (2 : Nat) ^ (DEPTH.toNat + 2) - 1 = 4095 := by
  have hn : (DEPTH + 1 - 0).toNat = 11 := by decide
  have hp : (2 : Nat) ^ (DEPTH.toNat + 2) - 1 = 4095 := by decide
  refine ⟨cast_ray_traced_fst sqrt pow spheres lights 11 orig dir 0 hn, ?_, hp⟩
  rw [hp]
  exact cast_ray_traced_snd_le sqrt pow spheres lights 11 orig dir 0 hn

end RenderClaims

end TinyRaytracer
